import Mathlib

/-!
Verification development for the DeckOps/AnkiOps markdown <-> Anki
synchronisation engine.

Python text (`str`) is modelled as `List Char`; Python dicts keyed by
strings or ints are modelled as association lists in insertion order;
Python sets are modelled as duplicate-free lists where only membership
matters.  The AnkiConnect RPC boundary is modelled by an explicit
`RemoteEnv` of deterministic responses plus a trace of issued calls
(`Event`), so that ordering properties ("delete before create",
"no file write before remote mutations finish") become statements
about the trace.  The markdown-to-HTML content codec is out of scope
of the engine (an external collaborator); it is modelled as an
arbitrary total function `conv : Str -> Str`.
-/

abbrev Str := List Char

/-- Python `str` whitespace test (the characters stripped by `str.strip`). -/
def isWs (c : Char) : Bool :=
  c = ' ' || c = '\t' || c = '\n' || c = '\r' || c = '\x0b' || c = '\x0c'

/-- Python `str.lstrip()`. -/
def lstripStr (s : Str) : Str := s.dropWhile isWs

/-- Python `str.rstrip()`. -/
def rstripStr (s : Str) : Str := (s.reverse.dropWhile isWs).reverse

/-- Python `str.strip()`. -/
def stripStr (s : Str) : Str := rstripStr (lstripStr s)

/-- Python `str.split(sep)` for a one-character separator (e.g. `"\n"`). -/
def splitOnChar (sep : Char) : Str → List Str
  | [] => [[]]
  | c :: rest =>
    if c = sep then [] :: splitOnChar sep rest
    else
      match splitOnChar sep rest with
      | [] => [[c]]
      | l :: ls => (c :: l) :: ls

/-- `block.split("\n")`. -/
def splitLines : Str → List Str := splitOnChar '\n'

/-- Python `"\n".join(lines)`. -/
def joinLines : List Str → Str
  | [] => []
  | [l] => l
  | l :: ls => l ++ '\n' :: joinLines ls

/-- Association-list lookup, the model of Python `dict.get` /
`dict.__getitem__` (first binding wins; dicts never hold duplicates). -/
def alookup {α β : Type} [DecidableEq α] (l : List (α × β)) (k : α) : Option β :=
  match l with
  | [] => none
  | (k', v) :: t => if k' = k then some v else alookup t k

/-- `dict.get(k, d)`. -/
def alookupD {α β : Type} [DecidableEq α] (l : List (α × β)) (k : α) (d : β) : β :=
  (alookup l k).getD d

/-- Python `dict[k] = v`: update in place if present, append otherwise. -/
def dictInsert {α β : Type} [DecidableEq α] (l : List (α × β)) (k : α) (v : β) :
    List (α × β) :=
  match l with
  | [] => [(k, v)]
  | (k', v') :: t => if k' = k then (k', v) :: t else (k', v') :: dictInsert t k v

/-- Python `dict.setdefault(k, v)`: insert only when absent. -/
def setDefault {α β : Type} [DecidableEq α] (l : List (α × β)) (k : α) (v : β) :
    List (α × β) :=
  if (alookup l k).isSome then l else l ++ [(k, v)]

/-- Python `set` built by repeated `add`, keeping insertion order. -/
def setAdd {α : Type} [DecidableEq α] (l : List α) (x : α) : List α :=
  if x ∈ l then l else l ++ [x]

/-- Python `s.startswith(p)` on our char-list strings. -/
def isPfxOf : Str → Str → Bool
  | [], _ => true
  | _ :: _, [] => false
  | a :: as, b :: bs => if a = b then isPfxOf as bs else false

/-- Consume a literal prefix, returning the remainder on success. -/
def dropLit (lit s : Str) : Option Str :=
  if isPfxOf lit s then some (s.drop lit.length) else none

/-- The decimal digit character for `n < 10`. -/
def digitChar : Nat → Char
  | 0 => '0' | 1 => '1' | 2 => '2' | 3 => '3' | 4 => '4'
  | 5 => '5' | 6 => '6' | 7 => '7' | 8 => '8' | _ => '9'

/-- Decimal rendering with structural fuel (`fuel ≥ n` suffices), so the
kernel can evaluate it. -/
def renderNatGo : Nat → Nat → Str
  | 0, n => [digitChar (n % 10)]
  | fuel + 1, n =>
    if n < 10 then [digitChar n]
    else renderNatGo fuel (n / 10) ++ [digitChar (n % 10)]

/-- Python `str(n)` for a natural number (f-string interpolation of ids). -/
def renderNat (n : Nat) : Str := renderNatGo n n

def isDigitC (c : Char) : Bool := '0' ≤ c && c ≤ '9'

def digitVal (c : Char) : Nat := c.toNat - 48

/-- Python `int(digits)` on a digit string (the regex capture `(\d+)`). -/
def parseNatDigits (ds : Str) : Nat :=
  ds.foldl (fun a c => a * 10 + digitVal c) 0

/-- Model of `re.match(r"<!--\s*TAG\s*(\d+)\s*-->", s)` for
`TAG ∈ {note_id:, deck_id:}` (anchored at the start, trailing text
allowed).  Returns the captured number and the remainder after `-->`. -/
def matchIdTag (tag : Str) (s : Str) : Option (Nat × Str) :=
  match dropLit ("<!--".toList) s with
  | none => none
  | some s1 =>
    match dropLit tag (s1.dropWhile isWs) with
    | none => none
    | some s3 =>
      let s4 := s3.dropWhile isWs
      let ds := s4.takeWhile isDigitC
      if ds.isEmpty then none
      else
        match dropLit ("-->".toList) ((s4.drop ds.length).dropWhile isWs) with
        | none => none
        | some s6 => some (parseNatDigits ds, s6)

/-- `models.FileState.extract_deck_id`: match the deck-id marker (with its
optional trailing newline, per `_DECK_ID_PATTERN`) at the start of the
content and return `(deck_id, remaining)`. -/
def extractDeckId (content : Str) : Option Nat × Str :=
  match matchIdTag ("deck_id:".toList) content with
  | some (n, rest) =>
    (some n, match rest with
             | '\n' :: r => r
             | r => r)
  | none => (none, content)

/-- Python `s.replace(old, new, 1)`. -/
def replaceFirstOcc (pat rep : Str) : Str → Str
  | [] => if pat.isEmpty then rep else []
  | c :: rest =>
    if isPfxOf pat (c :: rest) then rep ++ (c :: rest).drop pat.length
    else c :: replaceFirstOcc pat rep rest

/-- Python `s.replace(old, new)` (all non-overlapping occurrences, left to
right), with structural fuel (`fuel ≥ s.length` suffices). -/
def replaceAllGo (pat rep : Str) : Nat → Str → Str
  | _, [] => if pat.isEmpty then rep else []
  | 0, s => s
  | fuel + 1, c :: rest =>
    if pat.isEmpty then rep ++ c :: replaceAllGo pat rep fuel rest
    else if isPfxOf pat (c :: rest) then
      rep ++ replaceAllGo pat rep fuel ((c :: rest).drop pat.length)
    else c :: replaceAllGo pat rep fuel rest

def replaceAllOcc (pat rep s : Str) : Str := replaceAllGo pat rep s.length s

/-- `answer.strip().lower()` as applied to interactive confirmation input. -/
def stripLower (s : Str) : Str := (stripStr s).map Char.toLower

/-- Python-set insertion fold used to count distinct elements. -/
def dedupL {α : Type} [DecidableEq α] (l : List α) : List α :=
  l.foldl setAdd []

/-- Decidable equality for `Except`, used to evaluate the model on
concrete inputs. -/
instance {e a : Type} [DecidableEq e] [DecidableEq a] : DecidableEq (Except e a) :=
  fun x y =>
    match x, y with
    | .ok v, .ok w =>
      if h : v = w then isTrue (by rw [h]) else isFalse (by intro he; cases he; exact h rfl)
    | .error v, .error w =>
      if h : v = w then isTrue (by rw [h]) else isFalse (by intro he; cases he; exact h rfl)
    | .ok _, .error _ => isFalse (by intro he; cases he)
    | .error _, .ok _ => isFalse (by intro he; cases he)

/-! ## Note-type configuration (`config.NOTE_TYPES`) -/

/-- `config.COMMON_FIELDS`: `(field_name, prefix, required)` triples. -/
def commonFields : List (Str × Str × Bool) :=
  [("Extra".toList, "E:".toList, false),
   ("More".toList, "M:".toList, false),
   ("Source".toList, "S:".toList, false),
   ("AI Notes".toList, "AI:".toList, false)]

/-- `config.NOTE_TYPES`: per-type ordered field mappings, in the source's
dict insertion order. -/
def noteTypes : List (Str × List (Str × Str × Bool)) :=
  [("AnkiOpsQA".toList,
    [("Question".toList, "Q:".toList, true),
     ("Answer".toList, "A:".toList, true)] ++ commonFields),
   ("AnkiOpsReversed".toList,
    [("Front".toList, "F:".toList, true),
     ("Back".toList, "B:".toList, true)] ++ commonFields),
   ("AnkiOpsCloze".toList,
    [("Text".toList, "T:".toList, true)] ++ commonFields),
   ("AnkiOpsInput".toList,
    [("Question".toList, "Q:".toList, true),
     ("Input".toList, "I:".toList, true)] ++ commonFields),
   ("AnkiOpsChoice".toList,
    [("Question".toList, "Q:".toList, true),
     ("Choice 1".toList, "C1:".toList, true),
     ("Choice 2".toList, "C2:".toList, false),
     ("Choice 3".toList, "C3:".toList, false),
     ("Choice 4".toList, "C4:".toList, false),
     ("Choice 5".toList, "C5:".toList, false),
     ("Choice 6".toList, "C6:".toList, false),
     ("Choice 7".toList, "C7:".toList, false),
     ("Choice 8".toList, "C8:".toList, false),
     ("Answer".toList, "A:".toList, true)] ++ commonFields)]

/-- `config.ALL_PREFIX_TO_FIELD`: fold over all types' mappings with dict
insertion semantics. -/
def allPfxToField : List (Str × Str) :=
  noteTypes.foldl
    (fun acc tcfg => tcfg.2.foldl (fun acc2 m => dictInsert acc2 m.2.1 m.1) acc) []

/-- `models._FIELD_TO_PREFIX`: the reverse dict. -/
def fieldToPfx : List (Str × Str) :=
  allPfxToField.foldl (fun acc pf => dictInsert acc pf.2 pf.1) []

def requiredFields (maps : List (Str × Str × Bool)) : List Str :=
  (maps.filter (fun m => m.2.2)).map (fun m => m.1)

def fieldNames (maps : List (Str × Str × Bool)) : List Str :=
  maps.map (fun m => m.1)

/-! ## Errors -/

inductive NoteErr where
  | unknownType (t : Str)
  | missingField (name pfx : Str)
  | clozeNoSyntax
  | choiceNotInt
  | choiceOutOfRange (n : Int) (maxC : Nat)
deriving DecidableEq, Repr

/-- Per-record errors collected into a `FileImportResult` (non-fatal). -/
inductive EErr where
  | noteValidation (ident : Str) (e : NoteErr)
  | moveFailed (noteId : Option Nat) (msg : Str)
  | updateFailed (noteId : Option Nat) (msg : Str)
  | createFailed (ident : Str) (msg : Str)
deriving DecidableEq, Repr

/-- Run-aborting errors (`raise`/`SystemExit` in the source). -/
inductive Err where
  | duplicateIds (collisions : List (Nat × Str × Str)) (ids : List Nat)
  | cancelled
  | typeMismatch (noteId : Nat) (mdType ankiType : Str)
  | duplicateFirstLines (path : Str) (lines : List Str)
  | duplicateField (pfx : Str)
  | unknownNoteType (keys : List Str)
  | remote (msg : Str)
deriving DecidableEq, Repr

/-! ## Note (`models.Note`) -/

structure Note where
  note_id : Option Nat
  note_type : Str
  fields : List (Str × Str)
deriving DecidableEq, Repr

/-- `models._CLOZE_PATTERN.search`: `\{\{c\d+::` anywhere in the text. -/
def clozeAt (s : Str) : Bool :=
  match dropLit ("\x7b\x7bc".toList) s with
  | none => false
  | some r =>
    let ds := r.takeWhile isDigitC
    (!ds.isEmpty) && isPfxOf ("::".toList) (r.drop ds.length)

def containsCloze : Str → Bool
  | [] => false
  | c :: rest => clozeAt (c :: rest) || containsCloze rest

/-- `"Choice {i}"`. -/
def choiceFieldName (i : Nat) : Str := "Choice ".toList ++ renderNat i

/-- `max((i for i in range(1, 9) if self.fields.get(f"Choice {i}")), default=0)`. -/
def maxChoice (fields : List (Str × Str)) : Nat :=
  (List.range 8).foldl
    (fun acc j =>
      if (alookupD fields (choiceFieldName (j + 1)) []).isEmpty then acc
      else Nat.max acc (j + 1)) 0

/-- Python `int(p)` on an already-stripped token. -/
def parsePyInt (s : Str) : Option Int :=
  match s with
  | '-' :: ds =>
    if (!ds.isEmpty) && ds.all isDigitC then some (-(parseNatDigits ds : Int)) else none
  | '+' :: ds =>
    if (!ds.isEmpty) && ds.all isDigitC then some ((parseNatDigits ds : Int)) else none
  | ds =>
    if (!ds.isEmpty) && ds.all isDigitC then some ((parseNatDigits ds : Int)) else none

/-- `models.Note._validate_choice_answers`. -/
def validateChoiceAnswers (fields : List (Str × Str)) : List NoteErr :=
  let answer := alookupD fields ("Answer".toList) []
  if answer.isEmpty then []
  else
    let parts := (splitOnChar ',' answer).map stripStr
    match parts.mapM parsePyInt with
    | none => [NoteErr.choiceNotInt]
    | some ints =>
      let mc := maxChoice fields
      match ints.find? (fun n => decide (n < 1) || decide ((mc : Int) < n)) with
      | some n => [NoteErr.choiceOutOfRange n mc]
      | none => []

/-- `models.Note.validate`: mandatory fields plus type-specific checks. -/
def validateNote (n : Note) : List NoteErr :=
  match alookup noteTypes n.note_type with
  | none => [NoteErr.unknownType n.note_type]
  | some maps =>
    let missing := maps.foldl
      (fun acc m =>
        if m.2.2 && (alookupD n.fields m.1 []).isEmpty then
          acc ++ [NoteErr.missingField m.1 m.2.1]
        else acc) []
    let clz :=
      if n.note_type = "AnkiOpsCloze".toList then
        let text := alookupD n.fields ("Text".toList) []
        if (!text.isEmpty) && !containsCloze text then [NoteErr.clozeNoSyntax] else []
      else []
    let cho :=
      if n.note_type = "AnkiOpsChoice".toList then validateChoiceAnswers n.fields
      else []
    missing ++ clz ++ cho

/-- `models.Note.to_html`: convert every present field, then `setdefault`
every field the note type defines to `""` so removed optional fields are
cleared remotely. -/
def toHtml (conv : Str → Str) (n : Note) : List (Str × Str) :=
  let html := n.fields.map (fun kv => (kv.1, conv kv.2))
  (alookupD noteTypes n.note_type []).foldl (fun acc m => setDefault acc m.1 []) html

/-- `models.Note.html_fields_match`: `all(anki.fields.get(k) == v for k, v in html)`. -/
def htmlFieldsMatch (html ankiFields : List (Str × Str)) : Bool :=
  html.all (fun kv => decide (alookup ankiFields kv.1 = some kv.2))

/-- `models.Note.first_line`: first field (in insertion order) that has a
known prefix, rendered as `prefix + " " + first content line`. -/
def firstLineGo : List (Str × Str) → Str
  | [] => []
  | (fname, content) :: rest =>
    let pfx := alookupD fieldToPfx fname []
    let firstContent := if content.isEmpty then [] else (splitLines content).headD []
    if (!pfx.isEmpty) && (!firstContent.isEmpty) then pfx ++ ' ' :: firstContent
    else if !pfx.isEmpty then pfx
    else firstLineGo rest

def firstLine (n : Note) : Str := firstLineGo n.fields

/-- `models.Note.identifier` (used only inside error payloads). -/
def noteIdent (n : Note) : Str :=
  match n.note_id with
  | some k => if k ≠ 0 then "note_id: ".toList ++ renderNat k else (firstLine n).take 60
  | none => (firstLine n).take 60

/-! ## Block parser (`models.Note.from_block`) -/

structure PState where
  note_id : Option Nat
  fields : List (Str × Str)
  currentField : Option Str
  currentContent : List Str
  inCode : Bool
  seen : List Str
deriving DecidableEq, Repr

/-- `fields[current_field] = "\n".join(current_content).strip()` when a
field is open (keys are fresh because duplicate prefixes raise). -/
def flushCur (st : PState) : List (Str × Str) :=
  match st.currentField with
  | some f => st.fields ++ [(f, stripStr (joinLines st.currentContent))]
  | none => st.fields

/-- First `(prefix, field)` entry whose prefix matches the line
(`line.startswith(prefix + " ") or line == prefix`). -/
def scanPfx : List (Str × Str) → Str → Option (Str × Str)
  | [], _ => none
  | (p, f) :: rest, line =>
    if isPfxOf (p ++ [' ']) line || line = p then some (p, f)
    else scanPfx rest line

/-- One iteration of the `for line in lines` loop of `from_block`. -/
def parseLine (line : Str) (st : PState) : Except Err PState :=
  let stripped := lstripStr line
  if isPfxOf ("```".toList) stripped || isPfxOf ("~~~".toList) stripped then
    .ok { st with inCode := !st.inCode,
                  currentContent :=
                    if st.currentField.isSome then st.currentContent ++ [line]
                    else st.currentContent }
  else
    match matchIdTag ("note_id:".toList) line with
    | some (k, _) => .ok { st with note_id := some k }
    | none =>
      if st.inCode then
        .ok { st with currentContent :=
                        if st.currentField.isSome then st.currentContent ++ [line]
                        else st.currentContent }
      else
        match scanPfx allPfxToField line with
        | some (p, f) =>
          if f ∈ st.seen then .error (Err.duplicateField p)
          else
            .ok { st with
                  seen := st.seen ++ [f],
                  fields := flushCur st,
                  currentField := some f,
                  currentContent :=
                    if isPfxOf (p ++ [' ']) line then [line.drop (p.length + 1)] else [] }
        | none =>
          .ok { st with currentContent :=
                          if st.currentField.isSome then st.currentContent ++ [line]
                          else st.currentContent }

def parseLinesM : List Str → PState → Except Err PState
  | [], st => .ok st
  | l :: ls, st =>
    match parseLine l st with
    | .error e => .error e
    | .ok st' => parseLinesM ls st'

/-- `models.Note.infer_note_type`: every type except the generic
`AnkiOpsQA` first, in table order; then the QA fallback. -/
def inferNoteType (keys : List Str) : Except Err Str :=
  match (noteTypes.filter (fun t => decide ¬(t.1 = "AnkiOpsQA".toList))).find?
      (fun t => (requiredFields t.2).all (fun f => decide (f ∈ keys))) with
  | some t => .ok t.1
  | none =>
    if "Question".toList ∈ keys ∧ "Answer".toList ∈ keys then .ok ("AnkiOpsQA".toList)
    else .error (Err.unknownNoteType keys)

/-- `models.Note.from_block`. -/
def fromBlock (block : Str) : Except Err Note :=
  let lines := splitLines (stripStr block)
  match parseLinesM lines ⟨none, [], none, [], false, []⟩ with
  | .error e => .error e
  | .ok st =>
    let fields := flushCur st
    match inferNoteType (fields.map (fun kv => kv.1)) with
    | .error e => .error e
    | .ok ty => .ok ⟨st.note_id, ty, fields⟩

/-! ## Block formatter (`models.AnkiNote.to_markdown`) -/

/-- One `field_mappings` entry rendered as a markdown line:
emitted when the field value is non-empty and the converted text is
non-empty or the field mandatory. -/
def mappingLine (conv : Str → Str) (fields : List (Str × Str)) (m : Str × Str × Bool) :
    Option Str :=
  let value := alookupD fields m.1 []
  if value.isEmpty then none
  else
    let md := conv value
    if (!md.isEmpty) || m.2.2 then some (m.2.1 ++ ' ' :: md) else none

/-- `models.AnkiNote.to_markdown`: the id marker line followed by one line
per non-empty field, in field-mapping order.  `conv` is the HTML-to-markdown
codec (out of scope, total). -/
def toMarkdown (conv : Str → Str) (noteId : Nat) (noteType : Str)
    (fields : List (Str × Str)) : Str :=
  let maps := alookupD noteTypes noteType []
  joinLines (("<!-- note_id: ".toList ++ renderNat noteId ++ " -->".toList) ::
             maps.filterMap (mappingLine conv fields))

/-! ## Anki-side state (`models.AnkiState`, read once per run) -/

structure AnkiNote where
  note_id : Nat
  note_type : Str
  fields : List (Str × Str)
  card_ids : List Nat
deriving DecidableEq, Repr

structure CardInfo where
  deckName : Str
  note : Nat
deriving DecidableEq, Repr

structure AnkiState where
  deck_names_and_ids : List (Str × Nat)
  id_to_deck_name : List (Nat × Str)
  notes : List (Nat × AnkiNote)
  cards : List (Nat × CardInfo)
  deck_note_ids : List (Str × List Nat)
deriving DecidableEq, Repr

def emptyAnki : AnkiState := ⟨[], [], [], [], []⟩

/-! ## Local file state (`models.FileState`), as produced by the pure
parsing phase (phase 1 of `import_collection`, which performs only local
file reads and no remote calls). -/

structure FileState where
  file_path : Str
  stem : Str
  raw_content : Str
  deck_id : Option Nat
  parsed_notes : List Note
deriving DecidableEq, Repr

/-- `{n.note_id for n in fs.parsed_notes if n.note_id is not None}`. -/
def declaredNoteIds (fs : FileState) : List Nat :=
  dedupL (fs.parsed_notes.filterMap (fun n => n.note_id))

def fsHasUntracked (ns : List Note) : Bool :=
  ns.any (fun n => n.note_id.isNone)

/-! ## Remote calls and the event trace -/

/-- The mutating AnkiConnect calls the import engine can issue. -/
inductive RemoteOp where
  | createDeck (deck : Str)
  | changeDeck (cards : List Nat) (deck : Str)
  | updateNotes (updates : List (Nat × List (Str × Str)))
  | deleteNotes (ids : List Nat)
  | addNotes (deck : Str) (notes : List (Str × List (Str × Str)))
deriving DecidableEq, Repr

inductive Event where
  | fetchState
  | remote (op : RemoteOp)
  | fileWrite (path : Str) (content : Str)
deriving DecidableEq, Repr

def Event.isWrite : Event → Bool
  | .fileWrite _ _ => true
  | _ => false

def eventWritePath : Event → Option Str
  | .fileWrite p _ => some p
  | _ => none

/-- Deterministic environment of AnkiConnect responses: every call either
returns a value or raises (transport / AnkiConnect error). -/
structure RemoteEnv where
  fetched : Except Str AnkiState
  createDeckRes : Str → Except Str Nat
  changeDeckRes : List Nat → Str → Except Str Unit
  multiUpdateRes : List (Nat × List (Str × Str)) → Except Str (List (Option Str))
  deleteNotesRes : List Nat → Except Str Unit
  multiAddRes : Str → List (Str × List (Str × Str)) → Except Str (List (Option Nat))

/-- Mutable run state: the issued-call/file-write trace plus the (locally
mutated) Anki-side caches. -/
structure St where
  trace : List Event
  anki : AnkiState
deriving DecidableEq, Repr

def emitEv (s : St) (e : Event) : St := { s with trace := s.trace ++ [e] }

/-! ## Import engine (`markdown_to_anki._sync_file` and friends) -/

structure FileImportResult where
  file_path : Str
  deck_name : Str
  total_notes : Nat
  updated : Nat
  created : Nat
  deleted : Nat
  moved : Nat
  skipped : Nat
  errors : List EErr
deriving DecidableEq, Repr

structure PendingWrite where
  file_path : Str
  raw_content : Str
  deck_id_to_write : Option Nat
  id_assignments : List (Note × Nat)
deriving DecidableEq, Repr

/-- `file_path.stem.replace("__", "::")`. -/
def stemDeckName (fs : FileState) : Str :=
  replaceAllOcc ("__".toList) ("::".toList) fs.stem

/-- The deck name `_sync_file` phase 0 resolves to (pure view). -/
def resolveName (anki : AnkiState) (fs : FileState) : Str :=
  match fs.deck_id with
  | some d =>
    if d ≠ 0 then
      match alookup anki.id_to_deck_name d with
      | some nm => nm
      | none => stemDeckName fs
    else stemDeckName fs
  | none => stemDeckName fs

/-- `_sync_file` phase 0: resolve the deck by id or filename, creating a
remote deck (a remote mutation) when no deck of that name exists, and
queueing the deck id for write-back when the file had none. -/
def resolveDeck (env : RemoteEnv) (fs : FileState) (s : St) :
    Except Err (Str × Option Nat) × St :=
  let byId : Option Str :=
    match fs.deck_id with
    | some d => if d ≠ 0 then alookup s.anki.id_to_deck_name d else none
    | none => none
  match byId with
  | some name => (.ok (name, none), s)
  | none =>
    let deckName := stemDeckName fs
    match alookup s.anki.deck_names_and_ids deckName with
    | none =>
      let s1 := emitEv s (.remote (.createDeck deckName))
      match env.createDeckRes deckName with
      | .error e => (.error (Err.remote e), s1)
      | .ok newId =>
        let anki1 :=
          { s1.anki with
            deck_names_and_ids := dictInsert s1.anki.deck_names_and_ids deckName newId,
            id_to_deck_name := dictInsert s1.anki.id_to_deck_name newId deckName }
        (.ok (deckName, some newId), { s1 with anki := anki1 })
    | some existingId =>
      match fs.deck_id with
      | some d => if d ≠ 0 then (.ok (deckName, none), s)
                  else (.ok (deckName, some existingId), s)
      | none => (.ok (deckName, some existingId), s)

structure Classified where
  errors : List EErr
  skipped : Nat
  existing : List (Note × List (Str × Str))
  newNotes : List (Note × List (Str × Str))
deriving DecidableEq, Repr

/-- `_sync_file` phase 1: validate, convert, split into existing/new.
A note id of `0` is falsy in Python and therefore classified as new. -/
def classifyStep (conv : Str → Str) (onlyAddNew : Bool) (c : Classified) (n : Note) :
    Classified :=
  let errs := validateNote n
  if errs.isEmpty then
    let html := toHtml conv n
    match n.note_id with
    | some k =>
      if k ≠ 0 then
        if onlyAddNew then { c with skipped := c.skipped + 1 }
        else { c with existing := c.existing ++ [(n, html)] }
      else { c with newNotes := c.newNotes ++ [(n, html)] }
    | none => { c with newNotes := c.newNotes ++ [(n, html)] }
  else
    { c with errors := c.errors ++ errs.map (fun e => EErr.noteValidation (noteIdent n) e) }

def classify (conv : Str → Str) (onlyAddNew : Bool) (ns : List Note) : Classified :=
  ns.foldl (classifyStep conv onlyAddNew) ⟨[], 0, [], []⟩

/-- `_sync_file` phase 2 safety check: first existing note whose remote
record has a different note type (the run-aborting `ValueError`). -/
def guardTypes (anki : AnkiState) (existing : List (Note × List (Str × Str))) :
    Option Err :=
  existing.findSome? (fun e =>
    match e.1.note_id with
    | some k =>
      match alookup anki.notes k with
      | some an =>
        if an.note_type ≠ e.1.note_type then
          some (Err.typeMismatch k e.1.note_type an.note_type)
        else none
      | none => none
    | none => none)

/-- Card ids of existing notes whose current deck differs from the target. -/
def cardsToMove (anki : AnkiState) (deckName : Str)
    (existing : List (Note × List (Str × Str))) : List Nat :=
  existing.foldl
    (fun acc e =>
      match e.1.note_id with
      | some k =>
        match alookup anki.notes k with
        | some an =>
          acc ++ an.card_ids.filter (fun cid =>
            match alookup anki.cards cid with
            | some c => decide ¬(c.deckName = deckName)
            | none => false)
        | none => acc
      | none => acc) []

/-- `_sync_file` phase 2 moves: one `changeDeck` call; a failure is recorded
per-record, not fatal. -/
def movePhase (env : RemoteEnv) (deckName : Str)
    (existing : List (Note × List (Str × Str))) (res : FileImportResult) (s : St) :
    FileImportResult × St :=
  let toMove := cardsToMove s.anki deckName existing
  if toMove.isEmpty then (res, s)
  else
    let s1 := emitEv s (.remote (.changeDeck toMove deckName))
    match env.changeDeckRes toMove deckName with
    | .ok _ =>
      let movedNotes := dedupL (toMove.filterMap (fun cid =>
        (alookup s.anki.cards cid).map (fun c => c.note)))
      ({ res with moved := res.moved + movedNotes.length }, s1)
    | .error e =>
      ({ res with errors := res.errors ++
          existing.map (fun x => EErr.moveFailed x.1.note_id e) }, s1)

structure UpdateSplit where
  stale : List (Note × List (Str × Str))
  updates : List (Nat × List (Str × Str))
  updateNotes : List Note
  skippedDelta : Nat
deriving DecidableEq, Repr

/-- `_sync_file` phase 2 update loop: vanished notes become stale, matching
notes are skipped, the rest go into the batch. -/
def buildUpdates (anki : AnkiState) (existing : List (Note × List (Str × Str))) :
    UpdateSplit :=
  existing.foldl
    (fun u e =>
      match e.1.note_id with
      | some k =>
        match alookup anki.notes k with
        | some an =>
          if an.fields.isEmpty then { u with stale := u.stale ++ [e] }
          else if htmlFieldsMatch e.2 an.fields then
            { u with skippedDelta := u.skippedDelta + 1 }
          else
            { u with updates := u.updates ++ [(k, e.2)],
                     updateNotes := u.updateNotes ++ [e.1] }
        | none => { u with stale := u.stale ++ [e] }
      | none => { u with stale := u.stale ++ [e] })
    ⟨[], [], [], 0⟩

/-- `_sync_file` phase 2 batch update; per-item results, errors non-fatal. -/
def updatePhase (env : RemoteEnv) (existing : List (Note × List (Str × Str)))
    (res : FileImportResult) (s : St) :
    (List (Note × List (Str × Str)) × FileImportResult) × St :=
  let u := buildUpdates s.anki existing
  let res1 := { res with skipped := res.skipped + u.skippedDelta }
  if u.updates.isEmpty then ((u.stale, res1), s)
  else
    let s1 := emitEv s (.remote (.updateNotes u.updates))
    match env.multiUpdateRes u.updates with
    | .ok rs =>
      let res2 := (u.updateNotes.zip rs).foldl
        (fun r nr =>
          match nr.2 with
          | none => { r with updated := r.updated + 1 }
          | some msg => { r with errors := r.errors ++ [EErr.updateFailed nr.1.note_id msg] })
        res1
      ((u.stale, res2), s1)
    | .error e =>
      ((u.stale,
        { res1 with errors := res1.errors ++
            u.updateNotes.map (fun n => EErr.updateFailed n.note_id e) }), s1)

/-- The orphan set of `_sync_file` phase 3:
`anki.deck_note_ids[deck] - md_note_ids`, minus the cross-file global id
set when one was supplied (collection mode). -/
def orphanedIds (anki : AnkiState) (deckName : Str) (fs : FileState)
    (globalIds : List Nat) : List Nat :=
  let mdIds := declaredNoteIds fs
  let deckIds := alookupD anki.deck_note_ids deckName []
  let o1 := deckIds.filter (fun x => decide ¬(x ∈ mdIds))
  if globalIds.isEmpty then o1 else o1.filter (fun x => decide ¬(x ∈ globalIds))

/-- `_sync_file` phase 3: delete orphans (the `deleteNotes` call is not
wrapped in try/except, so a failure aborts). -/
def deletePhase (env : RemoteEnv) (deckName : Str) (fs : FileState)
    (globalIds : List Nat) (res : FileImportResult) (s : St) :
    Except Err FileImportResult × St :=
  let orphaned := orphanedIds s.anki deckName fs globalIds
  if orphaned.isEmpty then (.ok res, s)
  else
    let s1 := emitEv s (.remote (.deleteNotes orphaned))
    match env.deleteNotesRes orphaned with
    | .error e => (.error (Err.remote e), s1)
    | .ok _ => (.ok { res with deleted := res.deleted + orphaned.length }, s1)

/-- `_sync_file` phase 4: batch create; per-item results; an id result that
is absent or `0` (falsy) is a per-record error. -/
def createPhase (env : RemoteEnv) (deckName : Str)
    (newNotes : List (Note × List (Str × Str))) (res : FileImportResult) (s : St) :
    (FileImportResult × List (Note × Nat)) × St :=
  if newNotes.isEmpty then ((res, []), s)
  else
    let payload := newNotes.map (fun e => (e.1.note_type, e.2))
    let s1 := emitEv s (.remote (.addNotes deckName payload))
    match env.multiAddRes deckName payload with
    | .error e =>
      (({ res with errors := res.errors ++
           newNotes.map (fun e2 => EErr.createFailed (noteIdent e2.1) e) }, []), s1)
    | .ok rs =>
      let out := (newNotes.zip rs).foldl
        (fun (acc : FileImportResult × List (Note × Nat)) nr =>
          match nr.2 with
          | some nid =>
            if nid ≠ 0 then
              ({ acc.1 with created := acc.1.created + 1 }, acc.2 ++ [(nr.1.1, nid)])
            else
              ({ acc.1 with errors := acc.1.errors ++
                  [EErr.createFailed (noteIdent nr.1.1) []] }, acc.2)
          | none =>
            ({ acc.1 with errors := acc.1.errors ++
                [EErr.createFailed (noteIdent nr.1.1) []] }, acc.2))
        (res, [])
      (out, s1)

/-- `markdown_to_anki._sync_file`: the per-file reconciliation pass. -/
def syncFile (env : RemoteEnv) (conv : Str → Str) (onlyAddNew : Bool)
    (globalIds : List Nat) (fs : FileState) (s : St) :
    Except Err (FileImportResult × PendingWrite) × St :=
  match resolveDeck env fs s with
  | (.error e, s1) => (.error e, s1)
  | (.ok (deckName, deckIdToWrite), s1) =>
    let c := classify conv onlyAddNew fs.parsed_notes
    let res0 : FileImportResult :=
      { file_path := fs.file_path, deck_name := deckName,
        total_notes := fs.parsed_notes.length,
        updated := 0, created := 0, deleted := 0, moved := 0,
        skipped := c.skipped, errors := c.errors }
    match guardTypes s1.anki c.existing with
    | some e => (.error e, s1)
    | none =>
      let (res1, s2) := movePhase env deckName c.existing res0 s1
      let ((stale, res2), s3) := updatePhase env c.existing res1 s2
      let newAll := c.newNotes ++ stale
      match deletePhase env deckName fs globalIds res2 s3 with
      | (.error e, s4) => (.error e, s4)
      | (.ok res3, s4) =>
        let ((res4, idAssignments), s5) := createPhase env deckName newAll res3 s4
        (.ok (res4,
              { file_path := fs.file_path, raw_content := fs.raw_content,
                deck_id_to_write := deckIdToWrite,
                id_assignments := idAssignments }), s5)

/-! ## Write-back (`markdown_to_anki._flush_writes`) -/

/-- First lines of the newly assigned (previously id-less) records. -/
def newFirstLines (asg : List (Note × Nat)) : List Str :=
  (asg.filter (fun a => a.1.note_id.isNone)).map (fun a => firstLine a.1)

/-- The lines shared by more than one new record
(`_validate_no_duplicate_first_lines`). -/
def dupLines (ls : List Str) : List Str :=
  (dedupL ls).filter (fun x => decide (2 ≤ ls.count x))

/-- One id assignment applied to the file content: replace-in-place for a
stale id, prepend-before-first-line for a new record. -/
def applyAssignment (content : Str) (a : Note × Nat) : Str :=
  let newComment := "<!-- note_id: ".toList ++ renderNat a.2 ++ " -->".toList
  match a.1.note_id with
  | some old =>
    let oldComment := "<!-- note_id: ".toList ++ renderNat old ++ " -->".toList
    replaceFirstOcc oldComment newComment content
  | none =>
    replaceFirstOcc (firstLine a.1) (newComment ++ '\n' :: firstLine a.1) content

/-- `_flush_writes` step 1: insert or replace the deck-id line at the top. -/
def flushContent1 (w : PendingWrite) : Str :=
  match w.deck_id_to_write with
  | some d =>
    "<!-- deck_id: ".toList ++ renderNat d ++ " -->".toList ++
      '\n' :: (extractDeckId w.raw_content).2
  | none => w.raw_content

/-- One iteration of `_flush_writes`: build the new content, validating the
duplicate-first-line guard before anything is written; emit at most one
complete `fileWrite` event. -/
def flushOne (w : PendingWrite) (s : St) : Except Err Unit × St :=
  if w.deck_id_to_write.isNone && w.id_assignments.isEmpty then (.ok (), s)
  else if w.id_assignments.isEmpty then
    (.ok (), emitEv s (.fileWrite w.file_path (flushContent1 w)))
  else if (dupLines (newFirstLines w.id_assignments)).isEmpty then
    (.ok (), emitEv s (.fileWrite w.file_path
      (w.id_assignments.foldl applyAssignment (flushContent1 w))))
  else (.error (Err.duplicateFirstLines w.file_path
    (dupLines (newFirstLines w.id_assignments))), s)

def flushWrites : List PendingWrite → St → Except Err Unit × St
  | [], s => (.ok (), s)
  | w :: ws, s =>
    match flushOne w s with
    | (.error e, s1) => (.error e, s1)
    | (.ok _, s1) => flushWrites ws s1

/-! ## Collection orchestration (`markdown_to_anki.import_collection`) -/

/-- Accumulator of the cross-file validation pass (phase 2). -/
structure P2Out where
  globalIds : List Nat
  noteSrc : List (Nat × Str)
  deckSrc : List (Nat × Str)
  collisions : List (Nat × Str × Str)
  dupIds : List Nat
  mdDeckIds : List Nat
deriving DecidableEq, Repr

def p2Note (fname : Str) (st : P2Out) (n : Note) : P2Out :=
  match n.note_id with
  | none => st
  | some k =>
    let st1 :=
      match alookup st.noteSrc k with
      | some src =>
        { st with collisions := st.collisions ++ [(k, fname, src)],
                  dupIds := setAdd st.dupIds k }
      | none => { st with noteSrc := st.noteSrc ++ [(k, fname)] }
    { st1 with globalIds := setAdd st1.globalIds k }

def p2File (st : P2Out) (fs : FileState) : P2Out :=
  let st1 :=
    match fs.deck_id with
    | none => st
    | some d =>
      let st' := { st with mdDeckIds := setAdd st.mdDeckIds d }
      match alookup st'.deckSrc d with
      | some src =>
        { st' with collisions := st'.collisions ++ [(d, fs.file_path, src)],
                   dupIds := setAdd st'.dupIds d }
      | none => { st' with deckSrc := st'.deckSrc ++ [(d, fs.file_path)] }
  fs.parsed_notes.foldl (p2Note fs.file_path) st1

/-- `import_collection` phase 2: cross-file duplicate-identifier scan over
the already-parsed file states (parsing itself is local and performs no
remote call). -/
def phase2 (fss : List FileState) : P2Out :=
  fss.foldl p2File ⟨[], [], [], [], [], []⟩

/-- `models.FileState.validate_ids`: ids declared locally that do not exist
in Anki (drives the interactive confirmation). -/
def validateIds (fss : List FileState) (validDecks validNotes : List Nat) :
    List (Bool × Nat × Str) :=
  fss.foldl
    (fun acc fs =>
      let acc1 :=
        match fs.deck_id with
        | some d => if d ∈ validDecks then acc else acc ++ [(true, d, fs.file_path)]
        | none => acc
      fs.parsed_notes.foldl
        (fun a n =>
          match n.note_id with
          | some k => if k ∈ validNotes then a else a ++ [(false, k, fs.file_path)]
          | none => a) acc1) []

/-- `import_collection` phase 5: run `_sync_file` per file, accumulating
results and pending writes (an abort stops the loop). -/
def syncAll (env : RemoteEnv) (conv : Str → Str) (onlyAddNew : Bool)
    (globalIds : List Nat) :
    List FileState → St → Except Err (List FileImportResult × List PendingWrite) × St
  | [], s => (.ok ([], []), s)
  | fs :: rest, s =>
    match syncFile env conv onlyAddNew globalIds fs s with
    | (.error e, s1) => (.error e, s1)
    | (.ok (r, p), s1) =>
      match syncAll env conv onlyAddNew globalIds rest s1 with
      | (.error e, s2) => (.error e, s2)
      | (.ok (rs, ps), s2) => (.ok (r :: rs, p :: ps), s2)

/-- `import_collection` phases 5-6: the per-file sync loop followed by the
deferred write-back flush. -/
def importRun (env : RemoteEnv) (conv : Str → Str) (onlyAddNew : Bool)
    (globalIds : List Nat) (fss : List FileState) (s : St) :
    Except Err (List FileImportResult) × St :=
  match syncAll env conv onlyAddNew globalIds fss s with
  | (.error e, s3) => (.error e, s3)
  | (.ok (results, pendings), s3) =>
    match flushWrites pendings s3 with
    | (.error e, s4) => (.error e, s4)
    | (.ok _, s4) => (.ok results, s4)

/-- `markdown_to_anki.import_collection`, phases 2-6 (phase 1 parsing is
local; phase 7 untracked-deck detection is a read-only post-processing step
returned for CLI confirmation and performs no mutation). -/
def importCollection (env : RemoteEnv) (conv : Str → Str) (answer : Str)
    (onlyAddNew : Bool) (fss : List FileState) :
    Except Err (List FileImportResult) × St :=
  let p2 := phase2 fss
  let s0 : St := ⟨[], emptyAnki⟩
  if p2.collisions.isEmpty then
    let s1 := emitEv s0 .fetchState
    match env.fetched with
    | .error e => (.error (Err.remote e), s1)
    | .ok anki =>
      let s2 : St := { s1 with anki := anki }
      let inv := validateIds fss (anki.id_to_deck_name.map (fun kv => kv.1))
                   (anki.notes.map (fun kv => kv.1))
      if (!inv.isEmpty) && decide ¬(stripLower answer = "y".toList) then
        (.error Err.cancelled, s2)
      else importRun env conv onlyAddNew p2.globalIds fss s2
  else (.error (Err.duplicateIds p2.collisions p2.dupIds), s0)

/-! ## Export confirmation gate (`anki_to_markdown.export_deck` /
`export_collection`) -/

structure ExportFile where
  raw_content : Str
  parsed_notes : List Note
deriving DecidableEq, Repr

inductive ExportOutcome where
  | cancelled
  | emptyDeck
  | written (content : Str)
  | skippedSame
deriving DecidableEq, Repr

/-- `export_deck`: when the existing file holds blocks without a note id
(`has_untracked`, i.e. not-yet-imported content), ask for confirmation;
any answer other than `y` (after strip/lower) cancels via `SystemExit`
before anything is written.  `newContent` abstracts `_sync_deck`'s output
(`none` = empty deck, nothing to export). -/
def exportDeck (existing : Option ExportFile) (answer : Str)
    (newContent : Option Str) : ExportOutcome :=
  let untracked :=
    match existing with
    | some f => fsHasUntracked f.parsed_notes
    | none => false
  if untracked && decide ¬(stripLower answer = "y".toList) then .cancelled
  else
    match newContent with
    | none => .emptyDeck
    | some nc =>
      match existing with
      | some f => if f.raw_content = nc then .skippedSame else .written nc
      | none => .written nc

/-- `export_collection`'s pre-write gate over all files: `true` means the
export proceeds, `false` means it was cancelled by the caller's answer. -/
def exportCollectionGate (files : List ExportFile) (answer : Str) : Bool :=
  if (files.filter (fun f => fsHasUntracked f.parsed_notes)).isEmpty then true
  else if stripLower answer = "y".toList then true
  else false

/-! # Theorems

Helper lemmas first, then one theorem (plus witness / counterexample)
per claim. -/

/-! ## Association-list lemmas -/

theorem alookup_append {α β : Type} [DecidableEq α] (l1 l2 : List (α × β)) (k : α) :
    alookup (l1 ++ l2) k =
      match alookup l1 k with
      | some v => some v
      | none => alookup l2 k := by
  induction l1 with
  | nil => simp [alookup]
  | cons a t ih =>
    simp only [List.cons_append, alookup]
    split <;> simp [ih]

theorem alookup_eq_none {α β : Type} [DecidableEq α] (l : List (α × β)) (k : α)
    (h : k ∉ l.map Prod.fst) : alookup l k = none := by
  induction l with
  | nil => rfl
  | cons a t ih =>
    simp only [List.map_cons, List.mem_cons] at h
    push_neg at h
    simp only [alookup]
    rw [if_neg (fun he => h.1 he.symm)]
    exact ih h.2

theorem alookup_isSome_of_mem_keys {α β : Type} [DecidableEq α] (l : List (α × β)) (k : α)
    (h : k ∈ l.map Prod.fst) : (alookup l k).isSome := by
  induction l with
  | nil => simp at h
  | cons a t ih =>
    simp only [List.map_cons, List.mem_cons] at h
    simp only [alookup]
    by_cases hk : a.1 = k
    · simp [hk]
    · rw [if_neg hk]
      exact ih (h.resolve_left (fun he => hk he.symm))

theorem alookup_isSome_mem_keys {α β : Type} [DecidableEq α] (l : List (α × β)) (k : α)
    (h : (alookup l k).isSome) : k ∈ l.map Prod.fst := by
  by_contra hk
  rw [alookup_eq_none l k hk] at h
  simp at h

theorem alookup_mem {α β : Type} [DecidableEq α] (l : List (α × β)) (k : α) (v : β)
    (h : alookup l k = some v) : (k, v) ∈ l := by
  induction l with
  | nil => simp [alookup] at h
  | cons a t ih =>
    simp only [alookup] at h
    by_cases hk : a.1 = k
    · rw [if_pos hk] at h
      exact List.mem_cons.mpr (Or.inl (by cases a; simp_all))
    · rw [if_neg hk] at h
      exact List.mem_cons_of_mem _ (ih h)

theorem mem_alookup_of_nodup {α β : Type} [DecidableEq α] (l : List (α × β)) (k : α) (v : β)
    (hn : (l.map Prod.fst).Nodup) (h : (k, v) ∈ l) : alookup l k = some v := by
  induction l with
  | nil => simp at h
  | cons a t ih =>
    simp only [List.map_cons, List.nodup_cons] at hn
    rcases List.mem_cons.mp h with h1 | h1
    · subst h1
      simp [alookup]
    · have hk : a.1 ≠ k := by
        intro he
        exact hn.1 (he ▸ (List.mem_map_of_mem Prod.fst h1))
      simp only [alookup, if_neg hk]
      exact ih hn.2 h1

theorem alookup_map_value {α β γ : Type} [DecidableEq α] (g : β → γ)
    (l : List (α × β)) (k : α) :
    alookup (l.map (fun kv => (kv.1, g kv.2))) k = (alookup l k).map g := by
  induction l with
  | nil => rfl
  | cons a t ih =>
    simp only [List.map_cons, alookup]
    split <;> simp [ih]

theorem setDefault_lookup_of_isSome {α β : Type} [DecidableEq α]
    (l : List (α × β)) (k k' : α) (v : β) (h : (alookup l k').isSome) :
    alookup (setDefault l k v) k' = alookup l k' := by
  unfold setDefault
  split
  · rfl
  · rw [alookup_append]
    rcases Option.isSome_iff_exists.mp h with ⟨w, hw⟩
    simp [hw]

theorem setDefault_lookup_same_none {α β : Type} [DecidableEq α]
    (l : List (α × β)) (k : α) (v : β) (h : alookup l k = none) :
    alookup (setDefault l k v) k = some v := by
  unfold setDefault
  rw [if_neg (by simp [h])]
  rw [alookup_append, h]
  simp [alookup]

theorem setDefault_lookup_other {α β : Type} [DecidableEq α]
    (l : List (α × β)) (k k' : α) (v : β) (hk : k ≠ k') :
    alookup (setDefault l k v) k' = alookup l k' := by
  unfold setDefault
  split
  · rfl
  · rw [alookup_append]
    cases h : alookup l k'
    · simp [alookup, hk]
    · simp

theorem setDefault_keys {α β : Type} [DecidableEq α] (l : List (α × β)) (k : α) (v : β) :
    (setDefault l k v).map Prod.fst = l.map Prod.fst ∨
      (setDefault l k v).map Prod.fst = l.map Prod.fst ++ [k] := by
  unfold setDefault
  split
  · exact Or.inl rfl
  · right; simp

theorem setDefault_nodup {α β : Type} [DecidableEq α] (l : List (α × β)) (k : α) (v : β)
    (hn : (l.map Prod.fst).Nodup) : ((setDefault l k v).map Prod.fst).Nodup := by
  unfold setDefault
  split
  · exact hn
  · rename_i h
    have hk : k ∉ l.map Prod.fst := fun hm => h (alookup_isSome_of_mem_keys l k hm)
    simp only [List.map_append, List.map_cons, List.map_nil]
    exact List.Nodup.append hn (List.nodup_singleton k) (by
      intro x hx hx2
      simp only [List.mem_singleton] at hx2
      subst hx2
      exact hk hx)

/-! ## Prefix lemmas -/

theorem isPfxOf_append_self (p r : Str) : isPfxOf p (p ++ r) = true := by
  induction p with
  | nil => rfl
  | cons a t ih => simp [isPfxOf, ih]

theorem eq_append_drop_of_isPfxOf (p s : Str) (h : isPfxOf p s = true) :
    s = p ++ s.drop p.length := by
  induction p generalizing s with
  | nil => simp
  | cons a t ih =>
    cases s with
    | nil => simp [isPfxOf] at h
    | cons b u =>
      simp only [isPfxOf] at h
      split at h
      · rename_i he
        subst he
        simpa using ih u h
      · simp at h

theorem isPfxOf_or_of_append (q p v : Str) (h : isPfxOf q (p ++ v) = true) :
    isPfxOf q p = true ∨ isPfxOf p q = true := by
  induction q generalizing p with
  | nil => left; rfl
  | cons a t ih =>
    cases p with
    | nil => right; rfl
    | cons b u =>
      simp only [List.cons_append, isPfxOf] at h ⊢
      split at h
      · rename_i he
        subst he
        rcases ih u h with h1 | h1
        · left; simpa [isPfxOf] using h1
        · right; simpa [isPfxOf] using h1
      · simp at h

/-! ## Split / join / strip lemmas -/

theorem splitOnChar_of_not_mem (sep : Char) (l : Str) (h : sep ∉ l) :
    splitOnChar sep l = [l] := by
  induction l with
  | nil => rfl
  | cons c t ih =>
    simp only [List.mem_cons] at h
    push_neg at h
    have hc : ¬ c = sep := fun he => h.1 he.symm
    simp only [splitOnChar, if_neg hc, ih h.2]

theorem splitOnChar_append_cons (sep : Char) (l r : Str) (h : sep ∉ l) :
    splitOnChar sep (l ++ sep :: r) = l :: splitOnChar sep r := by
  induction l with
  | nil => simp [splitOnChar]
  | cons c t ih =>
    simp only [List.mem_cons] at h
    push_neg at h
    have hc : ¬ c = sep := fun he => h.1 he.symm
    simp only [List.cons_append, splitOnChar, if_neg hc]
    rw [show t.append (sep :: r) = t ++ sep :: r from rfl, ih h.2]

theorem joinLines_cons (l : Str) (ls : List Str) (h : ls ≠ []) :
    joinLines (l :: ls) = l ++ '\n' :: joinLines ls := by
  cases ls with
  | nil => exact absurd rfl h
  | cons a t => rfl

theorem lstrip_eq_self (c : Char) (t : Str) (h : isWs c = false) :
    lstripStr (c :: t) = c :: t := by
  simp [lstripStr, List.dropWhile_cons, h]

theorem rstrip_eq_self (s : Str) (d : Char) (hd : s.getLast? = some d)
    (h : isWs d = false) : rstripStr s = s := by
  unfold rstripStr
  have hrev : s.reverse.head? = some d := by rw [List.head?_reverse]; exact hd
  cases hr : s.reverse with
  | nil => rw [hr] at hrev; simp at hrev
  | cons a u =>
    rw [hr] at hrev
    simp only [List.head?_cons] at hrev
    injection hrev with he
    subst he
    have hdw : List.dropWhile isWs (a :: u) = a :: u := by
      simp [List.dropWhile_cons, h]
    have hs := congrArg List.reverse hr
    rw [List.reverse_reverse] at hs
    rw [hdw]
    exact hs.symm

theorem stripStr_eq_self (c : Char) (t : Str) (d : Char) (hc : isWs c = false)
    (hd : (c :: t).getLast? = some d) (hwd : isWs d = false) :
    stripStr (c :: t) = c :: t := by
  unfold stripStr
  rw [lstrip_eq_self c t hc, rstrip_eq_self _ d hd hwd]

theorem lstrip_head_not_ws (c : Char) (t : Str) (h : lstripStr (c :: t) = c :: t) :
    isWs c = false := by
  by_contra hw
  simp only [Bool.not_eq_false] at hw
  have h2 : lstripStr (c :: t) = lstripStr t := by
    simp [lstripStr, List.dropWhile_cons, hw]
  rw [h2] at h
  have h3 : (lstripStr t).length ≤ t.length := (List.dropWhile_suffix isWs).length_le
  rw [h] at h3
  simp at h3

theorem lstrip_of_strip_self (s : Str) (h : stripStr s = s) : lstripStr s = s := by
  unfold stripStr at h
  have h1 : (rstripStr (lstripStr s)).length ≤ (lstripStr s).length := by
    unfold rstripStr
    simpa using (List.dropWhile_suffix (l := (lstripStr s).reverse) isWs).length_le
  have h2 : (lstripStr s).length ≤ s.length := (List.dropWhile_suffix isWs).length_le
  have hsfx : lstripStr s <:+ s := List.dropWhile_suffix isWs
  apply List.IsSuffix.eq_of_length hsfx
  rw [h] at h1
  omega

theorem strip_self_head (c : Char) (t : Str) (h : stripStr (c :: t) = c :: t) :
    isWs c = false :=
  lstrip_head_not_ws c t (lstrip_of_strip_self _ h)

theorem strip_self_last (s : Str) (d : Char) (h : stripStr s = s)
    (hd : s.getLast? = some d) : isWs d = false := by
  have hls : lstripStr s = s := lstrip_of_strip_self s h
  unfold stripStr at h
  rw [hls] at h
  unfold rstripStr at h
  have hrev : s.reverse.head? = some d := by rw [List.head?_reverse]; exact hd
  cases hrv : s.reverse with
  | nil => rw [hrv] at hrev; simp at hrev
  | cons a u =>
    rw [hrv] at hrev
    simp only [List.head?_cons] at hrev
    injection hrev with he
    subst he
    by_contra hw
    simp only [Bool.not_eq_false] at hw
    rw [hrv, List.dropWhile_cons, hw, if_pos rfl] at h
    have h2 : (u.dropWhile isWs).length ≤ u.length := (List.dropWhile_suffix isWs).length_le
    have h3 : ((u.dropWhile isWs).reverse).length = s.length := by rw [h]
    simp only [List.length_reverse] at h3
    have h4 : s.length = u.length + 1 := by
      have h5 := congrArg List.length hrv
      simpa using h5
    omega

/-! ## Digit-rendering lemmas -/

theorem digitVal_digitChar (d : Nat) (h : d < 10) : digitVal (digitChar d) = d := by
  interval_cases d <;> decide

theorem isDigitC_digitChar (d : Nat) (h : d < 10) : isDigitC (digitChar d) = true := by
  interval_cases d <;> decide

theorem isDigitC_not_ws (c : Char) (h : isDigitC c = true) : isWs c = false := by
  cases hw : isWs c
  · rfl
  · exfalso
    simp only [isWs, Bool.or_eq_true, decide_eq_true_eq] at hw
    rcases hw with ((((h1 | h1) | h1) | h1) | h1) | h1 <;> (subst h1; simp [isDigitC] at h)

theorem isDigitC_ne (c : Char) (h : isDigitC c = true) :
    c ≠ '\n' ∧ c ≠ '<' ∧ c ≠ '`' ∧ c ≠ '~' := by
  refine ⟨?_, ?_, ?_, ?_⟩ <;> (intro he; subst he; simp [isDigitC] at h)

theorem renderNatGo_fuel (f : Nat) : ∀ n g, n ≤ f → n ≤ g →
    renderNatGo f n = renderNatGo g n := by
  induction f with
  | zero =>
    intro n g hf hg
    interval_cases n
    cases g with
    | zero => rfl
    | succ g' => simp [renderNatGo]
  | succ f' ih =>
    intro n g hf hg
    cases g with
    | zero =>
      interval_cases n
      simp [renderNatGo]
    | succ g' =>
      simp only [renderNatGo]
      by_cases hn : n < 10
      · rw [if_pos hn, if_pos hn]
      · rw [if_neg hn, if_neg hn]
        have hlt : n / 10 < n := Nat.div_lt_self (by omega) (by omega)
        rw [ih (n / 10) f' (by omega) (by omega),
            ih (n / 10) g' (by omega) (by omega)]

theorem renderNat_eq (n : Nat) : renderNat n =
    if n < 10 then [digitChar n] else renderNat (n / 10) ++ [digitChar (n % 10)] := by
  unfold renderNat
  cases n with
  | zero => simp [renderNatGo]
  | succ m =>
    simp only [renderNatGo]
    by_cases hn : m + 1 < 10
    · rw [if_pos hn, if_pos hn]
    · rw [if_neg hn, if_neg hn]
      have hlt : (m + 1) / 10 < m + 1 := Nat.div_lt_self (by omega) (by omega)
      rw [renderNatGo_fuel m ((m + 1) / 10) ((m + 1) / 10) (by omega) (by omega)]

theorem renderNat_ne_nil (n : Nat) : renderNat n ≠ [] := by
  rw [renderNat_eq]
  split <;> simp

theorem renderNat_all_digits (n : Nat) : ∀ c ∈ renderNat n, isDigitC c = true := by
  induction n using Nat.strong_induction_on with
  | _ n ih =>
    rw [renderNat_eq]
    split
    · rename_i h
      intro c hc
      simp only [List.mem_singleton] at hc
      subst hc
      exact isDigitC_digitChar n h
    · rename_i h
      intro c hc
      rcases List.mem_append.mp hc with h1 | h1
      · exact ih (n / 10) (Nat.div_lt_self (by omega) (by omega)) c h1
      · simp only [List.mem_singleton] at h1
        subst h1
        exact isDigitC_digitChar (n % 10) (Nat.mod_lt _ (by omega))

theorem parseNatDigits_append (l : Str) (c : Char) :
    parseNatDigits (l ++ [c]) = parseNatDigits l * 10 + digitVal c := by
  simp [parseNatDigits, List.foldl_append]

theorem parseNatDigits_renderNat (n : Nat) : parseNatDigits (renderNat n) = n := by
  induction n using Nat.strong_induction_on with
  | _ n ih =>
    rw [renderNat_eq]
    split
    · rename_i h
      simp only [parseNatDigits, List.foldl_cons, List.foldl_nil]
      rw [digitVal_digitChar n h]
      omega
    · rename_i h
      rw [parseNatDigits_append, ih (n / 10) (Nat.div_lt_self (by omega) (by omega)),
          digitVal_digitChar (n % 10) (Nat.mod_lt _ (by omega))]
      omega

/-! ## `dropLit` / `takeWhile` lemmas -/

theorem dropLit_append_self (p r : Str) : dropLit p (p ++ r) = some r := by
  unfold dropLit
  rw [if_pos (isPfxOf_append_self p r)]
  rw [List.drop_left]

theorem dropLit_none_of_head (c d : Char) (t s : Str) (h : c ≠ d) :
    dropLit (c :: t) (d :: s) = none := by
  unfold dropLit
  rw [if_neg]
  simp only [isPfxOf]
  rw [if_neg h]
  simp

theorem takeWhile_append_of_all (p : Char → Bool) (l : Str) (a : Char) (r : Str)
    (hl : ∀ c ∈ l, p c = true) (ha : p a = false) :
    (l ++ a :: r).takeWhile p = l := by
  induction l with
  | nil => simp [List.takeWhile_cons, ha]
  | cons c t ih =>
    simp only [List.cons_append, List.takeWhile_cons, hl c (List.mem_cons_self c t)]
    rw [ih (fun x hx => hl x (List.mem_cons_of_mem c hx))]
    simp

theorem dropWhile_cons_of_neg (p : Char → Bool) (a : Char) (l : Str) (h : p a = false) :
    (a :: l).dropWhile p = a :: l := by
  simp [List.dropWhile_cons, h]

/-! ## Id-marker lemmas -/

theorem dropWhile_ws_space (l : Str) :
    List.dropWhile isWs (' ' :: l) = List.dropWhile isWs l := by
  rw [List.dropWhile_cons, if_pos (by decide)]

theorem renderNat_head_digit (n : Nat) :
    ∃ d t, renderNat n = d :: t ∧ isDigitC d = true := by
  cases hds : renderNat n with
  | nil => exact absurd hds (renderNat_ne_nil n)
  | cons d t =>
    exact ⟨d, t, rfl, renderNat_all_digits n d (by rw [hds]; exact List.mem_cons_self d t)⟩

theorem matchIdTag_noteIdMarker (n : Nat) :
    matchIdTag ("note_id:".toList)
      ("<!-- note_id: ".toList ++ renderNat n ++ " -->".toList) = some (n, []) := by
  obtain ⟨d, t, hds, hdig⟩ := renderNat_head_digit n
  have h1 : ("<!-- note_id: ".toList ++ renderNat n ++ " -->".toList : Str) =
      "<!--".toList ++ (' ' :: ("note_id:".toList ++
        (' ' :: (renderNat n ++ (' ' :: "-->".toList))))) := by
    simp
  rw [h1]
  unfold matchIdTag
  rw [dropLit_append_self]
  dsimp only
  rw [dropWhile_ws_space]
  rw [show List.dropWhile isWs ("note_id:".toList ++
        (' ' :: (renderNat n ++ (' ' :: "-->".toList)))) =
      "note_id:".toList ++ (' ' :: (renderNat n ++ (' ' :: "-->".toList))) from by
    rw [show ("note_id:".toList ++ (' ' :: (renderNat n ++ (' ' :: "-->".toList))) : Str) =
        'n' :: ("ote_id:".toList ++ (' ' :: (renderNat n ++ (' ' :: "-->".toList)))) from by simp]
    exact dropWhile_cons_of_neg isWs _ _ (by decide)]
  rw [dropLit_append_self]
  dsimp only
  rw [dropWhile_ws_space]
  rw [hds]
  rw [show ((d :: t) ++ ' ' :: "-->".toList : Str) = d :: (t ++ ' ' :: "-->".toList) from rfl]
  rw [dropWhile_cons_of_neg isWs _ _ (isDigitC_not_ws d hdig)]
  rw [show (d :: (t ++ ' ' :: "-->".toList) : Str) = (d :: t) ++ ' ' :: "-->".toList from rfl,
      ← hds]
  rw [takeWhile_append_of_all isDigitC (renderNat n) ' ' ("-->".toList)
        (renderNat_all_digits n) (by decide)]
  rw [if_neg (by simp [renderNat_ne_nil n, List.isEmpty_iff])]
  rw [List.drop_left]
  rw [dropWhile_ws_space]
  rw [show List.dropWhile isWs ("-->".toList) = "-->".toList from
        dropWhile_cons_of_neg isWs _ _ (by decide)]
  rw [show dropLit ("-->".toList) ("-->".toList) = some [] from by
        have h2 := dropLit_append_self ("-->".toList) []
        simpa using h2]
  dsimp only
  rw [parseNatDigits_renderNat]

theorem matchIdTag_none_of_head (tag : Str) (d : Char) (s : Str) (h : d ≠ '<') :
    matchIdTag tag (d :: s) = none := by
  unfold matchIdTag
  rw [show ("<!--".toList : Str) = '<' :: "!--".toList from rfl]
  rw [dropLit_none_of_head '<' d _ _ (fun he => h he.symm)]

/-! ## C9: export never silently overwrites untracked content -/

/-- C9: Export never silently overwrites a local file containing blocks
without a stable identifier: `export_deck` (and `export_collection`)
detect untracked blocks and, unless the caller answers exactly `y`
(after strip/lower), the export is cancelled (`SystemExit`), leaving the
file content unchanged — the model returns `cancelled` and produces no
written content. -/
theorem export_untracked_requires_confirmation :
    (∀ (f : ExportFile) (answer : Str) (nc : Option Str),
        (∃ n ∈ f.parsed_notes, n.note_id = none) →
        stripLower answer ≠ "y".toList →
        exportDeck (some f) answer nc = ExportOutcome.cancelled)
    ∧ (∀ (files : List ExportFile) (answer : Str) (f : ExportFile),
        f ∈ files → (∃ n ∈ f.parsed_notes, n.note_id = none) →
        stripLower answer ≠ "y".toList →
        exportCollectionGate files answer = false) := by
  constructor
  · intro f answer nc hun hans
    obtain ⟨n, hn, hid⟩ := hun
    have hu : fsHasUntracked f.parsed_notes = true := by
      unfold fsHasUntracked
      rw [List.any_eq_true]
      exact ⟨n, hn, by rw [hid]; rfl⟩
    unfold exportDeck
    rw [if_pos]
    simp only [hu, Bool.true_and, decide_eq_true_eq]
    exact hans
  · intro files answer f hf hun hans
    obtain ⟨n, hn, hid⟩ := hun
    have hu : fsHasUntracked f.parsed_notes = true := by
      unfold fsHasUntracked
      rw [List.any_eq_true]
      exact ⟨n, hn, by rw [hid]; rfl⟩
    unfold exportCollectionGate
    rw [if_neg, if_neg hans]
    have : f ∈ files.filter (fun f => fsHasUntracked f.parsed_notes) :=
      List.mem_filter.mpr ⟨hf, hu⟩
    intro he
    rw [List.isEmpty_iff] at he
    rw [he] at this
    simp at this

/-- C9 witness: a concrete file holding one id-less note, answer `"n"`. -/
theorem export_untracked_requires_confirmation_witness :
    exportDeck (some ⟨"old".toList, [⟨none, "AnkiOpsQA".toList, []⟩]⟩)
        ("n".toList) (some ("new".toList)) = ExportOutcome.cancelled
    ∧ exportCollectionGate [⟨"old".toList, [⟨none, "AnkiOpsQA".toList, []⟩]⟩]
        ("n".toList) = false := by
  constructor
  · exact export_untracked_requires_confirmation.1
      ⟨"old".toList, [⟨none, "AnkiOpsQA".toList, []⟩]⟩ ("n".toList) (some ("new".toList))
      ⟨⟨none, "AnkiOpsQA".toList, []⟩, by simp, rfl⟩ (by decide)
  · exact export_untracked_requires_confirmation.2
      [⟨"old".toList, [⟨none, "AnkiOpsQA".toList, []⟩]⟩] ("n".toList)
      ⟨"old".toList, [⟨none, "AnkiOpsQA".toList, []⟩]⟩ (by simp)
      ⟨⟨none, "AnkiOpsQA".toList, []⟩, by simp, rfl⟩ (by decide)

/-! ## C4: full-field-set comparison in the update phase -/

theorem sdFold_lookup_isSome (maps : List (Str × Str × Bool)) (l : List (Str × Str))
    (k : Str) (h : (alookup l k).isSome) :
    alookup (maps.foldl (fun acc m => setDefault acc m.1 []) l) k = alookup l k := by
  induction maps generalizing l with
  | nil => rfl
  | cons m rest ih =>
    simp only [List.foldl_cons]
    rw [ih (setDefault l m.1 []) (by
          by_cases hk : m.1 = k
          · subst hk
            rwa [setDefault_lookup_of_isSome l m.1 m.1 [] h]
          · rwa [setDefault_lookup_other l m.1 k [] hk])]
    by_cases hk : m.1 = k
    · subst hk
      exact setDefault_lookup_of_isSome l m.1 m.1 [] h
    · exact setDefault_lookup_other l m.1 k [] hk

theorem sdFold_lookup_none_mem (maps : List (Str × Str × Bool)) (l : List (Str × Str))
    (k : Str) (h : alookup l k = none) (hmem : k ∈ maps.map (fun m => m.1)) :
    alookup (maps.foldl (fun acc m => setDefault acc m.1 []) l) k = some [] := by
  induction maps generalizing l with
  | nil => simp at hmem
  | cons m rest ih =>
    simp only [List.foldl_cons]
    by_cases hk : m.1 = k
    · subst hk
      have h1 : alookup (setDefault l m.1 []) m.1 = some [] :=
        setDefault_lookup_same_none l m.1 [] h
      rw [sdFold_lookup_isSome rest _ m.1 (by rw [h1]; rfl), h1]
    · rw [List.map_cons, List.mem_cons] at hmem
      rcases hmem with h1 | h1
      · exact absurd h1.symm hk
      · exact ih (setDefault l m.1 []) (by rwa [setDefault_lookup_other l m.1 k [] hk]) h1

theorem sdFold_lookup_none_notmem (maps : List (Str × Str × Bool)) (l : List (Str × Str))
    (k : Str) (h : alookup l k = none) (hmem : k ∉ maps.map (fun m => m.1)) :
    alookup (maps.foldl (fun acc m => setDefault acc m.1 []) l) k = none := by
  induction maps generalizing l with
  | nil => exact h
  | cons m rest ih =>
    simp only [List.map_cons, List.mem_cons] at hmem
    push_neg at hmem
    simp only [List.foldl_cons]
    exact ih (setDefault l m.1 [])
      (by rwa [setDefault_lookup_other l m.1 k [] (fun he => hmem.1 he.symm)]) hmem.2

theorem sdFold_keys_nodup (maps : List (Str × Str × Bool)) (l : List (Str × Str))
    (h : (l.map Prod.fst).Nodup) :
    ((maps.foldl (fun acc m => setDefault acc m.1 []) l).map Prod.fst).Nodup := by
  induction maps generalizing l with
  | nil => exact h
  | cons m rest ih =>
    simp only [List.foldl_cons]
    exact ih _ (setDefault_nodup l m.1 [] h)

theorem sdFold_keys_sub (maps : List (Str × Str × Bool)) (l : List (Str × Str))
    (k : Str) (h : k ∈ (maps.foldl (fun acc m => setDefault acc m.1 []) l).map Prod.fst) :
    k ∈ l.map Prod.fst ∨ k ∈ maps.map (fun m => m.1) := by
  induction maps generalizing l with
  | nil => exact Or.inl h
  | cons m rest ih =>
    simp only [List.foldl_cons] at h
    rcases ih (setDefault l m.1 []) h with h1 | h1
    · rcases setDefault_keys l m.1 [] with he | he
      · rw [he] at h1
        exact Or.inl h1
      · rw [he] at h1
        rcases List.mem_append.mp h1 with h2 | h2
        · exact Or.inl h2
        · simp only [List.mem_singleton] at h2
          subst h2
          right
          simp
    · right
      simp only [List.map_cons, List.mem_cons]
      exact Or.inr h1

theorem htmlFieldsMatch_true_iff (html anF : List (Str × Str)) :
    htmlFieldsMatch html anF = true ↔ ∀ kv ∈ html, alookup anF kv.1 = some kv.2 := by
  simp [htmlFieldsMatch, List.all_eq_true]

theorem toHtml_fields_keys (conv : Str → Str) (l : List (Str × Str)) :
    (l.map (fun kv => (kv.1, conv kv.2))).map Prod.fst = l.map Prod.fst := by
  induction l with
  | nil => rfl
  | cons a t ih => simp [ih]

/-- C4 (amended): in the update comparison, every field the note's type
defines participates: `to_html` yields an entry for each type-defined
field, a field absent locally becoming the empty string, so that a field
absent locally but non-empty remotely is a difference and the update
payload clears it.  A note is skipped exactly when *all entries of its
converted field map* agree with the remote record; when every locally
present field is one the type defines (the usual case), this is exactly
agreement on all type-defined fields.  (The unamended "exactly on
type-defined fields" claim fails when a block carries an extra field
outside its inferred type; see the counterexample.) -/
theorem update_comparison_full_field_set (conv : Str → Str) (n : Note)
    (maps : List (Str × Str × Bool)) (anF : List (Str × Str))
    (hty : alookup noteTypes n.note_type = some maps)
    (hnd : (n.fields.map Prod.fst).Nodup) :
    (∀ m ∈ maps, alookup (toHtml conv n) m.1 =
        some (match alookup n.fields m.1 with | some v => conv v | none => []))
    ∧ (∀ m ∈ maps, ∀ w, alookup n.fields m.1 = none → alookup anF m.1 = some w →
        w ≠ [] → htmlFieldsMatch (toHtml conv n) anF = false)
    ∧ ((∀ kv ∈ n.fields, kv.1 ∈ maps.map (fun m => m.1)) →
        (htmlFieldsMatch (toHtml conv n) anF = true ↔
          ∀ m ∈ maps, alookup anF m.1 =
            some (match alookup n.fields m.1 with | some v => conv v | none => []))) := by
  have hD : alookupD noteTypes n.note_type [] = maps := by
    simp [alookupD, hty]
  have hbase : ∀ k, alookup (n.fields.map (fun kv => (kv.1, conv kv.2))) k =
      (alookup n.fields k).map conv := fun k => alookup_map_value conv n.fields k
  have hfull : ∀ m ∈ maps, alookup (toHtml conv n) m.1 =
      some (match alookup n.fields m.1 with | some v => conv v | none => []) := by
    intro m hm
    unfold toHtml
    rw [hD]
    cases hl : alookup n.fields m.1 with
    | some v =>
      rw [sdFold_lookup_isSome maps _ m.1 (by rw [hbase m.1, hl]; rfl), hbase m.1, hl]
      rfl
    | none =>
      rw [sdFold_lookup_none_mem maps _ m.1 (by rw [hbase m.1, hl]; rfl)
            (List.mem_map.mpr ⟨m, hm, rfl⟩)]
  refine ⟨hfull, ?_, ?_⟩
  · intro m hm w hnone hanF hw
    have h1 : alookup (toHtml conv n) m.1 = some [] := by
      rw [hfull m hm, hnone]
    have h2 : (m.1, ([] : Str)) ∈ toHtml conv n := alookup_mem _ _ _ h1
    by_contra hmatch
    rw [Bool.not_eq_false] at hmatch
    have h3 := (htmlFieldsMatch_true_iff _ _).mp hmatch (m.1, []) h2
    rw [hanF] at h3
    injection h3 with h4
    exact hw h4
  · intro hsub
    constructor
    · intro hmatch m hm
      have h1 := hfull m hm
      have h2 := alookup_mem _ _ _ h1
      exact (htmlFieldsMatch_true_iff _ _).mp hmatch _ h2
    · intro hall
      rw [htmlFieldsMatch_true_iff]
      intro kv hkv
      have hnodup : ((toHtml conv n).map Prod.fst).Nodup := by
        unfold toHtml
        rw [hD]
        exact sdFold_keys_nodup maps _ (by rw [toHtml_fields_keys]; exact hnd)
      have hlk : alookup (toHtml conv n) kv.1 = some kv.2 :=
        mem_alookup_of_nodup _ _ _ hnodup hkv
      have hkey : kv.1 ∈ maps.map (fun m => m.1) := by
        have hmem : kv.1 ∈ (toHtml conv n).map Prod.fst :=
          List.mem_map.mpr ⟨kv, hkv, rfl⟩
        unfold toHtml at hmem
        rw [hD] at hmem
        rcases sdFold_keys_sub maps _ kv.1 hmem with h1 | h1
        · rw [toHtml_fields_keys] at h1
          rcases List.mem_map.mp h1 with ⟨kv', hkv', he⟩
          exact he ▸ hsub kv' hkv'
        · exact h1
      rcases List.mem_map.mp hkey with ⟨m, hm, he⟩
      have h1 := hfull m hm
      rw [he] at h1
      rw [hlk] at h1
      injection h1 with h2
      rw [h2]
      exact he ▸ hall m hm

/-- C4 counterexample: a parseable block can carry a `Question` field on an
`AnkiOpsCloze` note (type inference only checks that the mandatory `Text`
field is a subset).  With the identity codec, every Cloze-type-defined
field matches the remote record exactly and the note passes validation,
yet `html_fields_match` is false (the note is updated, not skipped), so
"skipped exactly when all type-defined fields are equal" fails. -/
theorem update_comparison_counterexample :
    (fromBlock (("<!-- note_id: 9 -->\nT: \x7b\x7bc1::x\x7d\x7d\nQ: q").toList) =
      .ok ⟨some 9, "AnkiOpsCloze".toList,
        [("Text".toList, "\x7b\x7bc1::x\x7d\x7d".toList), ("Question".toList, "q".toList)]⟩)
    ∧ validateNote ⟨some 9, "AnkiOpsCloze".toList,
        [("Text".toList, "\x7b\x7bc1::x\x7d\x7d".toList), ("Question".toList, "q".toList)]⟩ = []
    ∧ (∀ m ∈ alookupD noteTypes ("AnkiOpsCloze".toList) [],
        alookup [("Text".toList, "\x7b\x7bc1::x\x7d\x7d".toList),
                 ("Extra".toList, []), ("More".toList, []),
                 ("Source".toList, []), ("AI Notes".toList, [])] m.1 =
          some (match alookup [("Text".toList, "\x7b\x7bc1::x\x7d\x7d".toList),
                               ("Question".toList, "q".toList)] m.1 with
                | some v => v
                | none => []))
    ∧ htmlFieldsMatch
        (toHtml (fun s => s) ⟨some 9, "AnkiOpsCloze".toList,
          [("Text".toList, "\x7b\x7bc1::x\x7d\x7d".toList), ("Question".toList, "q".toList)]⟩)
        [("Text".toList, "\x7b\x7bc1::x\x7d\x7d".toList),
         ("Extra".toList, []), ("More".toList, []),
         ("Source".toList, []), ("AI Notes".toList, [])] = false := by
  refine ⟨by decide, by decide, by decide, by decide⟩

/-- C4 witness: the amended theorem applied to a concrete QA note whose
`More` field was removed locally while the remote record still holds
`"old"` there: the comparison flags a difference and the payload clears
the field. -/
theorem update_comparison_full_field_set_witness :
    alookup (toHtml (fun s => s)
        ⟨some 3, "AnkiOpsQA".toList,
         [("Question".toList, "q".toList), ("Answer".toList, "a".toList)]⟩)
      ("More".toList) = some []
    ∧ htmlFieldsMatch
        (toHtml (fun s => s)
          ⟨some 3, "AnkiOpsQA".toList,
           [("Question".toList, "q".toList), ("Answer".toList, "a".toList)]⟩)
        [("Question".toList, "q".toList), ("Answer".toList, "a".toList),
         ("More".toList, "old".toList)] = false := by
  have h := update_comparison_full_field_set (fun s => s)
    ⟨some 3, "AnkiOpsQA".toList,
     [("Question".toList, "q".toList), ("Answer".toList, "a".toList)]⟩
    (alookupD noteTypes ("AnkiOpsQA".toList) [])
    [("Question".toList, "q".toList), ("Answer".toList, "a".toList),
     ("More".toList, "old".toList)]
    (by decide) (by decide)
  refine ⟨?_, ?_⟩
  · have h1 := h.1 ("More".toList, "M:".toList, false) (by decide)
    simpa using h1
  · exact h.2.1 ("More".toList, "M:".toList, false) (by decide) ("old".toList)
      (by decide) (by decide) (by decide)

/-! ## C7: duplicate first lines abort the write-back -/

theorem mem_setAdd {α : Type} [DecidableEq α] (l : List α) (a x : α) :
    x ∈ setAdd l a ↔ x ∈ l ∨ x = a := by
  unfold setAdd
  split
  · rename_i h
    constructor
    · exact Or.inl
    · intro h1
      rcases h1 with h1 | h1
      · exact h1
      · exact h1 ▸ h
  · simp

theorem mem_foldl_setAdd {α : Type} [DecidableEq α] (l acc : List α) (x : α) :
    x ∈ l.foldl setAdd acc ↔ x ∈ acc ∨ x ∈ l := by
  induction l generalizing acc with
  | nil => simp
  | cons a t ih =>
    simp only [List.foldl_cons]
    rw [ih (setAdd acc a), mem_setAdd]
    constructor
    · intro h
      rcases h with (h | h) | h
      · exact Or.inl h
      · exact Or.inr (h ▸ List.mem_cons_self a t)
      · exact Or.inr (List.mem_cons_of_mem a h)
    · intro h
      rcases h with h | h
      · exact Or.inl (Or.inl h)
      · rcases List.mem_cons.mp h with h1 | h1
        · exact Or.inl (Or.inr h1)
        · exact Or.inr h1

theorem mem_dedupL {α : Type} [DecidableEq α] (l : List α) (x : α) :
    x ∈ dedupL l ↔ x ∈ l := by
  unfold dedupL
  rw [mem_foldl_setAdd]
  simp

theorem count_ge_two (x : Str) (l1 l2 l3 : List Str) :
    2 ≤ (l1 ++ x :: (l2 ++ x :: l3)).count x := by
  simp only [List.count_append, List.count_cons_self, List.count_cons]
  omega

theorem dupLines_ne_nil (x : Str) (l1 l2 l3 : List Str) :
    dupLines (l1 ++ x :: (l2 ++ x :: l3)) ≠ [] := by
  apply List.ne_nil_of_mem (a := x)
  unfold dupLines
  rw [List.mem_filter]
  refine ⟨(mem_dedupL _ _).mpr (by simp), ?_⟩
  rw [decide_eq_true_eq]
  exact count_ge_two x l1 l2 l3

theorem newFirstLines_decomp (l1 : List (Note × Nat)) (a1 : Note × Nat)
    (l2 : List (Note × Nat)) (a2 : Note × Nat) (l3 : List (Note × Nat))
    (h1 : a1.1.note_id = none) (h2 : a2.1.note_id = none) :
    newFirstLines (l1 ++ a1 :: (l2 ++ a2 :: l3)) =
      newFirstLines l1 ++ firstLine a1.1 ::
        (newFirstLines l2 ++ firstLine a2.1 :: newFirstLines l3) := by
  unfold newFirstLines
  simp only [List.filter_append, List.filter_cons, List.map_append]
  rw [if_pos (by rw [h1]; rfl), if_pos (by rw [h2]; rfl)]
  simp

theorem flushOne_dup_error (w : PendingWrite) (s : St)
    (l1 : List (Note × Nat)) (a1 : Note × Nat) (l2 : List (Note × Nat))
    (a2 : Note × Nat) (l3 : List (Note × Nat))
    (hasg : w.id_assignments = l1 ++ a1 :: (l2 ++ a2 :: l3))
    (hn1 : a1.1.note_id = none) (hn2 : a2.1.note_id = none)
    (hfl : firstLine a1.1 = firstLine a2.1) :
    flushOne w s = (.error (Err.duplicateFirstLines w.file_path
      (dupLines (newFirstLines w.id_assignments))), s) := by
  have hne : w.id_assignments.isEmpty = false := by
    rw [hasg]
    simp [List.isEmpty_iff]
  have hdup : (dupLines (newFirstLines w.id_assignments)).isEmpty = false := by
    rw [hasg, newFirstLines_decomp l1 a1 l2 a2 l3 hn1 hn2, ← hfl]
    rw [Bool.eq_false_iff]
    intro hE
    exact dupLines_ne_nil (firstLine a1.1) _ _ _ (List.isEmpty_iff.mp hE)
  unfold flushOne
  rw [if_neg (by simp [hne]), if_neg (by simp [hne]), if_neg (by simp [hdup])]

theorem flushOne_error_shape (w : PendingWrite) (s : St) (e : Err)
    (h : (flushOne w s).1 = .error e) : (flushOne w s).2 = s := by
  unfold flushOne at h ⊢
  split at h
  · simp at h
  · split at h
    · simp at h
    · split at h
      · simp at h
      · rename_i h1 h2 h3
        rw [if_neg h1, if_neg h2, if_neg h3]

theorem flushOne_trace (w : PendingWrite) (s : St) :
    ∃ d, (flushOne w s).2.trace = s.trace ++ d ∧
      ∀ e ∈ d, ∃ c, e = Event.fileWrite w.file_path c := by
  unfold flushOne
  split
  · exact ⟨[], by simp, by simp⟩
  · split
    · refine ⟨[Event.fileWrite w.file_path (flushContent1 w)], by simp [emitEv], ?_⟩
      intro e he
      simp only [List.mem_singleton] at he
      exact ⟨_, he⟩
    · split
      · refine ⟨[Event.fileWrite w.file_path
          (w.id_assignments.foldl applyAssignment (flushContent1 w))], by simp [emitEv], ?_⟩
        intro e he
        simp only [List.mem_singleton] at he
        exact ⟨_, he⟩
      · exact ⟨[], by simp, by simp⟩

/-- C7: when two newly created (previously id-less) records share an
identical first content line, the id write-back step for that file raises
the duplicate-first-line error and that file is never written: the run's
flush produces no `fileWrite` event for that path (so neither record's
new identifier is inserted). -/
theorem duplicate_first_lines_abort_writeback
    (ws l r : List PendingWrite) (w : PendingWrite) (s : St)
    (l1 : List (Note × Nat)) (a1 : Note × Nat) (l2 : List (Note × Nat))
    (a2 : Note × Nat) (l3 : List (Note × Nat))
    (hws : ws = l ++ w :: r)
    (hasg : w.id_assignments = l1 ++ a1 :: (l2 ++ a2 :: l3))
    (hn1 : a1.1.note_id = none) (hn2 : a2.1.note_id = none)
    (hfl : firstLine a1.1 = firstLine a2.1)
    (hpath : w.file_path ∉ l.map (fun p => p.file_path)) :
    (flushWrites ws s).1 ≠ .ok ()
    ∧ ∀ c, Event.fileWrite w.file_path c ∈ (flushWrites ws s).2.trace →
        Event.fileWrite w.file_path c ∈ s.trace := by
  subst hws
  induction l generalizing s with
  | nil =>
    simp only [List.nil_append, flushWrites]
    rw [flushOne_dup_error w s l1 a1 l2 a2 l3 hasg hn1 hn2 hfl]
    exact ⟨by simp, fun c hc => hc⟩
  | cons p rest ih =>
    simp only [List.cons_append, flushWrites]
    rcases hfo : flushOne p s with ⟨fr, s1⟩
    cases fr with
    | error e =>
      have hst : s1 = s := by
        have h2 := flushOne_error_shape p s e (by rw [hfo])
        rw [hfo] at h2
        exact h2
      subst hst
      exact ⟨by simp, fun c hc => hc⟩
    | ok u =>
      have hd := flushOne_trace p s
      rw [hfo] at hd
      obtain ⟨d, hde, hdw⟩ := hd
      dsimp only at hde
      have hpath' : w.file_path ∉ rest.map (fun p => p.file_path) := by
        intro hmem
        exact hpath (List.mem_cons_of_mem _ hmem)
      have hne : p.file_path ≠ w.file_path := by
        intro he
        exact hpath (by simp [← he])
      obtain ⟨ih1, ih2⟩ := ih s1 hpath'
      refine ⟨ih1, ?_⟩
      intro c hc
      have h3 := ih2 c hc
      rw [hde] at h3
      rcases List.mem_append.mp h3 with h4 | h4
      · exact h4
      · exfalso
        obtain ⟨c', hc'⟩ := hdw _ h4
        injection hc' with hp hc2
        exact hne hp.symm

/-- C7 witness: two id-less QA notes with the same question line;
the flush over the singleton pending-write list raises and the file path
is never written. -/
theorem duplicate_first_lines_abort_writeback_witness :
    (flushWrites
        [⟨"A.md".toList, "Q: q\nA: a\n\n---\n\nQ: q\nA: b".toList, none,
          [(⟨none, "AnkiOpsQA".toList,
              [("Question".toList, "q".toList), ("Answer".toList, "a".toList)]⟩, 101),
           (⟨none, "AnkiOpsQA".toList,
              [("Question".toList, "q".toList), ("Answer".toList, "b".toList)]⟩, 102)]⟩]
        ⟨[], emptyAnki⟩).1 ≠ .ok ()
    ∧ (Event.fileWrite ("A.md".toList) ("x".toList) ∈
        (flushWrites
          [⟨"A.md".toList, "Q: q\nA: a\n\n---\n\nQ: q\nA: b".toList, none,
            [(⟨none, "AnkiOpsQA".toList,
                [("Question".toList, "q".toList), ("Answer".toList, "a".toList)]⟩, 101),
             (⟨none, "AnkiOpsQA".toList,
                [("Question".toList, "q".toList), ("Answer".toList, "b".toList)]⟩, 102)]⟩]
          ⟨[], emptyAnki⟩).2.trace →
        Event.fileWrite ("A.md".toList) ("x".toList) ∈ ([] : List Event)) := by
  have h := duplicate_first_lines_abort_writeback
    [⟨"A.md".toList, "Q: q\nA: a\n\n---\n\nQ: q\nA: b".toList, none,
      [(⟨none, "AnkiOpsQA".toList,
          [("Question".toList, "q".toList), ("Answer".toList, "a".toList)]⟩, 101),
       (⟨none, "AnkiOpsQA".toList,
          [("Question".toList, "q".toList), ("Answer".toList, "b".toList)]⟩, 102)]⟩]
    [] []
    ⟨"A.md".toList, "Q: q\nA: a\n\n---\n\nQ: q\nA: b".toList, none,
      [(⟨none, "AnkiOpsQA".toList,
          [("Question".toList, "q".toList), ("Answer".toList, "a".toList)]⟩, 101),
       (⟨none, "AnkiOpsQA".toList,
          [("Question".toList, "q".toList), ("Answer".toList, "b".toList)]⟩, 102)]⟩
    ⟨[], emptyAnki⟩
    []
    (⟨none, "AnkiOpsQA".toList,
        [("Question".toList, "q".toList), ("Answer".toList, "a".toList)]⟩, 101)
    []
    (⟨none, "AnkiOpsQA".toList,
        [("Question".toList, "q".toList), ("Answer".toList, "b".toList)]⟩, 102)
    []
    rfl rfl rfl rfl (by decide) (by simp)
  exact ⟨h.1, h.2 ("x".toList)⟩

/-! ## Per-phase trace lemmas for the sync engine -/

theorem resolveDeck_spec (env : RemoteEnv) (fs : FileState) (s : St) :
    (resolveDeck env fs s).2.anki.deck_note_ids = s.anki.deck_note_ids
    ∧ (∃ d, (resolveDeck env fs s).2.trace = s.trace ++ d
        ∧ (d = [] ∨ d = [Event.remote (RemoteOp.createDeck (stemDeckName fs))]))
    ∧ (∀ nm dw, (resolveDeck env fs s).1 = .ok (nm, dw) → nm = resolveName s.anki fs)
    ∧ (∀ e, (resolveDeck env fs s).1 = .error e → ∃ m, e = Err.remote m) := by
  unfold resolveDeck resolveName
  rcases hdid : fs.deck_id with _ | d
  · dsimp only
    split
    · rename_i heq
      split
      · refine ⟨rfl, ⟨[Event.remote (RemoteOp.createDeck (stemDeckName fs))],
          by simp [emitEv], Or.inr rfl⟩, ?_, ?_⟩
        · intro nm dw h
          simp at h
        · intro e h
          injection h with h1
          exact ⟨_, h1.symm⟩
      · refine ⟨rfl, ⟨[Event.remote (RemoteOp.createDeck (stemDeckName fs))],
          by simp [emitEv], Or.inr rfl⟩, ?_, ?_⟩
        · intro nm dw h
          injection h with h1
          injection h1 with h2 h3
          exact h2.symm
        · intro e h
          simp at h
    · refine ⟨rfl, ⟨[], by simp, Or.inl rfl⟩, ?_, by intro e h; simp at h⟩
      intro nm dw h
      injection h with h1
      injection h1 with h2 h3
      exact h2.symm
  · dsimp only
    by_cases hz : d ≠ 0
    · rw [if_pos hz]
      rcases hlk : alookup s.anki.id_to_deck_name d with _ | nm0
      · dsimp only
        split
        · rename_i heq
          split
          · refine ⟨rfl, ⟨[Event.remote (RemoteOp.createDeck (stemDeckName fs))],
              by simp [emitEv], Or.inr rfl⟩, ?_, ?_⟩
            · intro nm dw h
              simp at h
            · intro e h
              injection h with h1
              exact ⟨_, h1.symm⟩
          · refine ⟨rfl, ⟨[Event.remote (RemoteOp.createDeck (stemDeckName fs))],
              by simp [emitEv], Or.inr rfl⟩, ?_, ?_⟩
            · intro nm dw h
              injection h with h1
              injection h1 with h2 h3
              subst h2
              simp
            · intro e h
              simp at h
        · rename_i heq
          rw [if_pos hz]
          refine ⟨rfl, ⟨[], by simp, Or.inl rfl⟩, ?_, by intro e h; simp at h⟩
          intro nm dw h
          injection h with h1
          injection h1 with h2 h3
          subst h2
          simp
      · dsimp only
        refine ⟨rfl, ⟨[], by simp, Or.inl rfl⟩, ?_, by intro e h; simp at h⟩
        intro nm dw h
        injection h with h1
        injection h1 with h2 h3
        subst h2
        rw [if_pos hz]
    · push_neg at hz
      subst hz
      rw [if_neg (by simp)]
      dsimp only
      split
      · rename_i heq
        split
        · refine ⟨rfl, ⟨[Event.remote (RemoteOp.createDeck (stemDeckName fs))],
            by simp [emitEv], Or.inr rfl⟩, ?_, ?_⟩
          · intro nm dw h
            simp at h
          · intro e h
            injection h with h1
            exact ⟨_, h1.symm⟩
        · refine ⟨rfl, ⟨[Event.remote (RemoteOp.createDeck (stemDeckName fs))],
            by simp [emitEv], Or.inr rfl⟩, ?_, ?_⟩
          · intro nm dw h
            injection h with h1
            injection h1 with h2 h3
            subst h2
            simp
          · intro e h
            simp at h
      · rw [if_neg (by simp)]
        refine ⟨rfl, ⟨[], by simp, Or.inl rfl⟩, ?_, by intro e h; simp at h⟩
        intro nm dw h
        injection h with h1
        injection h1 with h2 h3
        subst h2
        simp

theorem movePhase_spec (env : RemoteEnv) (deckName : Str)
    (existing : List (Note × List (Str × Str))) (res : FileImportResult) (s : St) :
    (movePhase env deckName existing res s).2.anki = s.anki
    ∧ ∃ d, (movePhase env deckName existing res s).2.trace = s.trace ++ d
        ∧ (d = [] ∨ ∃ cs dn, d = [Event.remote (RemoteOp.changeDeck cs dn)]) := by
  unfold movePhase
  dsimp only
  split
  · exact ⟨rfl, [], by simp, Or.inl rfl⟩
  · split
    · exact ⟨rfl, [Event.remote (RemoteOp.changeDeck
          (cardsToMove s.anki deckName existing) deckName)],
        by simp [emitEv], Or.inr ⟨_, _, rfl⟩⟩
    · exact ⟨rfl, [Event.remote (RemoteOp.changeDeck
          (cardsToMove s.anki deckName existing) deckName)],
        by simp [emitEv], Or.inr ⟨_, _, rfl⟩⟩

theorem updatePhase_spec (env : RemoteEnv) (existing : List (Note × List (Str × Str)))
    (res : FileImportResult) (s : St) :
    (updatePhase env existing res s).2.anki = s.anki
    ∧ ∃ d, (updatePhase env existing res s).2.trace = s.trace ++ d
        ∧ (d = [] ∨ ∃ us, d = [Event.remote (RemoteOp.updateNotes us)]) := by
  unfold updatePhase
  dsimp only
  split
  · exact ⟨rfl, [], by simp, Or.inl rfl⟩
  · split
    · exact ⟨rfl, [Event.remote (RemoteOp.updateNotes (buildUpdates s.anki existing).updates)],
        by simp [emitEv], Or.inr ⟨_, rfl⟩⟩
    · exact ⟨rfl, [Event.remote (RemoteOp.updateNotes (buildUpdates s.anki existing).updates)],
        by simp [emitEv], Or.inr ⟨_, rfl⟩⟩

theorem deletePhase_spec (env : RemoteEnv) (deckName : Str) (fs : FileState)
    (globalIds : List Nat) (res : FileImportResult) (s : St) :
    (deletePhase env deckName fs globalIds res s).2.anki = s.anki
    ∧ (∃ d, (deletePhase env deckName fs globalIds res s).2.trace = s.trace ++ d
        ∧ (d = [] ∨ (d = [Event.remote (RemoteOp.deleteNotes
              (orphanedIds s.anki deckName fs globalIds))]
            ∧ orphanedIds s.anki deckName fs globalIds ≠ [])))
    ∧ (orphanedIds s.anki deckName fs globalIds = [] →
        deletePhase env deckName fs globalIds res s = (.ok res, s))
    ∧ (∀ e, (deletePhase env deckName fs globalIds res s).1 = .error e →
        ∃ m, e = Err.remote m) := by
  unfold deletePhase
  dsimp only
  split
  · rename_i hemp
    rw [List.isEmpty_iff] at hemp
    exact ⟨rfl, ⟨[], by simp, Or.inl rfl⟩, fun _ => rfl, by intro e h; simp at h⟩
  · rename_i hemp
    have hne : orphanedIds s.anki deckName fs globalIds ≠ [] := by
      intro hcontra
      exact hemp (by rw [hcontra]; rfl)
    split
    · refine ⟨rfl, ⟨[Event.remote (RemoteOp.deleteNotes
          (orphanedIds s.anki deckName fs globalIds))],
        by simp [emitEv], Or.inr ⟨rfl, hne⟩⟩, fun hc => absurd hc hne, ?_⟩
      intro e h
      injection h with h1
      exact ⟨_, h1.symm⟩
    · refine ⟨rfl, ⟨[Event.remote (RemoteOp.deleteNotes
          (orphanedIds s.anki deckName fs globalIds))],
        by simp [emitEv], Or.inr ⟨rfl, hne⟩⟩, fun hc => absurd hc hne, ?_⟩
      intro e h
      simp at h

theorem createPhase_spec (env : RemoteEnv) (deckName : Str)
    (newNotes : List (Note × List (Str × Str))) (res : FileImportResult) (s : St) :
    (createPhase env deckName newNotes res s).2.anki = s.anki
    ∧ ∃ d, (createPhase env deckName newNotes res s).2.trace = s.trace ++ d
        ∧ (d = [] ∨ ∃ dn ns, d = [Event.remote (RemoteOp.addNotes dn ns)]) := by
  unfold createPhase
  dsimp only
  split
  · exact ⟨rfl, [], by simp, Or.inl rfl⟩
  · split
    · exact ⟨rfl, [Event.remote (RemoteOp.addNotes deckName
          (newNotes.map (fun e => (e.1.note_type, e.2))))],
        by simp [emitEv], Or.inr ⟨_, _, rfl⟩⟩
    · exact ⟨rfl, [Event.remote (RemoteOp.addNotes deckName
          (newNotes.map (fun e => (e.1.note_type, e.2))))],
        by simp [emitEv], Or.inr ⟨_, _, rfl⟩⟩

theorem orphanedIds_congr (a b : AnkiState) (deckName : Str) (fs : FileState)
    (g : List Nat) (h : a.deck_note_ids = b.deck_note_ids) :
    orphanedIds a deckName fs g = orphanedIds b deckName fs g := by
  unfold orphanedIds
  rw [h]

theorem syncFile_shape (env : RemoteEnv) (conv : Str → Str) (oan : Bool)
    (g : List Nat) (fs : FileState) (s : St) :
    ∃ d1 d2 d3 d4 d5,
      (syncFile env conv oan g fs s).2.trace =
        s.trace ++ (d1 ++ (d2 ++ (d3 ++ (d4 ++ d5))))
      ∧ (d1 = [] ∨ d1 = [Event.remote (RemoteOp.createDeck (stemDeckName fs))])
      ∧ (d2 = [] ∨ ∃ cs dn, d2 = [Event.remote (RemoteOp.changeDeck cs dn)])
      ∧ (d3 = [] ∨ ∃ us, d3 = [Event.remote (RemoteOp.updateNotes us)])
      ∧ (d4 = [] ∨ (d4 = [Event.remote (RemoteOp.deleteNotes
            (orphanedIds s.anki (resolveName s.anki fs) fs g))]
          ∧ orphanedIds s.anki (resolveName s.anki fs) fs g ≠ []))
      ∧ (d5 = [] ∨ ∃ dn ns, d5 = [Event.remote (RemoteOp.addNotes dn ns)])
      ∧ (syncFile env conv oan g fs s).2.anki.deck_note_ids = s.anki.deck_note_ids := by
  obtain ⟨hrA, ⟨e1, he1, hd1⟩, hname, _⟩ := resolveDeck_spec env fs s
  unfold syncFile
  rcases h0 : resolveDeck env fs s with ⟨r0, s1⟩
  rw [h0] at hrA he1 hname
  dsimp only at hrA he1 hname ⊢
  cases r0 with
  | error e =>
    exact ⟨e1, [], [], [], [], by simpa using he1, hd1, Or.inl rfl, Or.inl rfl,
      Or.inl rfl, Or.inl rfl, hrA⟩
  | ok p =>
    rcases p with ⟨deckName, dw⟩
    have hdn : deckName = resolveName s.anki fs := hname deckName dw rfl
    dsimp only
    cases hg : guardTypes s1.anki (classify conv oan fs.parsed_notes).existing with
    | some e =>
      exact ⟨e1, [], [], [], [], by simpa using he1, hd1, Or.inl rfl, Or.inl rfl,
        Or.inl rfl, Or.inl rfl, hrA⟩
    | none =>
      obtain ⟨hmA, e2, he2, hd2⟩ := movePhase_spec env deckName
        (classify conv oan fs.parsed_notes).existing
        { file_path := fs.file_path, deck_name := deckName,
          total_notes := fs.parsed_notes.length,
          updated := 0, created := 0, deleted := 0, moved := 0,
          skipped := (classify conv oan fs.parsed_notes).skipped,
          errors := (classify conv oan fs.parsed_notes).errors } s1
      rcases h2 : movePhase env deckName (classify conv oan fs.parsed_notes).existing
          { file_path := fs.file_path, deck_name := deckName,
            total_notes := fs.parsed_notes.length,
            updated := 0, created := 0, deleted := 0, moved := 0,
            skipped := (classify conv oan fs.parsed_notes).skipped,
            errors := (classify conv oan fs.parsed_notes).errors } s1 with ⟨res1, s2⟩
      rw [h2] at hmA he2
      try dsimp only at hmA he2
      try dsimp only
      obtain ⟨huA, e3, he3, hd3⟩ := updatePhase_spec env
        (classify conv oan fs.parsed_notes).existing res1 s2
      rcases h3 : updatePhase env (classify conv oan fs.parsed_notes).existing res1 s2
        with ⟨⟨stale, res2⟩, s3⟩
      rw [h3] at huA he3
      try dsimp only at huA he3
      try dsimp only
      obtain ⟨hdA, ⟨e4, he4, hd4⟩, _, _⟩ := deletePhase_spec env deckName fs g res2 s3
      rcases h4 : deletePhase env deckName fs g res2 s3 with ⟨r4, s4⟩
      rw [h4] at hdA he4
      try dsimp only at hdA he4
      try dsimp only
      have horph : orphanedIds s3.anki deckName fs g =
          orphanedIds s.anki (resolveName s.anki fs) fs g := by
        rw [hdn] at *
        exact orphanedIds_congr s3.anki s.anki _ fs g (by rw [huA, hmA, hrA])
      rw [horph] at hd4
      cases r4 with
      | error e =>
        dsimp only
        refine ⟨e1, e2, e3, e4, [], ?_, hd1, hd2, hd3, hd4, Or.inl rfl, ?_⟩
        · rw [he4, he3, he2, he1]
          simp
        · rw [hdA, huA, hmA, hrA]
      | ok res3 =>
        dsimp only
        obtain ⟨hcA, e5, he5, hd5⟩ := createPhase_spec env deckName
          ((classify conv oan fs.parsed_notes).newNotes ++ stale) res3 s4
        rcases h5 : createPhase env deckName
            ((classify conv oan fs.parsed_notes).newNotes ++ stale) res3 s4
          with ⟨⟨res4, idAssignments⟩, s5⟩
        rw [h5] at hcA he5
        try dsimp only at hcA he5
        try dsimp only
        refine ⟨e1, e2, e3, e4, e5, ?_, hd1, hd2, hd3, hd4, hd5, ?_⟩
        · rw [he5, he4, he3, he2, he1]
          simp
        · rw [hcA, hdA, huA, hmA, hrA]

theorem syncFile_trace_remote (env : RemoteEnv) (conv : Str → Str) (oan : Bool)
    (g : List Nat) (fs : FileState) (s : St) :
    ∃ d, (syncFile env conv oan g fs s).2.trace = s.trace ++ d
      ∧ (∀ e ∈ d, ∃ op, e = Event.remote op)
      ∧ (syncFile env conv oan g fs s).2.anki.deck_note_ids = s.anki.deck_note_ids := by
  obtain ⟨d1, d2, d3, d4, d5, htr, hd1, hd2, hd3, hd4, hd5, hA⟩ :=
    syncFile_shape env conv oan g fs s
  refine ⟨d1 ++ (d2 ++ (d3 ++ (d4 ++ d5))), htr, ?_, hA⟩
  have hone : ∀ (dl : List Event), (∃ op, dl = [] ∨ dl = [Event.remote op]) →
      ∀ e ∈ dl, ∃ op, e = Event.remote op := by
    intro dl hdl e hmem
    obtain ⟨op, hdl⟩ := hdl
    rcases hdl with h | h
    · rw [h] at hmem
      simp at hmem
    · rw [h] at hmem
      simp only [List.mem_singleton] at hmem
      exact ⟨op, hmem⟩
  have g1 : ∃ op, d1 = [] ∨ d1 = [Event.remote op] := by
    rcases hd1 with h | h
    · exact ⟨RemoteOp.createDeck [], Or.inl h⟩
    · exact ⟨_, Or.inr h⟩
  have g2 : ∃ op, d2 = [] ∨ d2 = [Event.remote op] := by
    rcases hd2 with h | ⟨cs, dn, h⟩
    · exact ⟨RemoteOp.createDeck [], Or.inl h⟩
    · exact ⟨_, Or.inr h⟩
  have g3 : ∃ op, d3 = [] ∨ d3 = [Event.remote op] := by
    rcases hd3 with h | ⟨us, h⟩
    · exact ⟨RemoteOp.createDeck [], Or.inl h⟩
    · exact ⟨_, Or.inr h⟩
  have g4 : ∃ op, d4 = [] ∨ d4 = [Event.remote op] := by
    rcases hd4 with h | ⟨h, _⟩
    · exact ⟨RemoteOp.createDeck [], Or.inl h⟩
    · exact ⟨_, Or.inr h⟩
  have g5 : ∃ op, d5 = [] ∨ d5 = [Event.remote op] := by
    rcases hd5 with h | ⟨dn, ns, h⟩
    · exact ⟨RemoteOp.createDeck [], Or.inl h⟩
    · exact ⟨_, Or.inr h⟩
  intro e he
  rcases List.mem_append.mp he with h | h
  · exact hone d1 g1 e h
  rcases List.mem_append.mp h with h | h
  · exact hone d2 g2 e h
  rcases List.mem_append.mp h with h | h
  · exact hone d3 g3 e h
  rcases List.mem_append.mp h with h | h
  · exact hone d4 g4 e h
  · exact hone d5 g5 e h

theorem syncFile_delete_ops (env : RemoteEnv) (conv : Str → Str) (oan : Bool)
    (g : List Nat) (fs : FileState) (s : St) (ids : List Nat)
    (h : Event.remote (RemoteOp.deleteNotes ids) ∈ (syncFile env conv oan g fs s).2.trace) :
    Event.remote (RemoteOp.deleteNotes ids) ∈ s.trace
    ∨ ids = orphanedIds s.anki (resolveName s.anki fs) fs g := by
  obtain ⟨d1, d2, d3, d4, d5, htr, hd1, hd2, hd3, hd4, hd5, _⟩ :=
    syncFile_shape env conv oan g fs s
  rw [htr] at h
  rcases List.mem_append.mp h with h | h
  · exact Or.inl h
  rcases List.mem_append.mp h with h | h
  · rcases hd1 with h1 | h1 <;> rw [h1] at h <;> simp_all
  rcases List.mem_append.mp h with h | h
  · rcases hd2 with h1 | ⟨cs, dn, h1⟩ <;> rw [h1] at h <;> simp_all
  rcases List.mem_append.mp h with h | h
  · rcases hd3 with h1 | ⟨us, h1⟩ <;> rw [h1] at h <;> simp_all
  rcases List.mem_append.mp h with h | h
  · rcases hd4 with h1 | ⟨h1, _⟩
    · rw [h1] at h
      simp at h
    · rw [h1] at h
      simp only [List.mem_singleton] at h
      right
      simp only [Event.remote.injEq, RemoteOp.deleteNotes.injEq] at h
      exact h
  · rcases hd5 with h1 | ⟨dn, ns, h1⟩ <;> rw [h1] at h <;> simp_all

/-! ## C6: orphan deletion precedes creation within a pass -/

/-- C6: within one file's import pass, every orphan-deletion remote call is
issued strictly before any record-creation call of that pass: the pass's
trace delta splits into a first segment with no `addNotes` call (which holds the
`deleteNotes` call, if any) followed by a second segment with no
`deleteNotes` call. -/
theorem delete_before_create_in_pass (env : RemoteEnv) (conv : Str → Str)
    (oan : Bool) (g : List Nat) (fs : FileState) (s : St) :
    ∃ t1 t2, (syncFile env conv oan g fs s).2.trace = (s.trace ++ t1) ++ t2
      ∧ (∀ e ∈ t1, ∀ dn ns, e ≠ Event.remote (RemoteOp.addNotes dn ns))
      ∧ (∀ e ∈ t2, ∀ ids, e ≠ Event.remote (RemoteOp.deleteNotes ids)) := by
  obtain ⟨d1, d2, d3, d4, d5, htr, hd1, hd2, hd3, hd4, hd5, _⟩ :=
    syncFile_shape env conv oan g fs s
  refine ⟨d1 ++ (d2 ++ (d3 ++ d4)), d5, ?_, ?_, ?_⟩
  · rw [htr]
    simp [List.append_assoc]
  · intro e he dn ns hcontra
    subst hcontra
    rcases List.mem_append.mp he with h | h
    · rcases hd1 with h1 | h1 <;> rw [h1] at h <;> simp_all
    rcases List.mem_append.mp h with h | h
    · rcases hd2 with h1 | ⟨cs, dn2, h1⟩ <;> rw [h1] at h <;> simp_all
    rcases List.mem_append.mp h with h | h
    · rcases hd3 with h1 | ⟨us, h1⟩ <;> rw [h1] at h <;> simp_all
    · rcases hd4 with h1 | ⟨h1, _⟩ <;> rw [h1] at h <;> simp_all
  · intro e he ids hcontra
    subst hcontra
    rcases hd5 with h1 | ⟨dn, ns, h1⟩ <;> rw [h1] at he <;> simp_all

/-! ## C3: type-mismatch abort and what precedes it -/

theorem syncFile_typeMismatch_trace (env : RemoteEnv) (conv : Str → Str)
    (oan : Bool) (g : List Nat) (fs : FileState) (s : St) (k : Nat) (tM tA : Str)
    (h : (syncFile env conv oan g fs s).1 = .error (Err.typeMismatch k tM tA)) :
    (syncFile env conv oan g fs s).2.trace = s.trace ∨
      (syncFile env conv oan g fs s).2.trace =
        s.trace ++ [Event.remote (RemoteOp.createDeck (stemDeckName fs))] := by
  obtain ⟨hrA, ⟨e1, he1, hd1⟩, hname, herr⟩ := resolveDeck_spec env fs s
  unfold syncFile at h ⊢
  rcases h0 : resolveDeck env fs s with ⟨r0, s1⟩
  rw [h0] at hrA he1 hname herr h
  try dsimp only at hrA he1 hname herr
  try dsimp only at h
  try dsimp only
  cases r0 with
  | error e =>
    exfalso
    dsimp only at h
    injection h with h1
    obtain ⟨m, hm⟩ := herr e rfl
    rw [hm] at h1
    exact absurd h1.symm (by simp)
  | ok p =>
    rcases p with ⟨deckName, dw⟩
    dsimp only at h ⊢
    cases hg : guardTypes s1.anki (classify conv oan fs.parsed_notes).existing with
    | some e =>
      rw [hg] at h
      try dsimp only at h
      try dsimp only
      rcases hd1 with h1 | h1
      · left
        rw [he1, h1]
        simp
      · right
        rw [he1, h1]
    | none =>
      exfalso
      rw [hg] at h
      try dsimp only at h
      rcases h2 : movePhase env deckName (classify conv oan fs.parsed_notes).existing
          { file_path := fs.file_path, deck_name := deckName,
            total_notes := fs.parsed_notes.length,
            updated := 0, created := 0, deleted := 0, moved := 0,
            skipped := (classify conv oan fs.parsed_notes).skipped,
            errors := (classify conv oan fs.parsed_notes).errors } s1 with ⟨res1, s2⟩
      rw [h2] at h
      try dsimp only at h
      rcases h3 : updatePhase env (classify conv oan fs.parsed_notes).existing res1 s2
        with ⟨⟨stale, res2⟩, s3⟩
      rw [h3] at h
      try dsimp only at h
      obtain ⟨hdA2, hsp4, hzero, herr4⟩ := deletePhase_spec env deckName fs g res2 s3
      rcases h4 : deletePhase env deckName fs g res2 s3 with ⟨r4, s4⟩
      rw [h4] at herr4 h
      try dsimp only at herr4
      try dsimp only at h
      cases r4 with
      | error e =>
        try dsimp only at h
        injection h with h1
        obtain ⟨m, hm⟩ := herr4 e rfl
        rw [hm] at h1
        exact absurd h1.symm (by simp)
      | ok res3 =>
        try dsimp only at h
        simp at h

/-- C3 counterexample: a collection run over one file whose deck must be
created in phase 0 and whose note 5 is locally `AnkiOpsQA` but remotely
`AnkiOpsCloze` aborts with the type-mismatch error, but only *after* the
`createDeck` remote mutation was already issued — so the abort does not
happen before any remote mutation, as the claim states. -/
theorem type_mismatch_counterexample :
    (importCollection
        ⟨.ok ⟨[], [], [(5, ⟨5, "AnkiOpsCloze".toList, [("Text".toList, "t".toList)], []⟩)],
              [], []⟩,
         fun _ => .ok 77, fun _ _ => .ok (), fun _ => .ok [],
         fun _ => .ok (), fun _ _ => .ok []⟩
        (fun s => s) ("y".toList) false
        [⟨"Foo.md".toList, "Foo".toList, "x".toList, none,
          [⟨some 5, "AnkiOpsQA".toList,
            [("Question".toList, "q".toList), ("Answer".toList, "a".toList)]⟩]⟩]).1 =
      .error (Err.typeMismatch 5 ("AnkiOpsQA".toList) ("AnkiOpsCloze".toList))
    ∧ (importCollection
          ⟨.ok ⟨[], [], [(5, ⟨5, "AnkiOpsCloze".toList, [("Text".toList, "t".toList)], []⟩)],
                [], []⟩,
           fun _ => .ok 77, fun _ _ => .ok (), fun _ => .ok [],
           fun _ => .ok (), fun _ _ => .ok []⟩
          (fun s => s) ("y".toList) false
          [⟨"Foo.md".toList, "Foo".toList, "x".toList, none,
            [⟨some 5, "AnkiOpsQA".toList,
              [("Question".toList, "q".toList), ("Answer".toList, "a".toList)]⟩]⟩]).2.trace =
        [Event.fetchState, Event.remote (RemoteOp.createDeck ("Foo".toList))] := by
  constructor
  · decide
  · decide

/-- C3 (amended): when a file's pass aborts with the type-mismatch error,
no record-level remote mutation of that pass (move, update, delete or
create of records) has been issued — the pass's trace delta is empty or
consists solely of the phase-0 deck-creation call, which can precede the
guard.  (The unamended "before any remote mutation" fails because of that
deck-creation call; in collection mode earlier files' passes have also
already mutated.) -/
theorem type_mismatch_aborts_before_record_mutations (env : RemoteEnv)
    (conv : Str → Str) (oan : Bool) (g : List Nat) (fs : FileState) (s : St)
    (k : Nat) (tM tA : Str)
    (h : (syncFile env conv oan g fs s).1 = .error (Err.typeMismatch k tM tA)) :
    (syncFile env conv oan g fs s).2.trace = s.trace ∨
      (syncFile env conv oan g fs s).2.trace =
        s.trace ++ [Event.remote (RemoteOp.createDeck (stemDeckName fs))] :=
  syncFile_typeMismatch_trace env conv oan g fs s k tM tA h

/-- C3 witness: a concrete pass whose deck resolves by id, aborting on the
guard with an unchanged trace. -/
theorem type_mismatch_aborts_before_record_mutations_witness :
    (syncFile
        ⟨.ok emptyAnki, fun _ => .ok 77, fun _ _ => .ok (), fun _ => .ok [],
         fun _ => .ok (), fun _ _ => .ok []⟩
        (fun s => s) false []
        ⟨"Foo.md".toList, "Foo".toList, "x".toList, some 10,
          [⟨some 5, "AnkiOpsQA".toList,
            [("Question".toList, "q".toList), ("Answer".toList, "a".toList)]⟩]⟩
        ⟨[], ⟨[("Foo".toList, 10)], [(10, "Foo".toList)],
              [(5, ⟨5, "AnkiOpsCloze".toList, [("Text".toList, "t".toList)], []⟩)],
              [], []⟩⟩).2.trace = (⟨[], ⟨[("Foo".toList, 10)], [(10, "Foo".toList)],
              [(5, ⟨5, "AnkiOpsCloze".toList, [("Text".toList, "t".toList)], []⟩)],
              [], []⟩⟩ : St).trace ∨
      (syncFile
        ⟨.ok emptyAnki, fun _ => .ok 77, fun _ _ => .ok (), fun _ => .ok [],
         fun _ => .ok (), fun _ _ => .ok []⟩
        (fun s => s) false []
        ⟨"Foo.md".toList, "Foo".toList, "x".toList, some 10,
          [⟨some 5, "AnkiOpsQA".toList,
            [("Question".toList, "q".toList), ("Answer".toList, "a".toList)]⟩]⟩
        ⟨[], ⟨[("Foo".toList, 10)], [(10, "Foo".toList)],
              [(5, ⟨5, "AnkiOpsCloze".toList, [("Text".toList, "t".toList)], []⟩)],
              [], []⟩⟩).2.trace = (⟨[], ⟨[("Foo".toList, 10)], [(10, "Foo".toList)],
              [(5, ⟨5, "AnkiOpsCloze".toList, [("Text".toList, "t".toList)], []⟩)],
              [], []⟩⟩ : St).trace ++
        [Event.remote (RemoteOp.createDeck (stemDeckName
          ⟨"Foo.md".toList, "Foo".toList, "x".toList, some 10,
            [⟨some 5, "AnkiOpsQA".toList,
              [("Question".toList, "q".toList), ("Answer".toList, "a".toList)]⟩]⟩))] :=
  type_mismatch_aborts_before_record_mutations _ _ _ _ _ _ 5
    ("AnkiOpsQA".toList) ("AnkiOpsCloze".toList) (by decide)

/-! ## Orchestration-level lemmas -/

theorem orphanedIds_not_global (a : AnkiState) (dn : Str) (fs : FileState)
    (g : List Nat) (x : Nat) (h : x ∈ orphanedIds a dn fs g) (hg : g ≠ []) :
    x ∉ g := by
  unfold orphanedIds at h
  rw [if_neg (by simpa [List.isEmpty_iff] using hg)] at h
  have h2 := List.mem_filter.mp h
  simpa using h2.2

theorem syncFile_ok_pending (env : RemoteEnv) (conv : Str → Str) (oan : Bool)
    (g : List Nat) (fs : FileState) (s : St) (r : FileImportResult) (p : PendingWrite)
    (h : (syncFile env conv oan g fs s).1 = .ok (r, p)) :
    p.file_path = fs.file_path := by
  unfold syncFile at h
  rcases h0 : resolveDeck env fs s with ⟨r0, s1⟩
  rw [h0] at h
  dsimp only at h
  cases r0 with
  | error e => simp at h
  | ok pr =>
    rcases pr with ⟨deckName, dw⟩
    dsimp only at h
    cases hg2 : guardTypes s1.anki (classify conv oan fs.parsed_notes).existing with
    | some e =>
      rw [hg2] at h
      simp at h
    | none =>
      rw [hg2] at h
      dsimp only at h
      rcases h4 : deletePhase env deckName fs g
          (updatePhase env (classify conv oan fs.parsed_notes).existing
            (movePhase env deckName (classify conv oan fs.parsed_notes).existing
              { file_path := fs.file_path, deck_name := deckName,
                total_notes := fs.parsed_notes.length,
                updated := 0, created := 0, deleted := 0, moved := 0,
                skipped := (classify conv oan fs.parsed_notes).skipped,
                errors := (classify conv oan fs.parsed_notes).errors } s1).1
            (movePhase env deckName (classify conv oan fs.parsed_notes).existing
              { file_path := fs.file_path, deck_name := deckName,
                total_notes := fs.parsed_notes.length,
                updated := 0, created := 0, deleted := 0, moved := 0,
                skipped := (classify conv oan fs.parsed_notes).skipped,
                errors := (classify conv oan fs.parsed_notes).errors } s1).2).1.2
          (updatePhase env (classify conv oan fs.parsed_notes).existing
            (movePhase env deckName (classify conv oan fs.parsed_notes).existing
              { file_path := fs.file_path, deck_name := deckName,
                total_notes := fs.parsed_notes.length,
                updated := 0, created := 0, deleted := 0, moved := 0,
                skipped := (classify conv oan fs.parsed_notes).skipped,
                errors := (classify conv oan fs.parsed_notes).errors } s1).1
            (movePhase env deckName (classify conv oan fs.parsed_notes).existing
              { file_path := fs.file_path, deck_name := deckName,
                total_notes := fs.parsed_notes.length,
                updated := 0, created := 0, deleted := 0, moved := 0,
                skipped := (classify conv oan fs.parsed_notes).skipped,
                errors := (classify conv oan fs.parsed_notes).errors } s1).2).2
        with ⟨r4, s4⟩
      rw [h4] at h
      try dsimp only at h
      cases r4 with
      | error e => simp at h
      | ok res3 =>
        try dsimp only at h
        injection h with h1
        injection h1 with h2 h3
        rw [← h3]

theorem mem_orphanedIds (a : AnkiState) (dn : Str) (fs : FileState)
    (g : List Nat) (x : Nat) :
    x ∈ orphanedIds a dn fs g ↔
      (x ∈ alookupD a.deck_note_ids dn [] ∧ x ∉ declaredNoteIds fs ∧ x ∉ g) := by
  unfold orphanedIds
  cases hg : g.isEmpty with
  | true =>
    rw [if_pos rfl]
    rw [List.isEmpty_iff] at hg
    subst hg
    simp [List.mem_filter]
  | false =>
    rw [if_neg (by simp)]
    simp only [List.mem_filter, decide_not, Bool.not_eq_eq_eq_not, Bool.not_true,
      decide_eq_false_iff_not, and_assoc]

theorem writePaths_nil (d : List Event) (h : ∀ e ∈ d, ∃ op, e = Event.remote op) :
    d.filterMap eventWritePath = [] := by
  induction d with
  | nil => rfl
  | cons e t ih =>
    obtain ⟨op, hop⟩ := h e (List.mem_cons_self e t)
    subst hop
    simpa [eventWritePath] using ih (fun x hx => h x (List.mem_cons_of_mem _ hx))

theorem eventWritePath_none_of_not_write (e : Event) (h : e.isWrite = false) :
    eventWritePath e = none := by
  cases e <;> simp_all [Event.isWrite, eventWritePath]

theorem writePaths_nil_of_no_writes (d : List Event) (h : ∀ e ∈ d, e.isWrite = false) :
    d.filterMap eventWritePath = [] := by
  induction d with
  | nil => rfl
  | cons e t ih =>
    rw [List.filterMap_cons,
      eventWritePath_none_of_not_write e (h e (List.mem_cons_self e t))]
    exact ih (fun x hx => h x (List.mem_cons_of_mem _ hx))

theorem remote_not_write (op : RemoteOp) : (Event.remote op).isWrite = false := rfl

theorem flushOne_shape (w : PendingWrite) (s : St) :
    ∃ d, (flushOne w s).2.trace = s.trace ++ d ∧
      (d = [] ∨ ∃ c, d = [Event.fileWrite w.file_path c]) := by
  unfold flushOne
  split
  · exact ⟨[], by simp, Or.inl rfl⟩
  · split
    · exact ⟨[Event.fileWrite w.file_path (flushContent1 w)], by simp [emitEv],
        Or.inr ⟨_, rfl⟩⟩
    · split
      · exact ⟨[Event.fileWrite w.file_path
          (w.id_assignments.foldl applyAssignment (flushContent1 w))],
          by simp [emitEv], Or.inr ⟨_, rfl⟩⟩
      · exact ⟨[], by simp, Or.inl rfl⟩

theorem flushWrites_spec (ws : List PendingWrite) :
    ∀ s : St, ∃ d, (flushWrites ws s).2.trace = s.trace ++ d
      ∧ (∀ e ∈ d, e.isWrite = true)
      ∧ (d.filterMap eventWritePath).Sublist (ws.map (fun w => w.file_path)) := by
  induction ws with
  | nil => exact fun s => ⟨[], by simp [flushWrites], by simp, by simp⟩
  | cons w t ih =>
    intro s
    obtain ⟨d1, hd1, hsh⟩ := flushOne_shape w s
    unfold flushWrites
    rcases hfo : flushOne w s with ⟨r1, s1⟩
    rw [hfo] at hd1
    dsimp only at hd1
    cases r1 with
    | error e =>
      dsimp only
      refine ⟨d1, hd1, ?_, ?_⟩
      · rcases hsh with h | ⟨c, h⟩ <;> subst h <;> simp [Event.isWrite]
      · rcases hsh with h | ⟨c, h⟩ <;> subst h
        · simp
        · simp only [List.filterMap_cons, eventWritePath, List.filterMap_nil,
            List.map_cons]
          exact List.Sublist.cons₂ _ (List.nil_sublist _)
    | ok u =>
      dsimp only
      obtain ⟨d2, hd2, hw2, hsub2⟩ := ih s1
      refine ⟨d1 ++ d2, by rw [hd2, hd1, List.append_assoc], ?_, ?_⟩
      · intro e he
        rcases List.mem_append.mp he with h | h
        · rcases hsh with hh | ⟨c, hh⟩ <;> subst hh
          · simp at h
          · simp only [List.mem_singleton] at h
            subst h
            rfl
        · exact hw2 e h
      · rw [List.filterMap_append]
        rcases hsh with hh | ⟨c, hh⟩ <;> subst hh
        · simpa using List.Sublist.cons _ hsub2
        · simp only [List.filterMap_cons, eventWritePath, List.filterMap_nil,
            List.nil_append, List.map_cons]
          exact List.Sublist.cons₂ _ hsub2

theorem syncAll_trace (env : RemoteEnv) (conv : Str → Str) (oan : Bool)
    (g : List Nat) (fss : List FileState) :
    ∀ s : St, ∃ d, (syncAll env conv oan g fss s).2.trace = s.trace ++ d
      ∧ ∀ e ∈ d, ∃ op, e = Event.remote op := by
  induction fss with
  | nil => exact fun s => ⟨[], by simp [syncAll], by simp⟩
  | cons fs t ih =>
    intro s
    obtain ⟨d1, hd1, hr1, _⟩ := syncFile_trace_remote env conv oan g fs s
    unfold syncAll
    rcases hsf : syncFile env conv oan g fs s with ⟨r1, s1⟩
    rw [hsf] at hd1
    dsimp only at hd1
    cases r1 with
    | error e => exact ⟨d1, hd1, hr1⟩
    | ok rp =>
      dsimp only
      obtain ⟨d2, hd2, hr2⟩ := ih s1
      rcases hsa : syncAll env conv oan g t s1 with ⟨r2, s2⟩
      rw [hsa] at hd2
      dsimp only at hd2
      cases r2 with
      | error e =>
        refine ⟨d1 ++ d2, by rw [hd2, hd1, List.append_assoc], ?_⟩
        intro e2 he2
        rcases List.mem_append.mp he2 with h | h
        · exact hr1 e2 h
        · exact hr2 e2 h
      | ok rsps =>
        refine ⟨d1 ++ d2, by rw [hd2, hd1, List.append_assoc], ?_⟩
        intro e2 he2
        rcases List.mem_append.mp he2 with h | h
        · exact hr1 e2 h
        · exact hr2 e2 h

theorem syncAll_ok_paths (env : RemoteEnv) (conv : Str → Str) (oan : Bool)
    (g : List Nat) (fss : List FileState) :
    ∀ (s : St) (rs : List FileImportResult) (ps : List PendingWrite),
      (syncAll env conv oan g fss s).1 = .ok (rs, ps) →
      ps.map (fun p => p.file_path) = fss.map (fun f => f.file_path) := by
  induction fss with
  | nil =>
    intro s rs ps h
    simp only [syncAll] at h
    injection h with h1
    injection h1 with _ h2
    rw [← h2]
    rfl
  | cons fs t ih =>
    intro s rs ps h
    unfold syncAll at h
    rcases hsf : syncFile env conv oan g fs s with ⟨r1, s1⟩
    rw [hsf] at h
    try dsimp only at h
    cases r1 with
    | error e => simp at h
    | ok rp =>
      dsimp only at h
      rcases hsa : syncAll env conv oan g t s1 with ⟨r2, s2⟩
      rw [hsa] at h
      try dsimp only at h
      cases r2 with
      | error e => simp at h
      | ok rsps =>
        dsimp only at h
        injection h with h1
        injection h1 with _ h2
        rw [← h2]
        have hp : rp.2.file_path = fs.file_path := by
          rcases rp with ⟨r, p⟩
          exact syncFile_ok_pending env conv oan g fs s r p (by rw [hsf])
        have ht : rsps.2.map (fun p => p.file_path) = t.map (fun f => f.file_path) := by
          rcases rsps with ⟨rs2, ps2⟩
          exact ih s1 rs2 ps2 (by rw [hsa])
        simp [hp, ht]

theorem syncAll_delete_global (env : RemoteEnv) (conv : Str → Str) (oan : Bool)
    (g : List Nat) (fss : List FileState) :
    ∀ (s : St) (ids : List Nat),
      Event.remote (RemoteOp.deleteNotes ids) ∈ (syncAll env conv oan g fss s).2.trace →
      Event.remote (RemoteOp.deleteNotes ids) ∈ s.trace ∨
        ∀ x ∈ ids, g ≠ [] → x ∉ g := by
  induction fss with
  | nil =>
    intro s ids h
    simp only [syncAll] at h
    exact Or.inl h
  | cons fs t ih =>
    intro s ids h
    have hfile : Event.remote (RemoteOp.deleteNotes ids) ∈
        (syncFile env conv oan g fs s).2.trace →
        Event.remote (RemoteOp.deleteNotes ids) ∈ s.trace ∨
          ∀ x ∈ ids, g ≠ [] → x ∉ g := by
      intro hm
      rcases syncFile_delete_ops env conv oan g fs s ids hm with h1 | h1
      · exact Or.inl h1
      · refine Or.inr (fun x hx hg => ?_)
        rw [h1] at hx
        exact orphanedIds_not_global s.anki (resolveName s.anki fs) fs g x hx hg
    unfold syncAll at h
    rcases hsf : syncFile env conv oan g fs s with ⟨r1, s1⟩
    rw [hsf] at h
    try dsimp only at h
    cases r1 with
    | error e =>
      exact hfile (by rw [hsf]; exact h)
    | ok rp =>
      dsimp only at h
      rcases hsa : syncAll env conv oan g t s1 with ⟨r2, s2⟩
      rw [hsa] at h
      try dsimp only at h
      have hs2 : Event.remote (RemoteOp.deleteNotes ids) ∈ s2.trace := by
        cases r2 <;> exact h
      have := ih s1 ids (by rw [hsa]; exact hs2)
      rcases this with h1 | h1
      · exact hfile (by rw [hsf]; exact h1)
      · exact Or.inr h1

theorem flushOne_error_dup (w : PendingWrite) (s : St) (e : Err)
    (h : (flushOne w s).1 = .error e) :
    ∃ p l, e = Err.duplicateFirstLines p l := by
  unfold flushOne at h
  split at h
  · simp at h
  · split at h
    · simp at h
    · split at h
      · simp at h
      · injection h with h1
        exact ⟨_, _, h1.symm⟩

theorem flushWrites_error_dup (ws : List PendingWrite) :
    ∀ (s : St) (e : Err), (flushWrites ws s).1 = .error e →
      ∃ p l, e = Err.duplicateFirstLines p l := by
  induction ws with
  | nil =>
    intro s e h
    simp [flushWrites] at h
  | cons w t ih =>
    intro s e h
    unfold flushWrites at h
    rcases hfo : flushOne w s with ⟨r1, s1⟩
    rw [hfo] at h
    cases r1 with
    | error e1 =>
      dsimp only at h
      injection h with h1
      exact h1 ▸ flushOne_error_dup w s e1 (by rw [hfo])
    | ok u =>
      dsimp only at h
      exact ih s1 e h

theorem importRun_spec (env : RemoteEnv) (conv : Str → Str) (oan : Bool)
    (g : List Nat) (fss : List FileState) (s2 : St) :
    ∃ B, (importRun env conv oan g fss s2).2.trace =
          (syncAll env conv oan g fss s2).2.trace ++ B
      ∧ (∀ e ∈ B, e.isWrite = true)
      ∧ (B.filterMap eventWritePath).Sublist (fss.map (fun f => f.file_path))
      ∧ (∀ err, (importRun env conv oan g fss s2).1 = .error err →
          (∀ p l, err ≠ Err.duplicateFirstLines p l) → B = []) := by
  unfold importRun
  rcases hsa : syncAll env conv oan g fss s2 with ⟨r3, s3⟩
  cases r3 with
  | error e =>
    exact ⟨[], by simp, by simp, by simp, fun _ _ _ => rfl⟩
  | ok rp =>
    rcases rp with ⟨results, pendings⟩
    dsimp only
    obtain ⟨dB, htr, hw, hsub⟩ := flushWrites_spec pendings s3
    have hpaths : pendings.map (fun p => p.file_path) =
        fss.map (fun f => f.file_path) :=
      syncAll_ok_paths env conv oan g fss s2 results pendings (by rw [hsa])
    rw [hpaths] at hsub
    rcases hfw : flushWrites pendings s3 with ⟨r4, s4⟩
    rw [hfw] at htr
    dsimp only at htr
    cases r4 with
    | error e =>
      refine ⟨dB, htr, hw, hsub, ?_⟩
      intro err herr hne
      dsimp only at herr
      injection herr with h1
      obtain ⟨p, l, hpl⟩ := flushWrites_error_dup pendings s3 e (by rw [hfw])
      exact absurd (h1 ▸ hpl) (fun hh => hne p l hh)
    | ok u =>
      refine ⟨dB, htr, hw, hsub, ?_⟩
      intro err herr hne
      dsimp only at herr
      simp at herr

theorem importCollection_trace (env : RemoteEnv) (conv : Str → Str) (ans : Str)
    (oan : Bool) (fss : List FileState) :
    ∃ A B, (importCollection env conv ans oan fss).2.trace = A ++ B
      ∧ (∀ e ∈ A, e.isWrite = false)
      ∧ (∀ e ∈ B, e.isWrite = true)
      ∧ (B.filterMap eventWritePath).Sublist (fss.map (fun f => f.file_path))
      ∧ (∀ ids, Event.remote (RemoteOp.deleteNotes ids) ∈
            (importCollection env conv ans oan fss).2.trace →
          ∀ x ∈ ids, (phase2 fss).globalIds ≠ [] → x ∉ (phase2 fss).globalIds)
      ∧ (∀ err, (importCollection env conv ans oan fss).1 = .error err →
          (∀ p l, err ≠ Err.duplicateFirstLines p l) → B = []) := by
  unfold importCollection
  dsimp only
  split
  · cases hf : env.fetched with
    | error e =>
      refine ⟨[Event.fetchState], [], by simp [emitEv], ?_, by simp, by simp, ?_,
        fun _ _ _ => rfl⟩
      · intro e2 he2
        simp only [List.mem_singleton] at he2
        subst he2
        rfl
      · intro ids hmem
        simp only [emitEv] at hmem
        simp at hmem
    | ok anki =>
      dsimp only
      split
      · refine ⟨[Event.fetchState], [], by simp [emitEv], ?_, by simp, by simp, ?_,
          fun _ _ _ => rfl⟩
        · intro e2 he2
          simp only [List.mem_singleton] at he2
          subst he2
          rfl
        · intro ids hmem
          simp only [emitEv] at hmem
          simp at hmem
      · simp only [emitEv, List.nil_append]
        obtain ⟨B, htr, hwB, hsub, herrB⟩ :=
          importRun_spec env conv oan (phase2 fss).globalIds fss
            ⟨[Event.fetchState], anki⟩
        obtain ⟨dR, hdR, hrem⟩ :=
          syncAll_trace env conv oan (phase2 fss).globalIds fss
            ⟨[Event.fetchState], anki⟩
        have hA : (syncAll env conv oan (phase2 fss).globalIds fss
            ⟨[Event.fetchState], anki⟩).2.trace = [Event.fetchState] ++ dR := hdR
        refine ⟨[Event.fetchState] ++ dR, B, ?_, ?_, hwB, hsub, ?_, herrB⟩
        · rw [htr, hA]
        · intro e2 he2
          rcases List.mem_append.mp he2 with h | h
          · simp only [List.mem_singleton] at h
            subst h
            rfl
          · obtain ⟨op, hop⟩ := hrem e2 h
            subst hop
            rfl
        · intro ids hmem
          rw [htr] at hmem
          rcases List.mem_append.mp hmem with h | h
          · rw [hA] at h
            have := syncAll_delete_global env conv oan (phase2 fss).globalIds fss
              ⟨[Event.fetchState], anki⟩ ids (by rw [hdR]; exact hA ▸ h)
            rcases this with h1 | h1
            · simp at h1
            · exact h1
          · have := hwB _ h
            simp [Event.isWrite] at this
  · exact ⟨[], [], by simp, by simp, by simp, by simp, by simp,
      fun _ _ _ => rfl⟩

/-! ## C2: write-back is deferred, atomic and applied at most once -/

/-- C2: in a collection run over files with pairwise-distinct paths, the
trace splits into a prefix of non-write events (the fetch and all remote
mutations) followed by a suffix consisting solely of complete `fileWrite`
events, each local path is written at most once, and if the run fails with
any error other than the flush's own duplicate-first-line guard then no
file write at all was performed (the pending plans are discarded
unapplied). -/
theorem writeback_deferred_and_atomic (env : RemoteEnv) (conv : Str → Str)
    (ans : Str) (oan : Bool) (fss : List FileState)
    (hnd : (fss.map (fun f => f.file_path)).Nodup) :
    ∃ A B, (importCollection env conv ans oan fss).2.trace = A ++ B
      ∧ (∀ e ∈ A, e.isWrite = false)
      ∧ (∀ e ∈ B, e.isWrite = true)
      ∧ ((importCollection env conv ans oan fss).2.trace.filterMap
          eventWritePath).Nodup
      ∧ (∀ err, (importCollection env conv ans oan fss).1 = .error err →
          (∀ p l, err ≠ Err.duplicateFirstLines p l) →
          ∀ e ∈ (importCollection env conv ans oan fss).2.trace,
            e.isWrite = false) := by
  obtain ⟨A, B, htr, hA, hB, hsub, _, herr⟩ :=
    importCollection_trace env conv ans oan fss
  refine ⟨A, B, htr, hA, hB, ?_, ?_⟩
  · rw [htr, List.filterMap_append, writePaths_nil_of_no_writes A hA,
      List.nil_append]
    exact hnd.sublist hsub
  · intro err h1 h2 e he
    have hBnil := herr err h1 h2
    rw [htr, hBnil, List.append_nil] at he
    exact hA e he

theorem writeback_deferred_and_atomic_witness :
    (([⟨"A.md".toList, "A".toList, "x".toList, none, []⟩] :
        List FileState).map (fun f => f.file_path)).Nodup
    ∧ ∃ A B,
      (importCollection
        (⟨.error ("e".toList), fun _ => .error [], fun _ _ => .error [],
          fun _ => .error [], fun _ => .error [], fun _ _ => .error []⟩ :
          RemoteEnv)
        (fun s => s) ("y".toList) false
        [⟨"A.md".toList, "A".toList, "x".toList, none, []⟩]).2.trace = A ++ B
      ∧ (∀ e ∈ A, e.isWrite = false)
      ∧ (∀ e ∈ B, e.isWrite = true)
      ∧ ((importCollection
        (⟨.error ("e".toList), fun _ => .error [], fun _ _ => .error [],
          fun _ => .error [], fun _ => .error [], fun _ _ => .error []⟩ :
          RemoteEnv)
        (fun s => s) ("y".toList) false
        [⟨"A.md".toList, "A".toList, "x".toList, none, []⟩]).2.trace.filterMap
          eventWritePath).Nodup
      ∧ (∀ err, (importCollection
        (⟨.error ("e".toList), fun _ => .error [], fun _ _ => .error [],
          fun _ => .error [], fun _ => .error [], fun _ _ => .error []⟩ :
          RemoteEnv)
        (fun s => s) ("y".toList) false
        [⟨"A.md".toList, "A".toList, "x".toList, none, []⟩]).1 = .error err →
          (∀ p l, err ≠ Err.duplicateFirstLines p l) →
          ∀ e ∈ (importCollection
        (⟨.error ("e".toList), fun _ => .error [], fun _ _ => .error [],
          fun _ => .error [], fun _ => .error [], fun _ _ => .error []⟩ :
          RemoteEnv)
        (fun s => s) ("y".toList) false
        [⟨"A.md".toList, "A".toList, "x".toList, none, []⟩]).2.trace,
            e.isWrite = false) :=
  ⟨by decide,
    writeback_deferred_and_atomic
      (⟨.error ("e".toList), fun _ => .error [], fun _ _ => .error [],
        fun _ => .error [], fun _ => .error [], fun _ _ => .error []⟩ :
        RemoteEnv)
      (fun s => s) ("y".toList) false
      [⟨"A.md".toList, "A".toList, "x".toList, none, []⟩] (by decide)⟩

/-! ## Phase-2 global-id coverage -/

theorem p2Note_global_mono (f : Str) (st : P2Out) (n : Note) (k : Nat)
    (h : k ∈ st.globalIds) : k ∈ (p2Note f st n).globalIds := by
  unfold p2Note
  cases n.note_id with
  | none => exact h
  | some j =>
    dsimp only
    cases alookup st.noteSrc j <;>
      exact (mem_setAdd _ _ _).mpr (Or.inl h)

theorem p2Note_global_self (f : Str) (st : P2Out) (n : Note) (k : Nat)
    (h : n.note_id = some k) : k ∈ (p2Note f st n).globalIds := by
  unfold p2Note
  rw [h]
  dsimp only
  cases alookup st.noteSrc k <;>
    exact (mem_setAdd _ _ _).mpr (Or.inr rfl)

theorem p2Notes_fold_mono (f : Str) (ns : List Note) (k : Nat) :
    ∀ st : P2Out, k ∈ st.globalIds → k ∈ (ns.foldl (p2Note f) st).globalIds := by
  induction ns with
  | nil => exact fun _ h => h
  | cons n t ih =>
    intro st h
    exact ih (p2Note f st n) (p2Note_global_mono f st n k h)

theorem p2Notes_fold_covers (f : Str) (ns : List Note) (n : Note) (k : Nat)
    (hn : n ∈ ns) (hk : n.note_id = some k) :
    ∀ st : P2Out, k ∈ (ns.foldl (p2Note f) st).globalIds := by
  induction ns with
  | nil => cases hn
  | cons m t ih =>
    intro st
    rcases List.mem_cons.mp hn with h | h
    · subst h
      exact p2Notes_fold_mono f t k _ (p2Note_global_self f st n k hk)
    · exact ih h _

theorem p2File_global_mono (st : P2Out) (fs : FileState) (k : Nat)
    (h : k ∈ st.globalIds) : k ∈ (p2File st fs).globalIds := by
  unfold p2File
  apply p2Notes_fold_mono
  cases fs.deck_id with
  | none => exact h
  | some d =>
    dsimp only
    cases alookup st.deckSrc d <;> exact h

theorem p2File_global_covers (st : P2Out) (fs : FileState) (n : Note) (k : Nat)
    (hn : n ∈ fs.parsed_notes) (hk : n.note_id = some k) :
    k ∈ (p2File st fs).globalIds := by
  unfold p2File
  exact p2Notes_fold_covers fs.file_path fs.parsed_notes n k hn hk _

theorem p2Files_fold_mono (l : List FileState) (k : Nat) :
    ∀ st : P2Out, k ∈ st.globalIds → k ∈ (l.foldl p2File st).globalIds := by
  induction l with
  | nil => exact fun _ h => h
  | cons g t ih =>
    intro st h
    exact ih (p2File st g) (p2File_global_mono st g k h)

theorem phase2_global_covers (fss : List FileState) (fs : FileState)
    (n : Note) (k : Nat) (hfs : fs ∈ fss) (hn : n ∈ fs.parsed_notes)
    (hk : n.note_id = some k) : k ∈ (phase2 fss).globalIds := by
  unfold phase2
  have main : ∀ (l : List FileState) (st : P2Out), fs ∈ l →
      k ∈ (l.foldl p2File st).globalIds := by
    intro l
    induction l with
    | nil => intro st h; cases h
    | cons g t ih =>
      intro st h
      rcases List.mem_cons.mp h with h1 | h1
      · subst h1
        exact p2Files_fold_mono t k _ (p2File_global_covers st fs n k hn hk)
      · exact ih _ h1
  exact main fss _ hfs

/-! ## C5: the orphan-deletion set is exact and respects the global id set -/

/-- C5: a `deleteNotes` call newly issued by a file's pass carries exactly
the ids of records currently in the resolved deck that appear neither in
the file's declared id set nor in the run-global id set; and in a
collection run no id declared by any local file is ever contained in any
issued `deleteNotes` call. -/
theorem orphan_delete_set_exact (env : RemoteEnv) (conv : Str → Str)
    (oan : Bool) (g : List Nat) (fs : FileState) (s : St) (ids : List Nat)
    (ans : Str) (fss : List FileState) (jds : List Nat)
    (h1 : Event.remote (RemoteOp.deleteNotes ids) ∈
      (syncFile env conv oan g fs s).2.trace)
    (h2 : Event.remote (RemoteOp.deleteNotes ids) ∉ s.trace)
    (h3 : Event.remote (RemoteOp.deleteNotes jds) ∈
      (importCollection env conv ans oan fss).2.trace) :
    (∀ x, x ∈ ids ↔
        (x ∈ alookupD s.anki.deck_note_ids (resolveName s.anki fs) []
          ∧ x ∉ declaredNoteIds fs ∧ x ∉ g))
    ∧ (∀ fsk ∈ fss, ∀ n ∈ fsk.parsed_notes, ∀ j, n.note_id = some j →
        j ∉ jds) := by
  constructor
  · rcases syncFile_delete_ops env conv oan g fs s ids h1 with h | h
    · exact absurd h h2
    · intro x
      rw [h]
      exact mem_orphanedIds s.anki (resolveName s.anki fs) fs g x
  · intro fsk hfsk n hn j hj hjmem
    have hg : j ∈ (phase2 fss).globalIds :=
      phase2_global_covers fss fsk n j hfsk hn hj
    have hne : (phase2 fss).globalIds ≠ [] := by
      intro he
      rw [he] at hg
      cases hg
    obtain ⟨A, B, _, _, _, _, hdel, _⟩ :=
      importCollection_trace env conv ans oan fss
    exact hdel jds h3 j hjmem hne hg

theorem orphan_delete_set_exact_witness :
    (Event.remote (RemoteOp.deleteNotes [5]) ∈
      (syncFile (⟨.ok ⟨[("D".toList, 1)], [(1, "D".toList)], [], [], [("D".toList, [5])]⟩,
          fun _ => .error [], fun _ _ => .ok (), fun _ => .ok [],
          fun _ => .ok (), fun _ _ => .ok []⟩ : RemoteEnv)
        (fun s => s) false [] (⟨"A.md".toList, "A".toList, "x".toList, some 1, []⟩ : FileState)
        (⟨[], ⟨[("D".toList, 1)], [(1, "D".toList)], [], [], [("D".toList, [5])]⟩⟩ : St)).2.trace)
    ∧ (Event.remote (RemoteOp.deleteNotes [5]) ∉ (⟨[], ⟨[("D".toList, 1)], [(1, "D".toList)], [], [], [("D".toList, [5])]⟩⟩ : St).trace)
    ∧ (Event.remote (RemoteOp.deleteNotes [5]) ∈
      (importCollection (⟨.ok ⟨[("D".toList, 1)], [(1, "D".toList)], [], [], [("D".toList, [5])]⟩,
          fun _ => .error [], fun _ _ => .ok (), fun _ => .ok [],
          fun _ => .ok (), fun _ _ => .ok []⟩ : RemoteEnv)
        (fun s => s) ("y".toList) false [(⟨"A.md".toList, "A".toList, "x".toList, some 1, []⟩ : FileState)]).2.trace)
    ∧ ((∀ x, x ∈ ([5] : List Nat) ↔
          (x ∈ alookupD (⟨[], ⟨[("D".toList, 1)], [(1, "D".toList)], [], [], [("D".toList, [5])]⟩⟩ : St).anki.deck_note_ids
              (resolveName (⟨[], ⟨[("D".toList, 1)], [(1, "D".toList)], [], [], [("D".toList, [5])]⟩⟩ : St).anki (⟨"A.md".toList, "A".toList, "x".toList, some 1, []⟩ : FileState)) []
            ∧ x ∉ declaredNoteIds (⟨"A.md".toList, "A".toList, "x".toList, some 1, []⟩ : FileState) ∧ x ∉ ([] : List Nat)))
      ∧ (∀ fsk ∈ [(⟨"A.md".toList, "A".toList, "x".toList, some 1, []⟩ : FileState)], ∀ n ∈ fsk.parsed_notes, ∀ j, n.note_id = some j →
          j ∉ ([5] : List Nat))) := by
  have he1 : (syncFile (⟨.ok ⟨[("D".toList, 1)], [(1, "D".toList)], [], [], [("D".toList, [5])]⟩,
          fun _ => .error [], fun _ _ => .ok (), fun _ => .ok [],
          fun _ => .ok (), fun _ _ => .ok []⟩ : RemoteEnv)
        (fun s => s) false [] (⟨"A.md".toList, "A".toList, "x".toList, some 1, []⟩ : FileState)
        (⟨[], ⟨[("D".toList, 1)], [(1, "D".toList)], [], [], [("D".toList, [5])]⟩⟩ : St)).2.trace = [Event.remote (RemoteOp.deleteNotes [5])] := by decide
  have he3 : (importCollection (⟨.ok ⟨[("D".toList, 1)], [(1, "D".toList)], [], [], [("D".toList, [5])]⟩,
          fun _ => .error [], fun _ _ => .ok (), fun _ => .ok [],
          fun _ => .ok (), fun _ _ => .ok []⟩ : RemoteEnv)
        (fun s => s) ("y".toList) false [(⟨"A.md".toList, "A".toList, "x".toList, some 1, []⟩ : FileState)]).2.trace = [Event.fetchState, Event.remote (RemoteOp.deleteNotes [5])] := by decide
  have h1 : Event.remote (RemoteOp.deleteNotes [5]) ∈
      (syncFile (⟨.ok ⟨[("D".toList, 1)], [(1, "D".toList)], [], [], [("D".toList, [5])]⟩,
          fun _ => .error [], fun _ _ => .ok (), fun _ => .ok [],
          fun _ => .ok (), fun _ _ => .ok []⟩ : RemoteEnv)
        (fun s => s) false [] (⟨"A.md".toList, "A".toList, "x".toList, some 1, []⟩ : FileState)
        (⟨[], ⟨[("D".toList, 1)], [(1, "D".toList)], [], [], [("D".toList, [5])]⟩⟩ : St)).2.trace := by
    rw [he1]
    exact List.mem_singleton.mpr rfl
  have h2 : Event.remote (RemoteOp.deleteNotes [5]) ∉ (⟨[], ⟨[("D".toList, 1)], [(1, "D".toList)], [], [], [("D".toList, [5])]⟩⟩ : St).trace := by decide
  have h3 : Event.remote (RemoteOp.deleteNotes [5]) ∈
      (importCollection (⟨.ok ⟨[("D".toList, 1)], [(1, "D".toList)], [], [], [("D".toList, [5])]⟩,
          fun _ => .error [], fun _ _ => .ok (), fun _ => .ok [],
          fun _ => .ok (), fun _ _ => .ok []⟩ : RemoteEnv)
        (fun s => s) ("y".toList) false [(⟨"A.md".toList, "A".toList, "x".toList, some 1, []⟩ : FileState)]).2.trace := by
    rw [he3]
    exact List.mem_cons.mpr (Or.inr (List.mem_singleton.mpr rfl))
  exact ⟨h1, h2, h3,
    orphan_delete_set_exact (⟨.ok ⟨[("D".toList, 1)], [(1, "D".toList)], [], [], [("D".toList, [5])]⟩,
          fun _ => .error [], fun _ _ => .ok (), fun _ => .ok [],
          fun _ => .ok (), fun _ _ => .ok []⟩ : RemoteEnv)
      (fun s => s) false [] (⟨"A.md".toList, "A".toList, "x".toList, some 1, []⟩ : FileState)
      (⟨[], ⟨[("D".toList, 1)], [(1, "D".toList)], [], [], [("D".toList, [5])]⟩⟩ : St) [5] ("y".toList) [(⟨"A.md".toList, "A".toList, "x".toList, some 1, []⟩ : FileState)] [5] h1 h2 h3⟩

/-! ## Phase-2 collision detection -/

theorem alookup_isSome_append {α β : Type} [DecidableEq α]
    (l1 l2 : List (α × β)) (k : α) (h : (alookup l1 k).isSome) :
    (alookup (l1 ++ l2) k).isSome := by
  rw [alookup_append]
  rcases hl : alookup l1 k with _ | v
  · rw [hl] at h
    simp at h
  · simp

theorem p2Note_coll_mono (f : Str) (st : P2Out) (n : Note)
    (h : st.collisions ≠ []) : (p2Note f st n).collisions ≠ [] := by
  unfold p2Note
  cases n.note_id with
  | none => exact h
  | some k =>
    dsimp only
    cases alookup st.noteSrc k with
    | some src => simp
    | none => exact h

theorem p2Note_noteSrc_isSome_mono (f : Str) (st : P2Out) (n : Note) (k : Nat)
    (h : (alookup st.noteSrc k).isSome) :
    (alookup (p2Note f st n).noteSrc k).isSome := by
  unfold p2Note
  cases n.note_id with
  | none => exact h
  | some j =>
    dsimp only
    cases alookup st.noteSrc j with
    | some src => exact h
    | none => exact alookup_isSome_append _ _ _ h

theorem p2Note_covers (f : Str) (st : P2Out) (n : Note) (k : Nat)
    (h : n.note_id = some k) :
    (alookup (p2Note f st n).noteSrc k).isSome ∨ (p2Note f st n).collisions ≠ [] := by
  unfold p2Note
  rw [h]
  dsimp only
  cases hl : alookup st.noteSrc k with
  | some src =>
    right
    simp
  | none =>
    left
    rw [alookup_append, hl]
    simp [alookup]

theorem p2Note_coll_hit (f : Str) (st : P2Out) (n : Note) (k : Nat)
    (hs : (alookup st.noteSrc k).isSome) (h : n.note_id = some k) :
    (p2Note f st n).collisions ≠ [] := by
  unfold p2Note
  rw [h]
  dsimp only
  cases hl : alookup st.noteSrc k with
  | some src => simp
  | none =>
    rw [hl] at hs
    simp at hs

theorem p2Note_deckSrc_eq (f : Str) (st : P2Out) (n : Note) :
    (p2Note f st n).deckSrc = st.deckSrc := by
  unfold p2Note
  cases n.note_id with
  | none => rfl
  | some k =>
    dsimp only
    cases alookup st.noteSrc k <;> rfl

theorem p2NotesF_coll_mono (f : Str) (ns : List Note) :
    ∀ st : P2Out, st.collisions ≠ [] →
      (ns.foldl (p2Note f) st).collisions ≠ [] := by
  induction ns with
  | nil => exact fun _ h => h
  | cons n t ih => exact fun st h => ih _ (p2Note_coll_mono f st n h)

theorem p2NotesF_isSome_mono (f : Str) (ns : List Note) (k : Nat) :
    ∀ st : P2Out, (alookup st.noteSrc k).isSome →
      (alookup (ns.foldl (p2Note f) st).noteSrc k).isSome := by
  induction ns with
  | nil => exact fun _ h => h
  | cons n t ih => exact fun st h => ih _ (p2Note_noteSrc_isSome_mono f st n k h)

theorem p2NotesF_covers (f : Str) (ns : List Note) (n : Note) (k : Nat)
    (hn : n ∈ ns) (hk : n.note_id = some k) :
    ∀ st : P2Out, (alookup (ns.foldl (p2Note f) st).noteSrc k).isSome ∨
      (ns.foldl (p2Note f) st).collisions ≠ [] := by
  induction ns with
  | nil => cases hn
  | cons m t ih =>
    intro st
    rcases List.mem_cons.mp hn with h | h
    · subst h
      rcases p2Note_covers f st n k hk with h1 | h1
      · exact Or.inl (p2NotesF_isSome_mono f t k _ h1)
      · exact Or.inr (p2NotesF_coll_mono f t _ h1)
    · exact ih h _

theorem p2NotesF_coll_hit (f : Str) (ns : List Note) (n : Note) (k : Nat)
    (hn : n ∈ ns) (hk : n.note_id = some k) :
    ∀ st : P2Out, (alookup st.noteSrc k).isSome →
      (ns.foldl (p2Note f) st).collisions ≠ [] := by
  induction ns with
  | nil => cases hn
  | cons m t ih =>
    intro st hs
    rcases List.mem_cons.mp hn with h | h
    · subst h
      exact p2NotesF_coll_mono f t _ (p2Note_coll_hit f st n k hs hk)
    · exact ih h _ (p2Note_noteSrc_isSome_mono f st m k hs)

theorem p2NotesF_deckSrc_eq (f : Str) (ns : List Note) :
    ∀ st : P2Out, (ns.foldl (p2Note f) st).deckSrc = st.deckSrc := by
  induction ns with
  | nil => exact fun _ => rfl
  | cons n t ih =>
    intro st
    rw [List.foldl_cons, ih, p2Note_deckSrc_eq]

theorem p2File_coll_mono (st : P2Out) (fs : FileState)
    (h : st.collisions ≠ []) : (p2File st fs).collisions ≠ [] := by
  unfold p2File
  apply p2NotesF_coll_mono
  cases fs.deck_id with
  | none => exact h
  | some d =>
    dsimp only
    cases alookup st.deckSrc d with
    | some src => simp
    | none => exact h

theorem p2File_noteSrc_isSome_mono (st : P2Out) (fs : FileState) (k : Nat)
    (h : (alookup st.noteSrc k).isSome) :
    (alookup (p2File st fs).noteSrc k).isSome := by
  unfold p2File
  apply p2NotesF_isSome_mono
  cases fs.deck_id with
  | none => exact h
  | some d =>
    dsimp only
    cases alookup st.deckSrc d <;> exact h

theorem p2File_note_covers (st : P2Out) (fs : FileState) (n : Note) (k : Nat)
    (hn : n ∈ fs.parsed_notes) (hk : n.note_id = some k) :
    (alookup (p2File st fs).noteSrc k).isSome ∨ (p2File st fs).collisions ≠ [] := by
  unfold p2File
  exact p2NotesF_covers fs.file_path fs.parsed_notes n k hn hk _

theorem p2File_note_coll_hit (st : P2Out) (fs : FileState) (n : Note) (k : Nat)
    (hn : n ∈ fs.parsed_notes) (hk : n.note_id = some k)
    (hs : (alookup st.noteSrc k).isSome) : (p2File st fs).collisions ≠ [] := by
  unfold p2File
  apply p2NotesF_coll_hit fs.file_path fs.parsed_notes n k hn hk
  cases fs.deck_id with
  | none => exact hs
  | some d =>
    dsimp only
    cases alookup st.deckSrc d <;> exact hs

theorem p2File_deck_covers (st : P2Out) (fs : FileState) (d : Nat)
    (h : fs.deck_id = some d) :
    (alookup (p2File st fs).deckSrc d).isSome ∨ (p2File st fs).collisions ≠ [] := by
  unfold p2File
  rw [h, p2NotesF_deckSrc_eq]
  dsimp only
  cases hl : alookup st.deckSrc d with
  | some src =>
    right
    apply p2NotesF_coll_mono
    simp
  | none =>
    left
    rw [alookup_append, hl]
    simp [alookup]

theorem p2File_deckSrc_isSome_mono (st : P2Out) (fs : FileState) (d : Nat)
    (h : (alookup st.deckSrc d).isSome) :
    (alookup (p2File st fs).deckSrc d).isSome := by
  unfold p2File
  rw [p2NotesF_deckSrc_eq]
  cases fs.deck_id with
  | none => exact h
  | some d2 =>
    dsimp only
    cases alookup st.deckSrc d2 with
    | some src => exact h
    | none => exact alookup_isSome_append _ _ _ h

theorem p2File_deck_coll_hit (st : P2Out) (fs : FileState) (d : Nat)
    (hs : (alookup st.deckSrc d).isSome) (h : fs.deck_id = some d) :
    (p2File st fs).collisions ≠ [] := by
  unfold p2File
  apply p2NotesF_coll_mono
  rw [h]
  dsimp only
  cases hl : alookup st.deckSrc d with
  | some src => simp
  | none =>
    rw [hl] at hs
    simp at hs

theorem p2FilesF_coll_mono (l : List FileState) :
    ∀ st : P2Out, st.collisions ≠ [] → (l.foldl p2File st).collisions ≠ [] := by
  induction l with
  | nil => exact fun _ h => h
  | cons g t ih => exact fun st h => ih _ (p2File_coll_mono st g h)

theorem p2FilesF_noteSrc_isSome_mono (l : List FileState) (k : Nat) :
    ∀ st : P2Out, (alookup st.noteSrc k).isSome →
      (alookup (l.foldl p2File st).noteSrc k).isSome := by
  induction l with
  | nil => exact fun _ h => h
  | cons g t ih => exact fun st h => ih _ (p2File_noteSrc_isSome_mono st g k h)

theorem p2FilesF_deckSrc_isSome_mono (l : List FileState) (d : Nat) :
    ∀ st : P2Out, (alookup st.deckSrc d).isSome →
      (alookup (l.foldl p2File st).deckSrc d).isSome := by
  induction l with
  | nil => exact fun _ h => h
  | cons g t ih => exact fun st h => ih _ (p2File_deckSrc_isSome_mono st g d h)

theorem phase2_collisions_ne (l1 l2 l3 : List FileState)
    (fsi fsj : FileState) (k : Nat)
    (h : ((∃ ni ∈ fsi.parsed_notes, ni.note_id = some k)
           ∧ (∃ nj ∈ fsj.parsed_notes, nj.note_id = some k))
         ∨ (fsi.deck_id = some k ∧ fsj.deck_id = some k)) :
    (phase2 (l1 ++ fsi :: (l2 ++ fsj :: l3))).collisions ≠ [] := by
  unfold phase2
  rw [List.foldl_append, List.foldl_cons, List.foldl_append, List.foldl_cons]
  rcases h with ⟨⟨ni, hni, hki⟩, ⟨nj, hnj, hkj⟩⟩ | ⟨hdi, hdj⟩
  · rcases p2File_note_covers (l1.foldl p2File ⟨[], [], [], [], [], []⟩) fsi ni k
        hni hki with h1 | h1
    · exact p2FilesF_coll_mono l3 _
        (p2File_note_coll_hit _ fsj nj k hnj hkj
          (p2FilesF_noteSrc_isSome_mono l2 k _ h1))
    · exact p2FilesF_coll_mono l3 _
        (p2File_coll_mono _ fsj (p2FilesF_coll_mono l2 _ h1))
  · rcases p2File_deck_covers (l1.foldl p2File ⟨[], [], [], [], [], []⟩) fsi k
        hdi with h1 | h1
    · exact p2FilesF_coll_mono l3 _
        (p2File_deck_coll_hit _ fsj k
          (p2FilesF_deckSrc_isSome_mono l2 k _ h1) hdj)
    · exact p2FilesF_coll_mono l3 _
        (p2File_coll_mono _ fsj (p2FilesF_coll_mono l2 _ h1))

/-! ## C1: cross-file duplicate identifiers abort with zero remote calls -/

/-- C1: if two distinct files of a collection run declare the same record
(note) identifier, or the same container (deck) identifier, the run
returns the duplicate-identifier error carrying a non-empty collision list
and its trace is empty: no remote call of any kind (not even the state
fetch) was issued, so zero remote mutations were performed. -/
theorem duplicate_ids_abort_zero_calls (env : RemoteEnv) (conv : Str → Str)
    (ans : Str) (oan : Bool) (l1 l2 l3 : List FileState)
    (fsi fsj : FileState) (k : Nat)
    (h : ((∃ ni ∈ fsi.parsed_notes, ni.note_id = some k)
           ∧ (∃ nj ∈ fsj.parsed_notes, nj.note_id = some k))
         ∨ (fsi.deck_id = some k ∧ fsj.deck_id = some k)) :
    (∃ cs ds, cs ≠ [] ∧
      importCollection env conv ans oan (l1 ++ fsi :: (l2 ++ fsj :: l3)) =
        (.error (Err.duplicateIds cs ds), ⟨[], emptyAnki⟩))
    ∧ (importCollection env conv ans oan
        (l1 ++ fsi :: (l2 ++ fsj :: l3))).2.trace = [] := by
  have hcoll := phase2_collisions_ne l1 l2 l3 fsi fsj k h
  have hres : importCollection env conv ans oan (l1 ++ fsi :: (l2 ++ fsj :: l3)) =
      (.error (Err.duplicateIds
        (phase2 (l1 ++ fsi :: (l2 ++ fsj :: l3))).collisions
        (phase2 (l1 ++ fsi :: (l2 ++ fsj :: l3))).dupIds), ⟨[], emptyAnki⟩) := by
    unfold importCollection
    dsimp only
    rw [if_neg (by simpa [List.isEmpty_iff] using hcoll)]
  exact ⟨⟨_, _, hcoll, hres⟩, by rw [hres]⟩

theorem duplicate_ids_abort_zero_calls_witness :
    (((∃ ni ∈ ([⟨some 7, "AnkiOpsQA".toList,
          [("Question".toList, "q".toList), ("Answer".toList, "a".toList)]⟩] :
          List Note), ni.note_id = some 7)
       ∧ (∃ nj ∈ ([⟨some 7, "AnkiOpsQA".toList,
          [("Question".toList, "q".toList), ("Answer".toList, "b".toList)]⟩] :
          List Note), nj.note_id = some 7))
      ∨ ((⟨"A.md".toList, "A".toList, "x".toList, none,
            [⟨some 7, "AnkiOpsQA".toList,
              [("Question".toList, "q".toList), ("Answer".toList, "a".toList)]⟩]⟩ :
            FileState).deck_id = some 7
         ∧ (⟨"B.md".toList, "B".toList, "y".toList, none,
            [⟨some 7, "AnkiOpsQA".toList,
              [("Question".toList, "q".toList), ("Answer".toList, "b".toList)]⟩]⟩ :
            FileState).deck_id = some 7))
    ∧ ((∃ cs ds, cs ≠ [] ∧
        importCollection
          (⟨.error ("e".toList), fun _ => .error [], fun _ _ => .error [],
            fun _ => .error [], fun _ => .error [], fun _ _ => .error []⟩ :
            RemoteEnv)
          (fun s => s) ("y".toList) false
          ([] ++ (⟨"A.md".toList, "A".toList, "x".toList, none,
            [⟨some 7, "AnkiOpsQA".toList,
              [("Question".toList, "q".toList), ("Answer".toList, "a".toList)]⟩]⟩ :
            FileState) :: ([] ++ (⟨"B.md".toList, "B".toList, "y".toList, none,
            [⟨some 7, "AnkiOpsQA".toList,
              [("Question".toList, "q".toList), ("Answer".toList, "b".toList)]⟩]⟩ :
            FileState) :: [])) =
          (.error (Err.duplicateIds cs ds), ⟨[], emptyAnki⟩))
      ∧ (importCollection
          (⟨.error ("e".toList), fun _ => .error [], fun _ _ => .error [],
            fun _ => .error [], fun _ => .error [], fun _ _ => .error []⟩ :
            RemoteEnv)
          (fun s => s) ("y".toList) false
          ([] ++ (⟨"A.md".toList, "A".toList, "x".toList, none,
            [⟨some 7, "AnkiOpsQA".toList,
              [("Question".toList, "q".toList), ("Answer".toList, "a".toList)]⟩]⟩ :
            FileState) :: ([] ++ (⟨"B.md".toList, "B".toList, "y".toList, none,
            [⟨some 7, "AnkiOpsQA".toList,
              [("Question".toList, "q".toList), ("Answer".toList, "b".toList)]⟩]⟩ :
            FileState) :: []))).2.trace = []) :=
  ⟨Or.inl ⟨⟨_, List.mem_singleton.mpr rfl, rfl⟩, ⟨_, List.mem_singleton.mpr rfl, rfl⟩⟩,
    duplicate_ids_abort_zero_calls
      (⟨.error ("e".toList), fun _ => .error [], fun _ _ => .error [],
        fun _ => .error [], fun _ => .error [], fun _ _ => .error []⟩ :
        RemoteEnv)
      (fun s => s) ("y".toList) false [] [] []
      (⟨"A.md".toList, "A".toList, "x".toList, none,
        [⟨some 7, "AnkiOpsQA".toList,
          [("Question".toList, "q".toList), ("Answer".toList, "a".toList)]⟩]⟩ :
        FileState)
      (⟨"B.md".toList, "B".toList, "y".toList, none,
        [⟨some 7, "AnkiOpsQA".toList,
          [("Question".toList, "q".toList), ("Answer".toList, "b".toList)]⟩]⟩ :
        FileState) 7
      (Or.inl ⟨⟨_, List.mem_singleton.mpr rfl, rfl⟩,
        ⟨_, List.mem_singleton.mpr rfl, rfl⟩⟩)⟩

/-! ## C10: leading non-field lines of a block are discarded -/

theorem parseLine_junk (line : Str) (st : PState)
    (hf : (isPfxOf ("```".toList) (lstripStr line) ||
           isPfxOf ("~~~".toList) (lstripStr line)) = false)
    (hid : matchIdTag ("note_id:".toList) line = none)
    (hpfx : scanPfx allPfxToField line = none)
    (hcur : st.currentField = none)
    (hcode : st.inCode = false) :
    parseLine line st = .ok st := by
  unfold parseLine
  rw [if_neg (by simp_all)]
  rw [hid]
  dsimp only
  rw [if_neg (by simp [hcode])]
  rw [hpfx]
  dsimp only
  have hcc : (if st.currentField.isSome = true then st.currentContent ++ [line]
      else st.currentContent) = st.currentContent := by
    rw [hcur]
    rfl
  rw [hcc]

theorem leading_junk_step (junk : Str) (ls : List Str) (st : PState)
    (hf : (isPfxOf ("```".toList) (lstripStr junk) ||
           isPfxOf ("~~~".toList) (lstripStr junk)) = false)
    (hid : matchIdTag ("note_id:".toList) junk = none)
    (hpfx : scanPfx allPfxToField junk = none)
    (hcur : st.currentField = none)
    (hcode : st.inCode = false) :
    parseLinesM (junk :: ls) st = parseLinesM ls st := by
  conv_lhs => rw [parseLinesM]
  rw [parseLine_junk junk st hf hid hpfx hcur hcode]

/-- C10: a leading line of a block that starts no field (it is not a code
fence, not an id marker, and matches no field prefix) is silently
discarded: parsing the block with the extra leading line yields exactly
the same result as parsing the block without it, so no field of the
parsed note retains that line and any later write-back of the file loses
its content. -/
theorem leading_junk_line_discarded (junk rest : Str)
    (h1 : '\n' ∉ junk)
    (h2 : (isPfxOf ("```".toList) (lstripStr junk) ||
           isPfxOf ("~~~".toList) (lstripStr junk)) = false)
    (h3 : matchIdTag ("note_id:".toList) junk = none)
    (h4 : scanPfx allPfxToField junk = none)
    (h5 : lstripStr junk = junk) (hj : junk ≠ [])
    (h6 : stripStr rest = rest) (hr : rest ≠ []) :
    fromBlock (junk ++ '\n' :: rest) = fromBlock rest := by
  obtain ⟨c, jt, hcj⟩ : ∃ c jt, junk = c :: jt := by
    cases junk with
    | nil => exact absurd rfl hj
    | cons c jt => exact ⟨c, jt, rfl⟩
  have hhead : isWs c = false := lstrip_head_not_ws c jt (hcj ▸ h5)
  obtain ⟨d, hd⟩ : ∃ d, rest.getLast? = some d := by
    cases hg : rest.getLast? with
    | none => exact absurd (List.getLast?_eq_none_iff.mp hg) hr
    | some d => exact ⟨d, rfl⟩
  have hlast : isWs d = false := strip_self_last rest d h6 hd
  have hstrip : stripStr (junk ++ '\n' :: rest) = junk ++ '\n' :: rest := by
    rw [hcj]
    rw [show (c :: jt) ++ '\n' :: rest = c :: (jt ++ '\n' :: rest) from rfl]
    refine stripStr_eq_self c (jt ++ '\n' :: rest) d hhead ?_ hlast
    rw [show c :: (jt ++ '\n' :: rest) = ((c :: jt) ++ ['\n']) ++ rest from by simp]
    rw [List.getLast?_append_of_ne_nil _ hr]
    exact hd
  have hsplit : splitLines (junk ++ '\n' :: rest) = junk :: splitLines rest :=
    splitOnChar_append_cons '\n' junk rest h1
  unfold fromBlock
  dsimp only
  rw [hstrip, h6]
  rw [show splitLines (junk ++ '\n' :: rest) = junk :: splitLines rest from hsplit]
  rw [leading_junk_step junk (splitLines rest) _ h2 h3 h4 rfl rfl]

theorem leading_junk_line_discarded_witness :
    ('\n' ∉ "hello".toList
      ∧ (isPfxOf ("```".toList) (lstripStr ("hello".toList)) ||
         isPfxOf ("~~~".toList) (lstripStr ("hello".toList))) = false
      ∧ matchIdTag ("note_id:".toList) ("hello".toList) = none
      ∧ scanPfx allPfxToField ("hello".toList) = none
      ∧ lstripStr ("hello".toList) = "hello".toList
      ∧ "hello".toList ≠ []
      ∧ stripStr ("Q: q\nA: a".toList) = "Q: q\nA: a".toList
      ∧ "Q: q\nA: a".toList ≠ [])
    ∧ fromBlock ("hello".toList ++ '\n' :: "Q: q\nA: a".toList) =
        fromBlock ("Q: q\nA: a".toList) :=
  ⟨⟨by decide, by decide, by decide, by decide, by decide, by decide, by decide,
     by decide⟩,
   leading_junk_line_discarded ("hello".toList) ("Q: q\nA: a".toList)
     (by decide) (by decide) (by decide) (by decide) (by decide) (by decide)
     (by decide) (by decide)⟩

/-! ## C8: the format / parse round trip -/

theorem allPfxToField_eq : allPfxToField =
    [("Q:".toList, "Question".toList), ("A:".toList, "Answer".toList),
     ("E:".toList, "Extra".toList), ("M:".toList, "More".toList),
     ("S:".toList, "Source".toList), ("AI:".toList, "AI Notes".toList),
     ("F:".toList, "Front".toList), ("B:".toList, "Back".toList),
     ("T:".toList, "Text".toList), ("I:".toList, "Input".toList),
     ("C1:".toList, "Choice 1".toList), ("C2:".toList, "Choice 2".toList),
     ("C3:".toList, "Choice 3".toList), ("C4:".toList, "Choice 4".toList),
     ("C5:".toList, "Choice 5".toList), ("C6:".toList, "Choice 6".toList),
     ("C7:".toList, "Choice 7".toList), ("C8:".toList, "Choice 8".toList)] := by
  rfl

theorem pfxLine_facts (p f : Str) (h : (p, f) ∈ allPfxToField) (v : Str) :
    (isPfxOf ("```".toList) (lstripStr (p ++ ' ' :: v)) ||
     isPfxOf ("~~~".toList) (lstripStr (p ++ ' ' :: v))) = false
    ∧ matchIdTag ("note_id:".toList) (p ++ ' ' :: v) = none
    ∧ scanPfx allPfxToField (p ++ ' ' :: v) = some (p, f) := by
  rw [allPfxToField_eq] at h
  simp only [List.mem_cons, List.not_mem_nil, or_false] at h
  rcases h with h|h|h|h|h|h|h|h|h|h|h|h|h|h|h|h|h|h <;>
    (simp only [Prod.mk.injEq] at h
     obtain ⟨rfl, rfl⟩ := h
     refine ⟨by simp [lstripStr, isPfxOf, isWs],
       matchIdTag_none_of_head _ _ _ (by decide),
       by rw [allPfxToField_eq]; simp [scanPfx, isPfxOf]⟩)

theorem splitLines_joinLines (ls : List Str) (l : Str)
    (h : ∀ x ∈ l :: ls, '\n' ∉ x) :
    splitLines (joinLines (l :: ls)) = l :: ls := by
  induction ls generalizing l with
  | nil =>
    show splitOnChar '\n' (joinLines [l]) = [l]
    exact splitOnChar_of_not_mem '\n' l (h l (List.mem_cons_self l []))
  | cons l2 ls2 ih =>
    rw [joinLines_cons l (l2 :: ls2) (by simp)]
    show splitOnChar '\n' (l ++ '\n' :: joinLines (l2 :: ls2)) = l :: l2 :: ls2
    rw [splitOnChar_append_cons '\n' l _ (h l (List.mem_cons_self l _))]
    rw [show splitOnChar '\n' (joinLines (l2 :: ls2)) =
        splitLines (joinLines (l2 :: ls2)) from rfl]
    rw [ih l2 (fun x hx => h x (List.mem_cons_of_mem _ hx))]

theorem getLast?_joinLines (ls : List Str) (l ll : Str) (d : Char)
    (hl : (l :: ls).getLast? = some ll) (hd : ll.getLast? = some d) :
    (joinLines (l :: ls)).getLast? = some d := by
  induction ls generalizing l with
  | nil =>
    simp only [List.getLast?_singleton, Option.some.injEq] at hl
    subst hl
    exact hd
  | cons l2 ls2 ih =>
    rw [joinLines_cons l (l2 :: ls2) (by simp)]
    have hj := ih l2 (by rw [← hl, List.getLast?_cons_cons])
    have hne : joinLines (l2 :: ls2) ≠ [] := by
      intro he
      rw [he] at hj
      simp at hj
    rw [show (l ++ '\n' :: joinLines (l2 :: ls2) : Str) =
        l ++ ['\n'] ++ joinLines (l2 :: ls2) from by simp]
    rw [List.getLast?_append_of_ne_nil _ hne]
    exact hj

theorem newline_not_mem_marker (n : Nat) :
    '\n' ∉ ("<!-- note_id: ".toList ++ renderNat n ++ " -->".toList : Str) := by
  intro h
  rcases List.mem_append.mp h with h | h
  · rcases List.mem_append.mp h with h | h
    · simp at h
    · exact absurd rfl (isDigitC_ne _ (renderNat_all_digits n _ h)).1
  · simp at h

theorem parseLine_marker (n : Nat) (st : PState) :
    parseLine ("<!-- note_id: ".toList ++ renderNat n ++ " -->".toList) st =
      .ok { st with note_id := some n } := by
  unfold parseLine
  rw [show ("<!-- note_id: ".toList ++ renderNat n ++ " -->".toList : Str) =
      '<' :: ("!-- note_id: ".toList ++ renderNat n ++ " -->".toList) from rfl]
  rw [lstrip_eq_self '<' _ (by decide)]
  rw [if_neg (by simp [isPfxOf])]
  rw [show ('<' :: ("!-- note_id: ".toList ++ renderNat n ++ " -->".toList) : Str) =
      "<!-- note_id: ".toList ++ renderNat n ++ " -->".toList from rfl]
  rw [matchIdTag_noteIdMarker n]

theorem parseLine_prefix_line (p f v : Str) (st : PState)
    (hpf : (p, f) ∈ allPfxToField)
    (hcode : st.inCode = false)
    (hseen : f ∉ st.seen) :
    parseLine (p ++ ' ' :: v) st =
      .ok { st with
            seen := st.seen ++ [f],
            fields := flushCur st,
            currentField := some f,
            currentContent := [v] } := by
  obtain ⟨hfence, hid, hscan⟩ := pfxLine_facts p f hpf v
  unfold parseLine
  rw [if_neg (by rw [hfence]; simp)]
  rw [hid]
  dsimp only
  rw [if_neg (by simp [hcode])]
  rw [hscan]
  dsimp only
  rw [if_neg hseen]
  have hpfx : isPfxOf (p ++ [' ']) (p ++ ' ' :: v) = true := by
    rw [show (p ++ ' ' :: v : Str) = (p ++ [' ']) ++ v from by simp]
    exact isPfxOf_append_self _ _
  rw [if_pos hpfx]
  have hdrop : (p ++ ' ' :: v).drop (p.length + 1) = v := by
    rw [show (p ++ ' ' :: v : Str) = (p ++ [' ']) ++ v from by simp,
      show p.length + 1 = (p ++ [' ']).length from by simp]
    exact List.drop_left _ _
  rw [hdrop]

theorem mappingLine_id (fields : List (Str × Str)) (m : Str × Str × Bool)
    (hvals : ∀ kv ∈ fields, kv.2 ≠ []) :
    mappingLine (fun s => s) fields m =
      (alookup fields m.1).map (fun v => m.2.1 ++ ' ' :: v) := by
  unfold mappingLine alookupD
  cases ha : alookup fields m.1 with
  | none => rfl
  | some v =>
    have hv : v ≠ [] := hvals (m.1, v) (alookup_mem _ _ _ ha)
    dsimp only
    rw [if_neg (by simpa [List.isEmpty_iff] using hv)]
    rw [if_pos (by simp [List.isEmpty_iff, hv])]
    rfl

theorem parseBody (fields : List (Str × Str))
    (hvals : ∀ kv ∈ fields, kv.2 ≠ [] ∧ stripStr kv.2 = kv.2) :
    ∀ (ms : List (Str × Str × Bool)) (st : PState),
      (∀ m ∈ ms, (m.2.1, m.1) ∈ allPfxToField) →
      (fieldNames ms).Nodup →
      st.inCode = false →
      (∀ m ∈ ms, m.1 ∉ st.seen) →
      ∃ stF, parseLinesM (ms.filterMap (mappingLine (fun s => s) fields)) st =
          .ok stF
        ∧ flushCur stF = flushCur st ++
            ms.filterMap (fun m => (alookup fields m.1).map (fun v => (m.1, v)))
        ∧ stF.note_id = st.note_id := by
  intro ms
  induction ms with
  | nil =>
    intro st _ _ _ _
    exact ⟨st, rfl, by simp, rfl⟩
  | cons m rest ih =>
    intro st hpfx hnodup hcode hseen
    have hml := mappingLine_id fields m (fun kv hkv => (hvals kv hkv).1)
    have hnodup' : (fieldNames rest).Nodup ∧ m.1 ∉ fieldNames rest := by
      have := hnodup
      simp only [fieldNames, List.map_cons, List.nodup_cons] at this
      exact ⟨this.2, this.1⟩
    cases ha : alookup fields m.1 with
    | none =>
      have hnone : mappingLine (fun s => s) fields m = none := by
        rw [hml, ha]
        rfl
      rw [List.filterMap_cons_none hnone]
      obtain ⟨stF, hp, hfl, hid⟩ := ih st
        (fun x hx => hpfx x (List.mem_cons_of_mem _ hx))
        hnodup'.1 hcode (fun x hx => hseen x (List.mem_cons_of_mem _ hx))
      refine ⟨stF, hp, ?_, hid⟩
      rw [hfl]
      rw [show List.filterMap (fun m => Option.map (fun v => (m.1, v))
          (alookup fields m.1)) (m :: rest) =
          List.filterMap (fun m => Option.map (fun v => (m.1, v))
          (alookup fields m.1)) rest from
        List.filterMap_cons_none (by rw [ha]; rfl)]
    | some v =>
      have hv := hvals (m.1, v) (alookup_mem _ _ _ ha)
      have hsome : mappingLine (fun s => s) fields m = some (m.2.1 ++ ' ' :: v) := by
        rw [hml, ha]
        rfl
      rw [List.filterMap_cons_some hsome]
      have hstep := parseLine_prefix_line m.2.1 m.1 v st
        (hpfx m (List.mem_cons_self m rest)) hcode
        (hseen m (List.mem_cons_self m rest))
      have hseen1 : ∀ x ∈ rest, x.1 ∉
          ({ st with
             seen := st.seen ++ [m.1],
             fields := flushCur st,
             currentField := some m.1,
             currentContent := [v] } : PState).seen := by
        intro x hx
        dsimp only
        rw [List.mem_append]
        rintro (h1 | h1)
        · exact hseen x (List.mem_cons_of_mem _ hx) h1
        · simp only [List.mem_singleton] at h1
          exact hnodup'.2 (h1 ▸ List.mem_map_of_mem (fun e => e.1) hx)
      obtain ⟨stF, hp, hfl, hid⟩ := ih
        { st with
          seen := st.seen ++ [m.1],
          fields := flushCur st,
          currentField := some m.1,
          currentContent := [v] }
        (fun x hx => hpfx x (List.mem_cons_of_mem _ hx))
        hnodup'.1 (by dsimp only; exact hcode) hseen1
      refine ⟨stF, ?_, ?_, ?_⟩
      · rw [show parseLinesM ((m.2.1 ++ ' ' :: v) ::
            rest.filterMap (mappingLine (fun s => s) fields)) st =
            match parseLine (m.2.1 ++ ' ' :: v) st with
            | .error e => .error e
            | .ok st' =>
              parseLinesM (rest.filterMap (mappingLine (fun s => s) fields)) st'
            from rfl]
        rw [hstep]
        exact hp
      · rw [hfl]
        have hfc : flushCur
            { st with
              seen := st.seen ++ [m.1],
              fields := flushCur st,
              currentField := some m.1,
              currentContent := [v] } = flushCur st ++ [(m.1, v)] := by
          show flushCur st ++ [(m.1, stripStr (joinLines [v]))] =
            flushCur st ++ [(m.1, v)]
          rw [show joinLines [v] = v from rfl, hv.2]
        rw [hfc]
        rw [show List.filterMap (fun m => Option.map (fun v => (m.1, v))
            (alookup fields m.1)) (m :: rest) =
            (m.1, v) :: List.filterMap (fun m => Option.map (fun v => (m.1, v))
            (alookup fields m.1)) rest from
          List.filterMap_cons_some (by rw [ha]; rfl)]
        rw [List.append_assoc]
        rfl
      · rw [hid]

theorem alookup_entries (fields : List (Str × Str)) (k : Str) :
    ∀ ms : List (Str × Str × Bool), (fieldNames ms).Nodup →
    alookup (ms.filterMap (fun m => (alookup fields m.1).map (fun v => (m.1, v)))) k =
      if k ∈ fieldNames ms then alookup fields k else none := by
  intro ms
  induction ms with
  | nil =>
    intro _
    simp [fieldNames, alookup]
  | cons m rest ih =>
    intro hnodup
    have hnd : (fieldNames rest).Nodup ∧ m.1 ∉ fieldNames rest := by
      simp only [fieldNames, List.map_cons, List.nodup_cons] at hnodup
      exact ⟨hnodup.2, hnodup.1⟩
    cases ha : alookup fields m.1 with
    | none =>
      rw [show List.filterMap (fun m => Option.map (fun v => (m.1, v))
          (alookup fields m.1)) (m :: rest) =
          List.filterMap (fun m => Option.map (fun v => (m.1, v))
          (alookup fields m.1)) rest from
        List.filterMap_cons_none (by rw [ha]; rfl)]
      rw [ih hnd.1]
      by_cases hk : k = m.1
      · subst hk
        rw [if_pos (show m.1 ∈ fieldNames (m :: rest) from
          List.mem_cons.mpr (Or.inl rfl))]
        by_cases h2 : m.1 ∈ fieldNames rest
        · rw [if_pos h2]
        · rw [if_neg h2, ha]
      · by_cases h2 : k ∈ fieldNames rest
        · rw [if_pos h2, if_pos (show k ∈ fieldNames (m :: rest) from
            List.mem_cons.mpr (Or.inr h2))]
        · rw [if_neg h2, if_neg (show k ∉ fieldNames (m :: rest) from
            fun hc => (List.mem_cons.mp hc).elim hk h2)]
    | some v =>
      rw [show List.filterMap (fun m => Option.map (fun v => (m.1, v))
          (alookup fields m.1)) (m :: rest) =
          (m.1, v) :: List.filterMap (fun m => Option.map (fun v => (m.1, v))
          (alookup fields m.1)) rest from
        List.filterMap_cons_some (by rw [ha]; rfl)]
      show (if m.1 = k then some v else _) = _
      by_cases hk : k = m.1
      · subst hk
        rw [if_pos rfl,
          if_pos (show m.1 ∈ fieldNames (m :: rest) from
            List.mem_cons.mpr (Or.inl rfl)), ha]
      · rw [if_neg (fun he => hk he.symm), ih hnd.1]
        by_cases h2 : k ∈ fieldNames rest
        · rw [if_pos h2, if_pos (show k ∈ fieldNames (m :: rest) from
            List.mem_cons.mpr (Or.inr h2))]
        · rw [if_neg h2, if_neg (show k ∉ fieldNames (m :: rest) from
            fun hc => (List.mem_cons.mp hc).elim hk h2)]

theorem inferNoteType_ok_congr (k1 k2 : List Str) (h : ∀ x, x ∈ k1 ↔ x ∈ k2)
    (ty : Str) (hok : inferNoteType k1 = .ok ty) : inferNoteType k2 = .ok ty := by
  unfold inferNoteType at hok ⊢
  have hp : (fun (t : Str × List (Str × Str × Bool)) =>
      (requiredFields t.2).all (fun f => decide (f ∈ k1))) =
      (fun (t : Str × List (Str × Str × Bool)) =>
      (requiredFields t.2).all (fun f => decide (f ∈ k2))) := by
    funext t
    have hall : ∀ L : List Str,
        (L.all (fun f => decide (f ∈ k1))) = (L.all (fun f => decide (f ∈ k2))) := by
      intro L
      induction L with
      | nil => rfl
      | cons a t2 ih =>
        simp only [List.all_cons]
        rw [decide_eq_decide.mpr (h a), ih]
    exact hall _
  rw [hp] at hok
  cases hf : (noteTypes.filter
      (fun t => decide ¬(t.1 = "AnkiOpsQA".toList))).find?
      (fun t => (requiredFields t.2).all (fun f => decide (f ∈ k2))) with
  | some t =>
    rw [hf] at hok
    exact hok
  | none =>
    rw [hf] at hok
    by_cases hq : "Question".toList ∈ k2 ∧ "Answer".toList ∈ k2
    · rw [if_pos hq]
      rw [if_pos ⟨(h _).mpr hq.1, (h _).mpr hq.2⟩] at hok
      exact hok
    · rw [if_neg (fun hc => hq ⟨(h _).mp hc.1, (h _).mp hc.2⟩)] at hok
      simp at hok

theorem noteTypes_maps_facts (ty : Str) (maps : List (Str × Str × Bool))
    (h : alookup noteTypes ty = some maps) :
    (fieldNames maps).Nodup
    ∧ (∀ m ∈ maps, (m.2.1, m.1) ∈ allPfxToField)
    ∧ (∀ m ∈ maps, '\n' ∉ m.2.1) := by
  have hm := alookup_mem _ _ _ h
  simp only [noteTypes, commonFields, List.mem_cons, List.not_mem_nil,
    or_false] at hm
  rcases hm with hm|hm|hm|hm|hm <;>
    (simp only [Prod.mk.injEq] at hm
     obtain ⟨h1, h2⟩ := hm
     subst h2
     refine ⟨by decide, by decide, by decide⟩)

theorem bodyLine_form (fields : List (Str × Str)) (maps : List (Str × Str × Bool))
    (hvals : ∀ kv ∈ fields, kv.2 ≠ [] ∧ '\n' ∉ kv.2 ∧ stripStr kv.2 = kv.2)
    (hnl : ∀ m ∈ maps, '\n' ∉ m.2.1)
    (x : Str) (hx : x ∈ maps.filterMap (mappingLine (fun s => s) fields)) :
    ∃ p v, x = p ++ ' ' :: v ∧ v ≠ [] ∧ stripStr v = v ∧ '\n' ∉ x := by
  obtain ⟨m, hm, hmx⟩ := List.mem_filterMap.mp hx
  rw [mappingLine_id fields m (fun kv hkv => (hvals kv hkv).1)] at hmx
  cases ha : alookup fields m.1 with
  | none =>
    rw [ha] at hmx
    simp at hmx
  | some v =>
    rw [ha] at hmx
    have hv := hvals (m.1, v) (alookup_mem _ _ _ ha)
    have hmx' : some (m.2.1 ++ ' ' :: v) = some x := hmx
    injection hmx' with hxx
    subst hxx
    refine ⟨m.2.1, v, rfl, hv.1, hv.2.2, ?_⟩
    intro hin
    rcases List.mem_append.mp hin with h | h
    · exact hnl m hm h
    · rcases List.mem_cons.mp h with h | h
      · simp at h
      · exact hv.2.1 h

theorem stripStr_block (n : Nat) (body : List Str)
    (hbody : ∀ x ∈ body, ∃ p v, x = p ++ ' ' :: v ∧ v ≠ [] ∧ stripStr v = v) :
    stripStr (joinLines
      (("<!-- note_id: ".toList ++ renderNat n ++ " -->".toList) :: body)) =
    joinLines
      (("<!-- note_id: ".toList ++ renderNat n ++ " -->".toList) :: body) := by
  have hm_last :
      ("<!-- note_id: ".toList ++ renderNat n ++ " -->".toList : Str).getLast? =
        some '>' := by
    rw [List.getLast?_append_of_ne_nil _ (by decide)]
    decide
  cases body with
  | nil =>
    show stripStr ('<' :: ("!-- note_id: ".toList ++ renderNat n ++ " -->".toList)) =
      '<' :: ("!-- note_id: ".toList ++ renderNat n ++ " -->".toList)
    exact stripStr_eq_self '<' _ '>' (by decide) hm_last (by decide)
  | cons b1 brest =>
    obtain ⟨ll, hg⟩ : ∃ ll, (b1 :: brest).getLast? = some ll := by
      cases hg : (b1 :: brest).getLast? with
      | none => exact absurd (List.getLast?_eq_none_iff.mp hg) (by simp)
      | some ll => exact ⟨ll, rfl⟩
    obtain ⟨p, v, hxp, hvne, hvs⟩ := hbody ll (List.mem_of_mem_getLast? hg)
    obtain ⟨d, hd⟩ : ∃ d, v.getLast? = some d := by
      cases hdg : v.getLast? with
      | none => exact absurd (List.getLast?_eq_none_iff.mp hdg) hvne
      | some d => exact ⟨d, rfl⟩
    have hld : ll.getLast? = some d := by
      rw [hxp, show (p ++ ' ' :: v : Str) = (p ++ [' ']) ++ v from by simp,
        List.getLast?_append_of_ne_nil _ hvne]
      exact hd
    have hdw : isWs d = false := strip_self_last v d hvs hd
    have hlast : (joinLines
        (("<!-- note_id: ".toList ++ renderNat n ++ " -->".toList) ::
          b1 :: brest)).getLast? = some d :=
      getLast?_joinLines (b1 :: brest) _ ll d
        (by rw [List.getLast?_cons_cons]; exact hg) hld
    show stripStr ('<' :: (("!-- note_id: ".toList ++ renderNat n ++ " -->".toList) ++
        '\n' :: joinLines (b1 :: brest))) =
      '<' :: (("!-- note_id: ".toList ++ renderNat n ++ " -->".toList) ++
        '\n' :: joinLines (b1 :: brest))
    exact stripStr_eq_self '<' _ d (by decide) hlast hdw

/-- C8 (amended): for a note with a known type whose field keys re-infer
that type, with every field value non-empty, single-line and
strip-invariant, formatting with the identity codec and re-parsing
recovers the same identifier, the same type tag, and the same field
mapping (as a key-value map). -/
theorem round_trip_single_line (n : Nat) (ty : Str)
    (maps : List (Str × Str × Bool)) (fields : List (Str × Str))
    (hmaps : alookup noteTypes ty = some maps)
    (hkeys : ∀ kv ∈ fields, kv.1 ∈ fieldNames maps)
    (hvals : ∀ kv ∈ fields, kv.2 ≠ [] ∧ '\n' ∉ kv.2 ∧ stripStr kv.2 = kv.2)
    (hinfer : inferNoteType (fields.map (fun kv => kv.1)) = .ok ty) :
    ∃ pf, fromBlock (toMarkdown (fun s => s) n ty fields) = .ok ⟨some n, ty, pf⟩
      ∧ ∀ k, alookup pf k = alookup fields k := by
  obtain ⟨hnodupM, hpfx, hnl⟩ := noteTypes_maps_facts ty maps hmaps
  have htm : toMarkdown (fun s => s) n ty fields =
      joinLines (("<!-- note_id: ".toList ++ renderNat n ++ " -->".toList) ::
        maps.filterMap (mappingLine (fun s => s) fields)) := by
    unfold toMarkdown alookupD
    rw [hmaps]
    rfl
  have hlines : ∀ x ∈ ("<!-- note_id: ".toList ++ renderNat n ++ " -->".toList) ::
      maps.filterMap (mappingLine (fun s => s) fields), '\n' ∉ x := by
    intro x hx
    rcases List.mem_cons.mp hx with h | h
    · subst h
      exact newline_not_mem_marker n
    · obtain ⟨p, v, _, _, _, hnlx⟩ := bodyLine_form fields maps hvals hnl x h
      exact hnlx
  have hsplit := splitLines_joinLines
    (maps.filterMap (mappingLine (fun s => s) fields))
    ("<!-- note_id: ".toList ++ renderNat n ++ " -->".toList) hlines
  have hstrip := stripStr_block n (maps.filterMap (mappingLine (fun s => s) fields))
    (fun x hx => by
      obtain ⟨p, v, h1, h2, h3, _⟩ := bodyLine_form fields maps hvals hnl x hx
      exact ⟨p, v, h1, h2, h3⟩)
  rw [htm]
  unfold fromBlock
  dsimp only
  rw [hstrip, hsplit]
  rw [show parseLinesM (("<!-- note_id: ".toList ++ renderNat n ++ " -->".toList) ::
        maps.filterMap (mappingLine (fun s => s) fields))
        ⟨none, [], none, [], false, []⟩ =
      match parseLine ("<!-- note_id: ".toList ++ renderNat n ++ " -->".toList)
          ⟨none, [], none, [], false, []⟩ with
      | .error e => .error e
      | .ok st' =>
        parseLinesM (maps.filterMap (mappingLine (fun s => s) fields)) st'
      from rfl]
  rw [parseLine_marker n ⟨none, [], none, [], false, []⟩]
  obtain ⟨stF, hp, hfl, hid⟩ := parseBody fields
    (fun kv hkv => ⟨(hvals kv hkv).1, (hvals kv hkv).2.2⟩) maps
    ⟨some n, [], none, [], false, []⟩ hpfx hnodupM rfl
    (fun m _ => List.not_mem_nil _)
  dsimp only
  rw [hp]
  dsimp only
  have hfl' : flushCur stF =
      maps.filterMap (fun m => (alookup fields m.1).map (fun v => (m.1, v))) := by
    rw [hfl]
    rfl
  have hlook : ∀ k, alookup (flushCur stF) k =
      if k ∈ fieldNames maps then alookup fields k else none := by
    intro k
    rw [hfl']
    exact alookup_entries fields k maps hnodupM
  have hkeyiff : ∀ x, x ∈ fields.map (fun kv => kv.1) ↔
      x ∈ (flushCur stF).map (fun kv => kv.1) := by
    intro x
    constructor
    · intro hx
      apply alookup_isSome_mem_keys
      rw [hlook x]
      obtain ⟨kv, hkv, hkx⟩ := List.mem_map.mp hx
      rw [if_pos (hkx ▸ hkeys kv hkv)]
      exact alookup_isSome_of_mem_keys fields x hx
    · intro hx
      have h1 : (alookup (flushCur stF) x).isSome :=
        alookup_isSome_of_mem_keys (flushCur stF) x hx
      rw [hlook x] at h1
      by_cases hc : x ∈ fieldNames maps
      · rw [if_pos hc] at h1
        exact alookup_isSome_mem_keys fields x h1
      · rw [if_neg hc] at h1
        simp at h1
  have hinf2 : inferNoteType ((flushCur stF).map (fun kv => kv.1)) = .ok ty :=
    inferNoteType_ok_congr _ _ hkeyiff ty hinfer
  rw [hinf2]
  refine ⟨flushCur stF, ?_, ?_⟩
  · rw [show stF.note_id =
        (⟨some n, [], none, [], false, []⟩ : PState).note_id from hid]
  · intro k
    rw [hlook k]
    by_cases hk : k ∈ fieldNames maps
    · rw [if_pos hk]
    · rw [if_neg hk]
      refine (alookup_eq_none fields k ?_).symm
      intro hc
      obtain ⟨kv, hkv, hkx⟩ := List.mem_map.mp hc
      exact hk (hkx ▸ hkeys kv hkv)

theorem round_trip_counterexample :
    (∀ f ∈ requiredFields (alookupD noteTypes ("AnkiOpsQA".toList) []),
       alookupD [("Question".toList, "q".toList),
                 ("Answer".toList, 'a' :: '\n' :: "E: x".toList)] f [] ≠ [])
    ∧ fromBlock (toMarkdown (fun s => s) 1 ("AnkiOpsQA".toList)
        [("Question".toList, "q".toList),
         ("Answer".toList, 'a' :: '\n' :: "E: x".toList)]) =
      .ok ⟨some 1, "AnkiOpsQA".toList,
        [("Question".toList, "q".toList), ("Answer".toList, "a".toList),
         ("Extra".toList, "x".toList)]⟩
    ∧ alookup [("Question".toList, "q".toList), ("Answer".toList, "a".toList),
         ("Extra".toList, "x".toList)] ("Answer".toList) ≠
      alookup [("Question".toList, "q".toList),
         ("Answer".toList, 'a' :: '\n' :: "E: x".toList)] ("Answer".toList) :=
  ⟨by decide, by decide, by decide⟩

theorem round_trip_single_line_witness :
    (alookup noteTypes ("AnkiOpsQA".toList) =
      some ([("Question".toList, "Q:".toList, true),
             ("Answer".toList, "A:".toList, true)] ++ commonFields)
     ∧ (∀ kv ∈ ([("Question".toList, "q".toList), ("Answer".toList, "a".toList)] :
          List (Str × Str)),
         kv.1 ∈ fieldNames ([("Question".toList, "Q:".toList, true),
             ("Answer".toList, "A:".toList, true)] ++ commonFields))
     ∧ (∀ kv ∈ ([("Question".toList, "q".toList), ("Answer".toList, "a".toList)] :
          List (Str × Str)),
         kv.2 ≠ [] ∧ '\n' ∉ kv.2 ∧ stripStr kv.2 = kv.2)
     ∧ inferNoteType (([("Question".toList, "q".toList),
          ("Answer".toList, "a".toList)] : List (Str × Str)).map
          (fun kv => kv.1)) = .ok ("AnkiOpsQA".toList))
    ∧ ∃ pf, fromBlock (toMarkdown (fun s => s) 1 ("AnkiOpsQA".toList)
        [("Question".toList, "q".toList), ("Answer".toList, "a".toList)]) =
        .ok ⟨some 1, "AnkiOpsQA".toList, pf⟩
      ∧ ∀ k, alookup pf k =
          alookup [("Question".toList, "q".toList),
                   ("Answer".toList, "a".toList)] k :=
  ⟨⟨by decide, by decide, by decide, by decide⟩,
   round_trip_single_line 1 ("AnkiOpsQA".toList)
     ([("Question".toList, "Q:".toList, true),
       ("Answer".toList, "A:".toList, true)] ++ commonFields)
     [("Question".toList, "q".toList), ("Answer".toList, "a".toList)]
     (by decide) (by decide) (by decide) (by decide)⟩
